import Mathlib

/-!
ArduinoTFTChessClock: seven segment displays on a TFT surface.

A shallow embedding of `TFTSevenSegmentModule`, `TFTSevenSegmentDisplay`,
`TFTSevenSegmentDecimalDisplay` and `TFTSevenSegmentClockDisplay`.

Conventions of the embedding.

* The drawing surface (`Adafruit_TFTLCD* m_tft`) is an external collaborator.  Every
  primitive the code invokes on it is recorded, in order, as a `DrawCall`; a method
  that draws returns the list of calls it made.
* `int16_t` and `int` values are integers (`Int`); `/` and `%` of the source are the
  truncating `Int.tdiv` and `Int.tmod` of C++.  `uint16_t` colours are `Nat`.
* A method whose behaviour is undefined in C++ (reading `digitCodeMap` outside its ten
  entries, dereferencing a module pointer that was never allocated) returns `none`:
  no behaviour is defined, which is not to say that the code stops or draws nothing.
* The `float` arithmetic of the target is a parameter: a `Ratio` gives, for the value
  of `secondsHeightRatio`, the integer each `float` expression of the constructor
  yields.  `Ratio.exact` is the instance in which no `float` operation rounds.
-/

/-- One primitive invoked on the drawing surface. -/
inductive DrawCall where
  | startWrite
  | endWrite
  | writeFastVLine (x y h : Int) (color : Nat)
  | writeFastHLine (x y w : Int) (color : Nat)
  | fillRect (x y w h : Int) (color : Nat)
deriving DecidableEq, Repr

/-- The segment activation codes, `digitCodeMap[]` of TFTSevenSegmentModule.cpp
(bits `GFEDCBA`). -/
def digitCodeMap : List Nat :=
  [ 0b00111111,  -- 0
    0b00000110,  -- 1
    0b01011011,  -- 2
    0b01001111,  -- 3
    0b01100110,  -- 4
    0b01101101,  -- 5
    0b01111101,  -- 6
    0b00000111,  -- 7
    0b01111111,  -- 8
    0b01101111 ] -- 9

/-- State of one seven segment module (the private members of the class, the surface
pointer apart). -/
structure TFTSevenSegmentModule where
  m_x : Int
  m_y : Int
  m_w : Int
  m_h : Int
  m_onColor : Nat
  m_offColor : Nat
  m_ledWidth : Int
  m_on : Bool
deriving DecidableEq, Repr

namespace TFTSevenSegmentModule

/-- The iterations `i = 0, 1, ...` of `for (int i = 0; i < bound; i++)`. -/
def loopIndices (bound : Int) : List Int :=
  (List.range bound.toNat).map (fun i => (i : Int))

/-- Source: `draw_F_LeftUpperLed`. -/
def draw_F_LeftUpperLed (m : TFTSevenSegmentModule) (color : Nat) : List DrawCall :=
  [DrawCall.startWrite]
    ++ (loopIndices m.m_ledWidth).map (fun i =>
          DrawCall.writeFastVLine (m.m_x + i) (m.m_y + i) (Int.tdiv m.m_h 2 - 2 * i) color)
    ++ [DrawCall.endWrite]

/-- Source: `draw_E_LeftBottomLed`. -/
def draw_E_LeftBottomLed (m : TFTSevenSegmentModule) (color : Nat) : List DrawCall :=
  [DrawCall.startWrite]
    ++ (loopIndices m.m_ledWidth).map (fun i =>
          DrawCall.writeFastVLine (m.m_x + i) (Int.tdiv m.m_h 2 + m.m_y + i + 1)
            (Int.tdiv m.m_h 2 - 2 * i) color)
    ++ [DrawCall.endWrite]

/-- Source: `draw_B_RightUpperLed`. -/
def draw_B_RightUpperLed (m : TFTSevenSegmentModule) (color : Nat) : List DrawCall :=
  [DrawCall.startWrite]
    ++ (loopIndices m.m_ledWidth).map (fun i =>
          DrawCall.writeFastVLine (m.m_x + m.m_w - i) (m.m_y + i)
            (Int.tdiv m.m_h 2 - 2 * i) color)
    ++ [DrawCall.endWrite]

/-- Source: `draw_C_RightBottomLed`. -/
def draw_C_RightBottomLed (m : TFTSevenSegmentModule) (color : Nat) : List DrawCall :=
  [DrawCall.startWrite]
    ++ (loopIndices m.m_ledWidth).map (fun i =>
          DrawCall.writeFastVLine (m.m_x + m.m_w - i) (m.m_y + Int.tdiv m.m_h 2 + i + 1)
            (Int.tdiv m.m_h 2 - 2 * i) color)
    ++ [DrawCall.endWrite]

/-- Source: `draw_G_MiddleLed`. -/
def draw_G_MiddleLed (m : TFTSevenSegmentModule) (color : Nat) : List DrawCall :=
  [DrawCall.startWrite]
    ++ (if m.m_ledWidth < 2 then
          [DrawCall.writeFastHLine (m.m_x + 1) (m.m_y + Int.tdiv m.m_h 2) m.m_w color]
        else
          let ledWidth : Int := if m.m_ledWidth < 2 then 1 else Int.tdiv m.m_ledWidth 2
          (loopIndices (ledWidth + Int.tmod m.m_ledWidth 2)).flatMap (fun i =>
            [DrawCall.writeFastHLine (m.m_x + i + 2) (m.m_y + Int.tdiv m.m_h 2 - i)
               (m.m_w - 2 * i - 4) color]
            ++ (if m.m_ledWidth > 1 then
                  [DrawCall.writeFastHLine (m.m_x + i + 2) (m.m_y + Int.tdiv m.m_h 2 + i + 1)
                     (m.m_w - 2 * i - 4) color]
                else [])))
    ++ [DrawCall.endWrite]

/-- Source: `draw_A_UpperLed`. -/
def draw_A_UpperLed (m : TFTSevenSegmentModule) (color : Nat) : List DrawCall :=
  [DrawCall.startWrite]
    ++ (if m.m_ledWidth < 2 then
          [DrawCall.writeFastHLine m.m_x m.m_y m.m_w color]
        else
          (loopIndices m.m_ledWidth).map (fun i =>
            DrawCall.writeFastHLine (m.m_x + i + 3) (m.m_y + i) (m.m_w - 2 * i - 5) color))
    ++ [DrawCall.endWrite]

/-- Source: `draw_D_BottomLed`. -/
def draw_D_BottomLed (m : TFTSevenSegmentModule) (color : Nat) : List DrawCall :=
  [DrawCall.startWrite]
    ++ (if m.m_ledWidth < 2 then
          [DrawCall.writeFastHLine m.m_x (m.m_y + m.m_h) m.m_w color]
        else
          (loopIndices m.m_ledWidth).map (fun i =>
            DrawCall.writeFastHLine (m.m_x + i + 3) (m.m_y + m.m_h - i)
              (m.m_w - 2 * i - 5) color))
    ++ [DrawCall.endWrite]

/-- The colour argument `(leds & mask) && m_on ? m_onColor : m_offColor` that
`display` passes to a segment drawer. -/
def ledColor (m : TFTSevenSegmentModule) (leds mask : Nat) : Nat :=
  if (leds &&& mask != 0) && m.m_on then m.m_onColor else m.m_offColor

/-- Source: `display(digit)`.  The table is read at `digit`; outside its ten entries
the read is undefined and the result is `none`.  Here `none` records that C++ defines no
behaviour, not that the code stops: `displayReading` below is what the code goes on to
do with the byte it reads. -/
def display (m : TFTSevenSegmentModule) (digit : Int) : Option (List DrawCall) :=
  if 0 ≤ digit then
    match digitCodeMap[digit.toNat]? with
    | some leds =>
      some (m.draw_A_UpperLed (m.ledColor leds 1)
        ++ m.draw_B_RightUpperLed (m.ledColor leds 2)
        ++ m.draw_C_RightBottomLed (m.ledColor leds 4)
        ++ m.draw_D_BottomLed (m.ledColor leds 8)
        ++ m.draw_E_LeftBottomLed (m.ledColor leds 16)
        ++ m.draw_F_LeftUpperLed (m.ledColor leds 32)
        ++ m.draw_G_MiddleLed (m.ledColor leds 64))
    | none => none
  else none

/-- Source: `setPosition`. -/
def setPosition (m : TFTSevenSegmentModule) (x y : Int) : TFTSevenSegmentModule :=
  { m with m_x := x, m_y := y }

/-- Source: `setOnColor`. -/
def setOnColor (m : TFTSevenSegmentModule) (color : Nat) : TFTSevenSegmentModule :=
  { m with m_onColor := color }

/-- Source: `setOffColor`. -/
def setOffColor (m : TFTSevenSegmentModule) (color : Nat) : TFTSevenSegmentModule :=
  { m with m_offColor := color }

/-- Source: `setLedWidth`. -/
def setLedWidth (m : TFTSevenSegmentModule) (ledWidth : Int) : TFTSevenSegmentModule :=
  { m with m_ledWidth := ledWidth }

/-- Source: `setWidth`. -/
def setWidth (m : TFTSevenSegmentModule) (w : Int) : TFTSevenSegmentModule :=
  { m with m_w := w }

/-- Source: `setHeight`. -/
def setHeight (m : TFTSevenSegmentModule) (h : Int) : TFTSevenSegmentModule :=
  { m with m_h := h }

/-- Source: `on` (the bare name is reserved in Lean, hence the underscore). -/
def on_ (m : TFTSevenSegmentModule) : TFTSevenSegmentModule :=
  { m with m_on := true }

/-- Source: `off`. -/
def off (m : TFTSevenSegmentModule) : TFTSevenSegmentModule :=
  { m with m_on := false }

/-- Source: `getX`. -/
def getX (m : TFTSevenSegmentModule) : Int := m.m_x

/-- Source: `getY`. -/
def getY (m : TFTSevenSegmentModule) : Int := m.m_y

/-- Source: `getWidth`. -/
def getWidth (m : TFTSevenSegmentModule) : Int := m.m_w

/-- Source: `getHeight`. -/
def getHeight (m : TFTSevenSegmentModule) : Int := m.m_h

/-- Source: `getLedWidth`. -/
def getLedWidth (m : TFTSevenSegmentModule) : Int := m.m_ledWidth

end TFTSevenSegmentModule

/-! ## Displays: rows of modules -/

/-- The array `TFTSevenSegmentModule* digits[DIGITS]` of a display: slot `i` holds the
module allocated for it, or `none` while the pointer was never assigned. -/
abbrev Digits := Nat → Option TFTSevenSegmentModule

namespace Digits

/-- The call `digits[i]->f(...)` of a mutator `f`; undefined on an unallocated slot. -/
def modify (digits : Digits) (i : Nat) (f : TFTSevenSegmentModule → TFTSevenSegmentModule) :
    Option Digits :=
  match digits i with
  | some m => some (Function.update digits i (some (f m)))
  | none => none

/-- The call `digits[i]->display(digit)`. -/
def displayAt (digits : Digits) (i : Nat) (digit : Int) : Option (List DrawCall) :=
  match digits i with
  | some m => m.display digit
  | none => none

/-- The statements `digits[i]->on(); digits[i]->display(digit);`. -/
def onAndDisplay (digits : Digits) (i : Nat) (digit : Int) :
    Option (Digits × List DrawCall) := do
  let ds ← digits.modify i TFTSevenSegmentModule.on_
  let tr ← ds.displayAt i digit
  pure (ds, tr)

/-- The statements `digits[i]->off(); digits[i]->display(0);`. -/
def offAndDisplay (digits : Digits) (i : Nat) : Option (Digits × List DrawCall) := do
  let ds ← digits.modify i TFTSevenSegmentModule.off
  let tr ← ds.displayAt i 0
  pure (ds, tr)

/-- The loop `for (int i = start; i < stop; i++) digits[i]->f(...);`. -/
def modifyRange (digits : Digits) (start stop : Nat)
    (f : TFTSevenSegmentModule → TFTSevenSegmentModule) : Option Digits :=
  (List.range' start (stop - start)).foldlM (fun ds i => modify ds i f) digits

end Digits

/-- The protected members of the abstract base class `TFTSevenSegmentDisplay`. -/
structure TFTSevenSegmentDisplay where
  m_x : Int
  m_y : Int
  m_w : Int
  m_h : Int
  m_onColor : Nat
  m_offColor : Nat
  m_ledWidth : Int
deriving DecidableEq, Repr

/-- State of a decimal display: the base members and the three module slots. -/
structure TFTSevenSegmentDecimalDisplay extends TFTSevenSegmentDisplay where
  digits : Digits

namespace TFTSevenSegmentDecimalDisplay

/-- Source: `static const int16_t DIGITS = 3`. -/
def DIGITS : Nat := 3

/-- Source: `enum Unit {HUNDREDS, TENS, ONES}`. -/
def HUNDREDS : Nat := 0

/-- Second value of `enum Unit`. -/
def TENS : Nat := 1

/-- Third value of `enum Unit`. -/
def ONES : Nat := 2

/-- One iteration of the constructor's loop, on the state `(offsetx, digits)`. -/
def constructStep (x y w h : Int) (onColor offColor : Nat) (segmentWidth : Int)
    (st : Int × Digits) (i : Nat) : Int × Digits :=
  let offsetx := st.1 + (w + Int.tdiv w 8) + 3
  (offsetx, Function.update st.2 i
    (some (TFTSevenSegmentModule.mk (x + offsetx) y w h onColor offColor segmentWidth true)))

/-- Source: the constructor `TFTSevenSegmentDecimalDisplay(tft, x, y, w, h, onColor,
offColor, ledWidth)`. -/
def new (x y w h : Int) (onColor offColor : Nat) (ledWidth : Int) :
    TFTSevenSegmentDecimalDisplay :=
  let base : TFTSevenSegmentDisplay :=
    { m_x := x, m_y := y, m_w := w, m_h := h, m_onColor := onColor,
      m_offColor := offColor, m_ledWidth := ledWidth }
  let segmentWidth := base.m_ledWidth
  let st := (List.range DIGITS).foldl
    (constructStep x y w h base.m_onColor base.m_offColor segmentWidth) (0, fun _ => none)
  { toTFTSevenSegmentDisplay := base, digits := st.2 }

/-- Source: `display(int16_t hundreds, int16_t tens, int16_t ones)`. -/
def display (d : TFTSevenSegmentDecimalDisplay) (hundreds tens ones : Int) :
    Option (TFTSevenSegmentDecimalDisplay × List DrawCall) := do
  let (ds1, tr1) ←
    (if hundreds > 0 then d.digits.onAndDisplay HUNDREDS (Int.tmod hundreds 10)
     else d.digits.offAndDisplay HUNDREDS)
  let (ds2, tr2) ←
    (if tens > 0 ∨ hundreds > 0 then ds1.onAndDisplay TENS (Int.tmod tens 10)
     else ds1.offAndDisplay TENS)
  let (ds3, tr3) ←
    (if tens > 0 ∨ hundreds > 0 ∨ ones > 0 then ds2.onAndDisplay ONES (Int.tmod ones 10)
     else ds2.offAndDisplay ONES)
  pure ({ d with digits := ds3 }, tr1 ++ tr2 ++ tr3)

/-- Source: `display(int16_t number)`, the one-argument overload. -/
def displayNumber (d : TFTSevenSegmentDecimalDisplay) (number : Int) :
    Option (TFTSevenSegmentDecimalDisplay × List DrawCall) :=
  d.display (Int.tmod (Int.tdiv number 100) 10) (Int.tmod (Int.tdiv number 10) 10)
    (Int.tmod number 10)

/-- All three module slots hold a module, as after construction. -/
def Allocated (d : TFTSevenSegmentDecimalDisplay) : Prop :=
  ∀ i, i < DIGITS → ∃ m, d.digits i = some m

end TFTSevenSegmentDecimalDisplay

/-- The `float` value `secondsHeightRatio` by which the seconds digits are scaled, as the
three `float` expressions of the constructor see it.  Each field is the value of one of
these expressions after its conversion to an integer type.  How the target rounds a
`float` product or sum is not fixed: what is proved of every `Ratio` holds whatever
that rounding is. -/
structure Ratio where
  /-- Value of `(float)v * m_secondsHeightRatio`, converted to `int16_t`. -/
  scale : Int → Int
  /-- Value of `v * m_secondsHeightRatio + 1`, converted to `int`. -/
  scaleInc : Int → Int
  /-- Value of `offsetx + v * m_secondsHeightRatio + 3`, converted to `int`. -/
  advance : Int → Int → Int

namespace Ratio

/-- The ratio `num / den` on operands for which no `float` operation rounds: every product
and sum is the exact value, and the conversion to an integer truncates it toward zero.
In IEEE single precision this is the arithmetic of the ratios 0, 3/4 and 1 on every
operand a 16-bit module size leads to; it is not the arithmetic of a ratio such as 7/10,
whose products are rounded before they are truncated. -/
def exact (num : Int) (den : Nat) : Ratio :=
  { scale := fun v => Int.tdiv (v * num) den,
    scaleInc := fun v => Int.tdiv (v * num + den) den,
    advance := fun offsetx v => Int.tdiv (offsetx * den + v * num + 3 * den) den }

end Ratio

/-- State of a clock display: the base members, `m_showHours`, `m_secondsHeightRatio`
and the six module slots. -/
structure TFTSevenSegmentClockDisplay extends TFTSevenSegmentDisplay where
  m_showHours : Bool
  m_secondsHeightRatio : Ratio
  digits : Digits

namespace TFTSevenSegmentClockDisplay

/-- Source: `#define SECONDS_IN_MINUTE 60`. -/
def SECONDS_IN_MINUTE : Int := 60

/-- Source: `#define MINUTES_IN_HOUR 60`. -/
def MINUTES_IN_HOUR : Int := 60

/-- Source: `#define HOURS_IN_DAY 24`. -/
def HOURS_IN_DAY : Int := 24

/-- Source: `#define MILLIS_IN_SECOND 1000`. -/
def MILLIS_IN_SECOND : Int := 1000

/-- Source: `static const int16_t DIGITS = 6`. -/
def DIGITS : Nat := 6

/-- Source: `enum Unit { HH1 = 0, HH2, MM1, MM2, SS1, SS2 }`. -/
def HH1 : Nat := 0

/-- Hours, ones digit. -/
def HH2 : Nat := 1

/-- Minutes, tens digit. -/
def MM1 : Nat := 2

/-- Minutes, ones digit. -/
def MM2 : Nat := 3

/-- Seconds, tens digit. -/
def SS1 : Nat := 4

/-- Seconds, ones digit. -/
def SS2 : Nat := 5

/-- Start index `m_showHours ? 0 : 2` of the loops over the owned modules. -/
def firstDigit (showHours : Bool) : Nat := if showHours then 0 else 2

/-- Local variables of the constructor's loop. -/
structure ConstructState where
  groupOffset : Int
  digit : Int
  offsetx : Int
  segmentWidth : Int
  digits : Digits

/-- One iteration of the constructor's loop. -/
def constructStep (x y w h : Int) (onColor offColor : Nat) (ledWidth : Int) (r : Ratio)
    (st : ConstructState) (i : Nat) : ConstructState :=
  let offsetx :=
    if i < SS2 then st.digit * (w + Int.tdiv w 8 + 3) + st.groupOffset
    else r.advance st.offsetx (w + Int.tdiv w 8)
  let segmentWidth :=
    if i > MM2 ∧ ledWidth > 2 then r.scaleInc ledWidth else st.segmentWidth
  let digits := Function.update st.digits i
    (some (TFTSevenSegmentModule.mk (x + offsetx) y w h onColor offColor segmentWidth true))
  { groupOffset := if i % 2 ≠ 0 then st.groupOffset + Int.tdiv w 2 else st.groupOffset,
    digit := st.digit + 1,
    offsetx := offsetx,
    segmentWidth := segmentWidth,
    digits := digits }

/-- Source: the ten-argument constructor `TFTSevenSegmentClockDisplay(tft, x, y, w, h,
onColor, offColor, ledWidth, showHours, secondsHeightRatio)`. -/
def new (x y w h : Int) (onColor offColor : Nat) (ledWidth : Int) (showHours : Bool)
    (secondsHeightRatio : Ratio) : Option TFTSevenSegmentClockDisplay := do
  let base : TFTSevenSegmentDisplay :=
    { m_x := x, m_y := y, m_w := w, m_h := h, m_onColor := onColor,
      m_offColor := offColor, m_ledWidth := ledWidth }
  let st := (List.range' (firstDigit showHours) (DIGITS - firstDigit showHours)).foldl
    (constructStep x y w h base.m_onColor base.m_offColor base.m_ledWidth secondsHeightRatio)
    { groupOffset := 0, digit := 0, offsetx := 0, segmentWidth := base.m_ledWidth,
      digits := fun _ => none }
  let ds1 ← st.digits.modify SS1
    (fun m => m.setHeight (secondsHeightRatio.scale h))
  let ds2 ← ds1.modify SS2 (fun m => m.setHeight (secondsHeightRatio.scale h))
  let ds3 ← ds2.modify SS1 (fun m => m.setWidth (secondsHeightRatio.scale w))
  let ds4 ← ds3.modify SS2 (fun m => m.setWidth (secondsHeightRatio.scale w))
  pure { toTFTSevenSegmentDisplay := base, m_showHours := showHours,
         m_secondsHeightRatio := secondsHeightRatio, digits := ds4 }

/-- Source: the eight-argument constructor `TFTSevenSegmentClockDisplay(tft, x, y, w, h,
onColor, offColor, ledWidth)`.  Its body is the expression statement
`TFTSevenSegmentClockDisplay(tft, x, y, w, h, onColor, offColor, ledWidth, true, 1.0);`,
which builds a temporary object and discards it.  The object under construction gets
the default constructor of the base class and its default member initialisers
(`m_x{}` to `m_ledWidth{}`, `m_showHours{}`, `m_secondsHeightRatio{}`), and no element of
its array `digits` is assigned. -/
def new8 (_x _y _w _h : Int) (_onColor _offColor : Nat) (_ledWidth : Int) :
    TFTSevenSegmentClockDisplay :=
  { m_x := 0, m_y := 0, m_w := 0, m_h := 0, m_onColor := 0, m_offColor := 0,
    m_ledWidth := 0, m_showHours := false, m_secondsHeightRatio := Ratio.exact 0 1,
    digits := fun _ => none }

/-- The four `fillRect` calls that draw the separator dots when hours are shown. -/
def separators (c : TFTSevenSegmentClockDisplay) (ds : Digits) (isSeparatorOn : Bool) :
    Option (List DrawCall) := do
  let hh2 ← ds HH2
  let mm1 ← ds MM1
  let mm2 ← ds MM2
  let ss1 ← ds SS1
  let color := if isSeparatorOn = true then c.m_onColor else c.m_offColor
  let side := Int.tdiv c.m_ledWidth 2 + 1
  pure
    [ DrawCall.fillRect
        (hh2.getX + hh2.getWidth + Int.tdiv (mm1.getX - (hh2.getX + hh2.getWidth)) 2
          - Int.tdiv mm1.getLedWidth 4)
        (hh2.getY + Int.tdiv mm1.getHeight 4)
        side side color,
      DrawCall.fillRect
        (hh2.getX + hh2.getWidth + Int.tdiv (mm1.getX - (hh2.getX + hh2.getWidth)) 2
          - Int.tdiv mm1.getLedWidth 4)
        (hh2.getY + Int.tdiv (3 * mm1.getHeight) 4 - Int.tdiv mm1.getLedWidth 2)
        side side color,
      DrawCall.fillRect
        (mm2.getX + mm2.getWidth + Int.tdiv (ss1.getX - (mm2.getX + mm2.getWidth)) 2
          - Int.tdiv mm1.getLedWidth 4)
        (mm2.getY + Int.tdiv ss1.getHeight 4)
        side side color,
      DrawCall.fillRect
        (mm2.getX + mm2.getWidth + Int.tdiv (ss1.getX - (mm2.getX + mm2.getWidth)) 2
          - Int.tdiv mm1.getLedWidth 4)
        (mm2.getY + Int.tdiv (3 * ss1.getHeight) 4 - Int.tdiv mm1.getLedWidth 2)
        side side color ]

/-- The body of `if (m_showHours) { ... }` in `display`: the two hours digits, then the
separator dots. -/
def displayHours (c : TFTSevenSegmentClockDisplay) (ds : Digits) (hours : Int)
    (isSeparatorOn : Bool) : Option (Digits × List DrawCall) := do
  let (ds1, tr1) ←
    (if hours > 9 then ds.onAndDisplay HH1 (Int.tmod (Int.tdiv hours 10) 10)
     else ds.offAndDisplay HH1)
  let tr2 ← ds1.displayAt HH2 (Int.tmod hours 10)
  let tr3 ← c.separators ds1 isSeparatorOn
  pure (ds1, tr1 ++ tr2 ++ tr3)

/-- Source: `display(hours, minutes, seconds, isSeparatorOn)`. -/
def display (c : TFTSevenSegmentClockDisplay) (hours minutes seconds : Int)
    (isSeparatorOn : Bool) : Option (TFTSevenSegmentClockDisplay × List DrawCall) := do
  let (ds1, tr1) ←
    (if minutes > 9 ∨ c.m_showHours = true then
       c.digits.onAndDisplay MM1 (Int.tmod (Int.tdiv minutes 10) 10)
     else c.digits.offAndDisplay MM1)
  let tr2 ← ds1.displayAt MM2 (Int.tmod minutes 10)
  let tr3 ← ds1.displayAt SS1 (Int.tmod (Int.tdiv seconds 10) 10)
  let tr4 ← ds1.displayAt SS2 (Int.tmod seconds 10)
  let (ds2, tr5) ←
    (if c.m_showHours = true then c.displayHours ds1 hours isSeparatorOn
     else pure (ds1, []))
  pure ({ c with digits := ds2 }, tr1 ++ tr2 ++ tr3 ++ tr4 ++ tr5)

/-- Source: `displaySeconds(timeSeconds, isSeparatorOn)`. -/
def displaySeconds (c : TFTSevenSegmentClockDisplay) (timeSeconds : Int)
    (isSeparatorOn : Bool) : Option (TFTSevenSegmentClockDisplay × List DrawCall) :=
  c.display
    (Int.tmod (Int.tdiv timeSeconds (SECONDS_IN_MINUTE * MINUTES_IN_HOUR)) HOURS_IN_DAY)
    (Int.tmod (Int.tdiv timeSeconds SECONDS_IN_MINUTE) MINUTES_IN_HOUR)
    (Int.tmod timeSeconds SECONDS_IN_MINUTE) isSeparatorOn

/-- Source: `displayMillis(timeMillis, isSeparatorOn)`. -/
def displayMillis (c : TFTSevenSegmentClockDisplay) (timeMillis : Int)
    (isSeparatorOn : Bool) : Option (TFTSevenSegmentClockDisplay × List DrawCall) :=
  c.displaySeconds (Int.tdiv timeMillis MILLIS_IN_SECOND) isSeparatorOn

/-- Source: `setOnColor(color)`. -/
def setOnColor (c : TFTSevenSegmentClockDisplay) (color : Nat) :
    Option TFTSevenSegmentClockDisplay := do
  let ds ← c.digits.modifyRange (firstDigit c.m_showHours) DIGITS (fun m => m.setOnColor color)
  pure { c with digits := ds, m_onColor := color }

/-- Source: `setOffColor(color)`. -/
def setOffColor (c : TFTSevenSegmentClockDisplay) (color : Nat) :
    Option TFTSevenSegmentClockDisplay := do
  let ds ← c.digits.modifyRange (firstDigit c.m_showHours) DIGITS (fun m => m.setOffColor color)
  pure { c with digits := ds, m_offColor := color }

/-- Source: `setLedSegmentWidth(ledWidth)`. -/
def setLedSegmentWidth (c : TFTSevenSegmentClockDisplay) (ledWidth : Int) :
    Option TFTSevenSegmentClockDisplay := do
  let ds ← c.digits.modifyRange (firstDigit c.m_showHours) DIGITS
    (fun m => m.setLedWidth ledWidth)
  pure { c with digits := ds, m_ledWidth := ledWidth }

/-- The slots the constructor allocates hold a module: all six when hours are shown,
the last four otherwise. -/
def Allocated (c : TFTSevenSegmentClockDisplay) : Prop :=
  ∀ i, firstDigit c.m_showHours ≤ i → i < DIGITS → ∃ m, c.digits i = some m

/-- The states a clock display can be in: the state either constructor leaves, and
every state a call of `display`, `displaySeconds`, `displayMillis`, `setOnColor`,
`setOffColor` or `setLedSegmentWidth` leads to from such a state. -/
inductive Reachable : TFTSevenSegmentClockDisplay → Prop where
  | construct (x y w h : Int) (onColor offColor : Nat) (ledWidth : Int) (showHours : Bool)
      (r : Ratio) (c : TFTSevenSegmentClockDisplay) :
      new x y w h onColor offColor ledWidth showHours r = some c → Reachable c
  | construct8 (x y w h : Int) (onColor offColor : Nat) (ledWidth : Int) :
      Reachable (new8 x y w h onColor offColor ledWidth)
  | display (c c' : TFTSevenSegmentClockDisplay) (hours minutes seconds : Int) (sep : Bool)
      (tr : List DrawCall) :
      Reachable c → c.display hours minutes seconds sep = some (c', tr) → Reachable c'
  | displaySeconds (c c' : TFTSevenSegmentClockDisplay) (t : Int) (sep : Bool)
      (tr : List DrawCall) :
      Reachable c → c.displaySeconds t sep = some (c', tr) → Reachable c'
  | displayMillis (c c' : TFTSevenSegmentClockDisplay) (t : Int) (sep : Bool)
      (tr : List DrawCall) :
      Reachable c → c.displayMillis t sep = some (c', tr) → Reachable c'
  | setOnColor (c c' : TFTSevenSegmentClockDisplay) (color : Nat) :
      Reachable c → c.setOnColor color = some c' → Reachable c'
  | setOffColor (c c' : TFTSevenSegmentClockDisplay) (color : Nat) :
      Reachable c → c.setOffColor color = some c' → Reachable c'
  | setLedSegmentWidth (c c' : TFTSevenSegmentClockDisplay) (ledWidth : Int) :
      Reachable c → c.setLedSegmentWidth ledWidth = some c' → Reachable c'

end TFTSevenSegmentClockDisplay

/-! ## Further members: setters and accessors of the displays -/

namespace TFTSevenSegmentModule

/-- The statements of `display` that follow the table read, for the byte `leds` read:
the seven drawer calls. -/
def displayLeds (m : TFTSevenSegmentModule) (leds : Nat) : List DrawCall :=
  m.draw_A_UpperLed (m.ledColor leds 1)
    ++ m.draw_B_RightUpperLed (m.ledColor leds 2)
    ++ m.draw_C_RightBottomLed (m.ledColor leds 4)
    ++ m.draw_D_BottomLed (m.ledColor leds 8)
    ++ m.draw_E_LeftBottomLed (m.ledColor leds 16)
    ++ m.draw_F_LeftUpperLed (m.ledColor leds 32)
    ++ m.draw_G_MiddleLed (m.ledColor leds 64)

/-- Source: `display(digit)` as the target executes it.  The statement
`const byte leds = digitCodeMap[digit];` makes no range check: it yields the byte
`read digit` found at that address, which is the table's entry for a digit in 0..9 and
whatever the memory around the table holds for any other digit; the seven drawer calls
follow unconditionally. -/
def displayReading (m : TFTSevenSegmentModule) (read : Int → Nat) (digit : Int) :
    List DrawCall :=
  m.displayLeds (read digit)

end TFTSevenSegmentModule

namespace TFTSevenSegmentDisplay

/-- Source: `TFTSevenSegmentDisplay::setPosition`. -/
def setPosition (b : TFTSevenSegmentDisplay) (x y : Int) : TFTSevenSegmentDisplay :=
  { b with m_x := x, m_y := y }

/-- Source: `TFTSevenSegmentDisplay::setOnColor`. -/
def setOnColor (b : TFTSevenSegmentDisplay) (color : Nat) : TFTSevenSegmentDisplay :=
  { b with m_onColor := color }

/-- Source: `TFTSevenSegmentDisplay::setOffColor`. -/
def setOffColor (b : TFTSevenSegmentDisplay) (color : Nat) : TFTSevenSegmentDisplay :=
  { b with m_offColor := color }

/-- Source: `TFTSevenSegmentDisplay::setLedSegmentWidth`. -/
def setLedSegmentWidth (b : TFTSevenSegmentDisplay) (ledWidth : Int) :
    TFTSevenSegmentDisplay :=
  { b with m_ledWidth := ledWidth }

/-- Source: `TFTSevenSegmentDisplay::setSegmentModuleWidth`. -/
def setSegmentModuleWidth (b : TFTSevenSegmentDisplay) (w : Int) : TFTSevenSegmentDisplay :=
  { b with m_w := w }

/-- Source: `TFTSevenSegmentDisplay::setSegmentModuleHeight`. -/
def setSegmentModuleHeight (b : TFTSevenSegmentDisplay) (h : Int) : TFTSevenSegmentDisplay :=
  { b with m_h := h }

/-- Source: `TFTSevenSegmentDisplay::getSegmentModuleWidth`. -/
def getSegmentModuleWidth (b : TFTSevenSegmentDisplay) : Int := b.m_w

/-- Source: `TFTSevenSegmentDisplay::getSegmentModuleHeight`. -/
def getSegmentModuleHeight (b : TFTSevenSegmentDisplay) : Int := b.m_h

end TFTSevenSegmentDisplay

namespace TFTSevenSegmentDecimalDisplay

/-- Source: `TFTSevenSegmentDecimalDisplay::getWidth`. -/
def getWidth (d : TFTSevenSegmentDecimalDisplay) : Option Int := do
  let ones ← d.digits ONES
  let hundreds ← d.digits HUNDREDS
  pure (ones.getX + ones.getWidth - hundreds.getX)

/-- Source: `TFTSevenSegmentDecimalDisplay::getHeight`. -/
def getHeight (d : TFTSevenSegmentDecimalDisplay) : Int := d.m_h

/-- Source: `TFTSevenSegmentDecimalDisplay::setOnColor`. -/
def setOnColor (d : TFTSevenSegmentDecimalDisplay) (color : Nat) :
    Option TFTSevenSegmentDecimalDisplay := do
  let ds ← d.digits.modifyRange 0 DIGITS (fun m => m.setOnColor color)
  pure { d with digits := ds }

/-- Source: `TFTSevenSegmentDecimalDisplay::setOffColor`. -/
def setOffColor (d : TFTSevenSegmentDecimalDisplay) (color : Nat) :
    Option TFTSevenSegmentDecimalDisplay := do
  let ds ← d.digits.modifyRange 0 DIGITS (fun m => m.setOffColor color)
  pure { d with digits := ds }

/-- Source: `setLedSegmentWidth`, which the decimal display does not override: the call
runs `TFTSevenSegmentDisplay::setLedSegmentWidth`. -/
def setLedSegmentWidth (d : TFTSevenSegmentDecimalDisplay) (ledWidth : Int) :
    TFTSevenSegmentDecimalDisplay :=
  { d with toTFTSevenSegmentDisplay := d.toTFTSevenSegmentDisplay.setLedSegmentWidth ledWidth }

/-- Source: `setSegmentModuleHeight`, which the decimal display does not override: the
call runs `TFTSevenSegmentDisplay::setSegmentModuleHeight`. -/
def setSegmentModuleHeight (d : TFTSevenSegmentDecimalDisplay) (h : Int) :
    TFTSevenSegmentDecimalDisplay :=
  { d with toTFTSevenSegmentDisplay := d.toTFTSevenSegmentDisplay.setSegmentModuleHeight h }

/-- Source: `setSegmentModuleWidth`, which the decimal display does not override. -/
def setSegmentModuleWidth (d : TFTSevenSegmentDecimalDisplay) (w : Int) :
    TFTSevenSegmentDecimalDisplay :=
  { d with toTFTSevenSegmentDisplay := d.toTFTSevenSegmentDisplay.setSegmentModuleWidth w }

end TFTSevenSegmentDecimalDisplay

namespace TFTSevenSegmentClockDisplay

/-- Source: `TFTSevenSegmentClockDisplay::setSegmentModuleWidth`. -/
def setSegmentModuleWidth (c : TFTSevenSegmentClockDisplay) (w : Int) :
    TFTSevenSegmentClockDisplay :=
  { c with m_w := w }

/-- Source: `TFTSevenSegmentClockDisplay::setSegmentModuleHeight`. -/
def setSegmentModuleHeight (c : TFTSevenSegmentClockDisplay) (h : Int) :
    TFTSevenSegmentClockDisplay :=
  { c with m_h := h }

/-- Source: `TFTSevenSegmentClockDisplay::getSegmentModuleWidth`. -/
def getSegmentModuleWidth (c : TFTSevenSegmentClockDisplay) : Option Int := do
  let mm1 ← c.digits MM1
  pure mm1.getWidth

/-- Source: `TFTSevenSegmentClockDisplay::getSegmentModuleHeight`. -/
def getSegmentModuleHeight (c : TFTSevenSegmentClockDisplay) : Option Int := do
  let mm1 ← c.digits MM1
  pure mm1.getHeight

/-- Source: `TFTSevenSegmentClockDisplay::getWidth`. -/
def getWidth (c : TFTSevenSegmentClockDisplay) : Option Int :=
  if c.m_showHours = true then do
    let ss2 ← c.digits SS2
    let hh1 ← c.digits HH1
    pure (ss2.getX + ss2.getWidth - hh1.getX)
  else do
    let ss2 ← c.digits SS2
    let mm1 ← c.digits MM1
    pure (ss2.getX + ss2.getWidth - mm1.getX)

/-- Source: `TFTSevenSegmentClockDisplay::getHeight`. -/
def getHeight (c : TFTSevenSegmentClockDisplay) : Option Int := do
  let ss1 ← c.digits SS1
  let mm1 ← c.digits MM1
  if ss1.getHeight > mm1.getHeight then pure ss1.getHeight else pure mm1.getHeight

end TFTSevenSegmentClockDisplay

namespace Digits

/-- The statement `delete digits[i]`: the module of slot `i` is freed; undefined on a
pointer that was never assigned. -/
def deleteAt (digits : Digits) (i : Nat) : Option Digits :=
  match digits i with
  | some _ => some (Function.update digits i none)
  | none => none

end Digits

namespace TFTSevenSegmentClockDisplay

/-- Source: the destructor `~TFTSevenSegmentClockDisplay()`, the loop
`for (int i = m_showHours ? 0 : 2; i < DIGITS; i++) delete digits[i];`.  The result is
the array of slots the destructor leaves. -/
def destroy (c : TFTSevenSegmentClockDisplay) : Option Digits :=
  (List.range' (firstDigit c.m_showHours) (DIGITS - firstDigit c.m_showHours)).foldlM
    (fun ds i => ds.deleteAt i) c.digits

end TFTSevenSegmentClockDisplay

/-! ## Vocabulary of the specification -/

/-- The seven segments of a module, in the order `display` draws them. -/
inductive Segment where
  | A | B | C | D | E | F | G
deriving DecidableEq, Repr

namespace Segment

/-- All segments, in drawing order. -/
def all : List Segment := [A, B, C, D, E, F, G]

/-- Position of the segment's bit in an activation code (`GFEDCBA`: A is bit 0). -/
def bit : Segment → Nat
  | A => 0 | B => 1 | C => 2 | D => 3 | E => 4 | F => 5 | G => 6

end Segment

namespace TFTSevenSegmentModule

/-- The drawer of the source that renders a given segment. -/
def drawSegment (m : TFTSevenSegmentModule) : Segment → Nat → List DrawCall
  | Segment.A => m.draw_A_UpperLed
  | Segment.B => m.draw_B_RightUpperLed
  | Segment.C => m.draw_C_RightBottomLed
  | Segment.D => m.draw_D_BottomLed
  | Segment.E => m.draw_E_LeftBottomLed
  | Segment.F => m.draw_F_LeftUpperLed
  | Segment.G => m.draw_G_MiddleLed

/-- What the specification asks of `display`: every segment drawn once, in the order
A to G, in `onColor` when its bit of the code `leds` is set and the module is enabled,
in `offColor` otherwise. -/
def specTrace (m : TFTSevenSegmentModule) (leds : Nat) : List DrawCall :=
  Segment.all.flatMap (fun s =>
    m.drawSegment s (if leds.testBit s.bit ∧ m.m_on = true then m.m_onColor else m.m_offColor))

/-- Every segment drawn once, in the order A to G, all in `offColor`. -/
def blankTrace (m : TFTSevenSegmentModule) : List DrawCall :=
  Segment.all.flatMap (fun s => m.drawSegment s m.m_offColor)

/-- Every segment drawn once, in the order A to G: in `onColor` the segments whose bit
of the code `leds` is set, in `offColor` the others. -/
def litTrace (m : TFTSevenSegmentModule) (leds : Nat) : List DrawCall :=
  Segment.all.flatMap (fun s =>
    m.drawSegment s (if leds.testBit s.bit then m.m_onColor else m.m_offColor))

end TFTSevenSegmentModule

/-- The module is blanked by a `display` call that left it in state `m` and emitted the
calls `tr`: it is switched off and all seven segments were drawn in `offColor`. -/
def Blanked (m : TFTSevenSegmentModule) (tr : List DrawCall) : Prop :=
  m.m_on = false ∧ tr = m.blankTrace

/-- The module is lit showing `digit` by a `display` call that left it in state `m` and
emitted the calls `tr`: it is enabled and the segments of the activation code of
`digit` were drawn in `onColor`, the others in `offColor`. -/
def Shows (m : TFTSevenSegmentModule) (digit : Int) (tr : List DrawCall) : Prop :=
  m.m_on = true ∧ 0 ≤ digit ∧ (digitCodeMap[digit.toNat]?).map m.litTrace = some tr

/-- A module with the default geometry of the displays, used to run the code. -/
def sampleModule : TFTSevenSegmentModule :=
  { m_x := 0, m_y := 0, m_w := 16, m_h := 32, m_onColor := 255, m_offColor := 0,
    m_ledWidth := 3, m_on := true }

/-- A decimal display built by the constructor, used to run the code. -/
def sampleDecimal : TFTSevenSegmentDecimalDisplay :=
  TFTSevenSegmentDecimalDisplay.new 0 0 16 32 255 0 3

/-- The colour a drawing primitive paints with, if it paints. -/
def DrawCall.color : DrawCall → Option Nat
  | DrawCall.startWrite => none
  | DrawCall.endWrite => none
  | DrawCall.writeFastVLine _ _ _ c => some c
  | DrawCall.writeFastHLine _ _ _ c => some c
  | DrawCall.fillRect _ _ _ _ c => some c

/-- The three-argument decimal `display(h, t, o)` returns, its calls are those of the
hundreds module, then of the tens module, then of the ones module, and the state each
module is left in, with the calls made for it, satisfies `PH`, `PT`, `PO`. -/
def TFTSevenSegmentDecimalDisplay.Renders (d : TFTSevenSegmentDecimalDisplay)
    (h t o : Int) (PH PT PO : TFTSevenSegmentModule → List DrawCall → Prop) : Prop :=
  ∃ d' mH mT mO trH trT trO,
    d.display h t o = some (d', trH ++ trT ++ trO) ∧
    d'.digits TFTSevenSegmentDecimalDisplay.HUNDREDS = some mH ∧
    d'.digits TFTSevenSegmentDecimalDisplay.TENS = some mT ∧
    d'.digits TFTSevenSegmentDecimalDisplay.ONES = some mO ∧
    PH mH trH ∧ PT mT trT ∧ PO mO trO

/-- The enabled flag of the module in slot `i`, if the slot is allocated. -/
def Digits.onFlag (ds : Digits) (i : Nat) : Option Bool :=
  (ds i).map (fun m => m.m_on)

/-- The invariant of the clock display: the minutes-tens slot is allocated; the
minutes-ones and the two seconds slots hold enabled modules; with hours shown the
hours-tens slot is allocated and the hours-ones slot holds an enabled module. -/
def TFTSevenSegmentClockDisplay.Inv (c : TFTSevenSegmentClockDisplay) : Prop :=
  (c.digits.onFlag TFTSevenSegmentClockDisplay.MM1).isSome = true ∧
  c.digits.onFlag TFTSevenSegmentClockDisplay.MM2 = some true ∧
  c.digits.onFlag TFTSevenSegmentClockDisplay.SS1 = some true ∧
  c.digits.onFlag TFTSevenSegmentClockDisplay.SS2 = some true ∧
  (c.m_showHours = true →
    (c.digits.onFlag TFTSevenSegmentClockDisplay.HH1).isSome = true ∧
    c.digits.onFlag TFTSevenSegmentClockDisplay.HH2 = some true)

/-- A clock display built by the constructor with hours shown, used to run the code. -/
def sampleClock : Option TFTSevenSegmentClockDisplay :=
  TFTSevenSegmentClockDisplay.new 0 0 16 32 255 0 3 true (Ratio.exact 3 4)

/-- A clock display built by the constructor with hours hidden, used to run the code. -/
def sampleClockNoHours : Option TFTSevenSegmentClockDisplay :=
  TFTSevenSegmentClockDisplay.new 0 0 16 32 255 0 3 false (Ratio.exact 3 4)

/-- The clock `display(h, m, s, sep)` returns; its calls are those of the minutes-tens,
minutes-ones, seconds-tens and seconds-ones modules, in this order, followed by the
calls `trRest` of the hours part; and the state each of the four modules is left in,
with the calls made for it, satisfies `PMM1`, `PMM2`, `PSS1`, `PSS2`. -/
def TFTSevenSegmentClockDisplay.RendersTime (c : TFTSevenSegmentClockDisplay)
    (h m s : Int) (sep : Bool)
    (PMM1 PMM2 PSS1 PSS2 : TFTSevenSegmentModule → List DrawCall → Prop) : Prop :=
  ∃ c' mm1 mm2 ss1 ss2 trMM1 trMM2 trSS1 trSS2 trRest,
    c.display h m s sep = some (c', trMM1 ++ trMM2 ++ trSS1 ++ trSS2 ++ trRest) ∧
    c'.digits TFTSevenSegmentClockDisplay.MM1 = some mm1 ∧
    c'.digits TFTSevenSegmentClockDisplay.MM2 = some mm2 ∧
    c'.digits TFTSevenSegmentClockDisplay.SS1 = some ss1 ∧
    c'.digits TFTSevenSegmentClockDisplay.SS2 = some ss2 ∧
    PMM1 mm1 trMM1 ∧ PMM2 mm2 trMM2 ∧ PSS1 ss1 trSS1 ∧ PSS2 ss2 trSS2

/-- The clock `display(h, m, s, sep)` of a display with hours shown returns; its calls
are those of the four minutes and seconds modules, then of the hours-tens module, of the
hours-ones module, and the four separator dots; and the state each of the six modules
is left in, with the calls made for it, satisfies the predicate given for it. -/
def TFTSevenSegmentClockDisplay.Renders (c : TFTSevenSegmentClockDisplay)
    (h m s : Int) (sep : Bool)
    (PHH1 PHH2 PMM1 PMM2 PSS1 PSS2 : TFTSevenSegmentModule → List DrawCall → Prop) : Prop :=
  ∃ c' hh1 hh2 mm1 mm2 ss1 ss2 trHH1 trHH2 trMM1 trMM2 trSS1 trSS2 trSep,
    c.display h m s sep
      = some (c', trMM1 ++ trMM2 ++ trSS1 ++ trSS2 ++ (trHH1 ++ trHH2 ++ trSep)) ∧
    c'.digits TFTSevenSegmentClockDisplay.HH1 = some hh1 ∧
    c'.digits TFTSevenSegmentClockDisplay.HH2 = some hh2 ∧
    c'.digits TFTSevenSegmentClockDisplay.MM1 = some mm1 ∧
    c'.digits TFTSevenSegmentClockDisplay.MM2 = some mm2 ∧
    c'.digits TFTSevenSegmentClockDisplay.SS1 = some ss1 ∧
    c'.digits TFTSevenSegmentClockDisplay.SS2 = some ss2 ∧
    c.separators c'.digits sep = some trSep ∧
    PHH1 hh1 trHH1 ∧ PHH2 hh2 trHH2 ∧ PMM1 mm1 trMM1 ∧ PMM2 mm2 trMM2 ∧
    PSS1 ss1 trSS1 ∧ PSS2 ss2 trSS2

/-- The state the constructor returns for `sampleClock`. -/
def sampleClockState : TFTSevenSegmentClockDisplay :=
  sampleClock.get (by decide)

/-- The state the constructor returns for `sampleClockNoHours`. -/
def sampleClockNoHoursState : TFTSevenSegmentClockDisplay :=
  sampleClockNoHours.get (by decide)

/-- The call is a `fillRect`. -/
def DrawCall.isFillRect : DrawCall → Bool
  | DrawCall.fillRect _ _ _ _ _ => true
  | _ => false

/-- The `fillRect` calls of a trace, in order: the separator dots a clock `display`
draws. -/
def fillRects (tr : List DrawCall) : List DrawCall :=
  tr.filter DrawCall.isFillRect

/-- The call draws a line. -/
def DrawCall.isLine : DrawCall → Bool
  | DrawCall.writeFastVLine _ _ _ _ => true
  | DrawCall.writeFastHLine _ _ _ _ => true
  | _ => false

/-- The line calls of a trace, in order. -/
def lines (tr : List DrawCall) : List DrawCall :=
  tr.filter DrawCall.isLine

/-- The drawing surface: the colour of every pixel. -/
abbrev Surface := Int × Int → Nat

/-- Modelled from the spec: the pixels a primitive of the drawing surface spans (section 6
of the specification; the driver is not part of the repository).  A line of length `n`
from (x, y) spans the `n` pixels from (x, y) rightwards or downwards, a rectangle the
pixels of its `w` columns and `h` rows; a call of non-positive extent spans nothing
(section 4.1: such a call is a no-op); the batch brackets span nothing. -/
def DrawCall.covers : DrawCall → Int × Int → Bool
  | DrawCall.startWrite, _ => false
  | DrawCall.endWrite, _ => false
  | DrawCall.writeFastVLine x y h _, p => decide (p.1 = x ∧ y ≤ p.2 ∧ p.2 < y + h)
  | DrawCall.writeFastHLine x y w _, p => decide (p.2 = y ∧ x ≤ p.1 ∧ p.1 < x + w)
  | DrawCall.fillRect x y w h _, p =>
      decide (x ≤ p.1 ∧ p.1 < x + w ∧ y ≤ p.2 ∧ p.2 < y + h)

/-- Effect of one call on the surface, for a given assignment `spans` of pixels to calls:
the pixels the call spans take the call's colour, the others keep theirs. -/
def Surface.paint (spans : DrawCall → Int × Int → Bool) (s : Surface) (call : DrawCall) :
    Surface :=
  fun p =>
    match call.color with
    | some c => if spans call p then c else s p
    | none => s p

/-- The surface after the calls of a trace, applied in order. -/
def Surface.run (spans : DrawCall → Int × Int → Bool) (s : Surface) (tr : List DrawCall) :
    Surface :=
  tr.foldl (Surface.paint spans) s

/-- The heights of the modules of a clock display are as the constructor leaves them:
the hours and minutes modules share one height and the seconds modules share one. -/
def TFTSevenSegmentClockDisplay.HeightInv (c : TFTSevenSegmentClockDisplay) : Prop :=
  ∃ h hs : Int,
    (∀ i m, i < TFTSevenSegmentClockDisplay.SS1 → c.digits i = some m → m.m_h = h) ∧
    (∀ i m, TFTSevenSegmentClockDisplay.SS1 ≤ i → c.digits i = some m → m.m_h = hs)

/-- The memory read `read` returns the entries of `digitCodeMap` on the digits 0..9. -/
def ReadsTable (read : Int → Nat) : Prop :=
  ∀ d : Int, 0 ≤ d → d ≤ 9 → digitCodeMap[d.toNat]? = some (read d)

/-- A memory in which the table is followed and preceded by zero bytes, used to run the
code. -/
def sampleRead (d : Int) : Nat :=
  if 0 ≤ d then (digitCodeMap[d.toNat]?).getD 0 else 0

/-- A line call has a strictly positive length; a call that is not a line passes. -/
def DrawCall.positive : DrawCall → Bool
  | DrawCall.writeFastVLine _ _ h _ => decide (0 < h)
  | DrawCall.writeFastHLine _ _ w _ => decide (0 < w)
  | _ => true

/-- Every line of the trace has a strictly positive length. -/
def PositiveLines (tr : List DrawCall) : Prop :=
  ∀ call ∈ tr, call.positive = true

/-- State of the batch-write bracket of the surface while a trace is replayed: `some
false` is closed, `some true` is open, `none` is a violation (a `startWrite` while
open, an `endWrite` or a line while closed).  A `fillRect` keeps the state. -/
def bracketStep : Option Bool → DrawCall → Option Bool
  | some false, DrawCall.startWrite => some true
  | some true, DrawCall.endWrite => some false
  | some true, DrawCall.writeFastVLine _ _ _ _ => some true
  | some true, DrawCall.writeFastHLine _ _ _ _ => some true
  | some b, DrawCall.fillRect _ _ _ _ _ => some b
  | _, _ => none

/-- The bracket state after a trace, starting closed. -/
def bracketRun (tr : List DrawCall) : Option Bool :=
  tr.foldl bracketStep (some false)

/-- The pixel is covered by a line of the drawer of segment `s`. -/
def TFTSevenSegmentModule.segmentCovers (m : TFTSevenSegmentModule) (s : Segment)
    (p : Int × Int) : Bool :=
  (m.drawSegment s 0).any (fun call => call.covers p)

/-- A module with thin strokes (led thickness 1), used to run the code. -/
def thinModule : TFTSevenSegmentModule :=
  { m_x := 0, m_y := 0, m_w := 6, m_h := 2, m_onColor := 255, m_offColor := 0,
    m_ledWidth := 1, m_on := true }

/-- A module whose width and height are twice its led thickness, used to run the
code. -/
def tightModule : TFTSevenSegmentModule :=
  { m_x := 0, m_y := 0, m_w := 6, m_h := 6, m_onColor := 255, m_offColor := 0,
    m_ledWidth := 3, m_on := true }

/-- A clock display built by the constructor with hours shown and seconds ratio 1, used
to run the code. -/
def sampleClockUnitRatio : Option TFTSevenSegmentClockDisplay :=
  TFTSevenSegmentClockDisplay.new 0 0 16 32 255 0 3 true (Ratio.exact 1 1)

/-- The conversion of a `float` value to an integer type: truncation toward zero. -/
def truncQ (q : ℚ) : Int := if 0 ≤ q then ⌊q⌋ else ⌈q⌉

/-- The state the eight-argument constructor leaves: hours hidden and no module slot
assigned. -/
def TFTSevenSegmentClockDisplay.Unbuilt (c : TFTSevenSegmentClockDisplay) : Prop :=
  c.m_showHours = false ∧ ∀ i, c.digits i = none

/-- The clock display was constructed with hours hidden: the two hours slots were never
assigned and the four other slots hold a module. -/
def TFTSevenSegmentClockDisplay.HoursHidden (c : TFTSevenSegmentClockDisplay) : Prop :=
  c.m_showHours = false ∧
  c.digits TFTSevenSegmentClockDisplay.HH1 = none ∧
  c.digits TFTSevenSegmentClockDisplay.HH2 = none ∧
  ∀ i, TFTSevenSegmentClockDisplay.MM1 ≤ i → i < TFTSevenSegmentClockDisplay.DIGITS →
    ∃ m, c.digits i = some m

/-! ## Theorems -/

namespace TFTSevenSegmentModule

/-- The mask test `leds & 2^k` of the source reads bit `k` of the code. -/
theorem ledColor_testBit (m : TFTSevenSegmentModule) (leds : Nat) (s : Segment) :
    m.ledColor leds (2 ^ s.bit)
      = if leds.testBit s.bit ∧ m.m_on = true then m.m_onColor else m.m_offColor := by
  have hb : (leds &&& 2 ^ s.bit != 0) = leds.testBit s.bit := by
    rw [Nat.and_two_pow]
    cases leds.testBit s.bit <;> simp
  unfold ledColor
  rw [hb]
  cases leds.testBit s.bit <;> cases m.m_on <;> simp

/-- Within the table, `display` is the seven drawers in order with `ledColor` colours. -/
theorem display_eq_specTrace (m : TFTSevenSegmentModule) (digit : Int) (leds : Nat)
    (h0 : 0 ≤ digit) (hl : digitCodeMap[digit.toNat]? = some leds) :
    m.display digit = some (m.specTrace leds) := by
  have hA := m.ledColor_testBit leds Segment.A
  have hB := m.ledColor_testBit leds Segment.B
  have hC := m.ledColor_testBit leds Segment.C
  have hD := m.ledColor_testBit leds Segment.D
  have hE := m.ledColor_testBit leds Segment.E
  have hF := m.ledColor_testBit leds Segment.F
  have hG := m.ledColor_testBit leds Segment.G
  simp only [Segment.bit, pow_zero, Nat.reducePow, pow_one] at hA hB hC hD hE hF hG
  simp only [display, h0, if_true, hl, specTrace, Segment.all, List.flatMap_cons,
    List.flatMap_nil, drawSegment, Segment.bit, hA, hB, hC, hD, hE, hF, hG,
    List.append_nil, List.append_assoc]

/-- Every digit 0..9 has an entry in the table. -/
theorem digitCodeMap_lookup (digit : Int) (h0 : 0 ≤ digit) (h9 : digit ≤ 9) :
    ∃ leds, digitCodeMap[digit.toNat]? = some leds ∧ leds < 128 := by
  have h : digit.toNat < 10 := by omega
  generalize digit.toNat = n at h
  interval_cases n <;> simp [digitCodeMap]

/-- The table holds nothing beyond its ten entries. -/
theorem digitCodeMap_none (n : Nat) (h : 10 ≤ n) : digitCodeMap[n]? = none := by
  apply List.getElem?_eq_none
  simpa [digitCodeMap] using h

/-- Claim C1: for every digit 0..9 and every module state, `display` runs the seven
segment drawers once each, in the order A, B, C, D, E, F, G; segment `s` gets
`onColor` when bit `s` of the digit's activation code is set and the module is
enabled, and `offColor` otherwise. -/
theorem display_draws_each_segment_once (m : TFTSevenSegmentModule) (d : Int)
    (h0 : 0 ≤ d) (h9 : d ≤ 9) :
    ∃ leds, digitCodeMap[d.toNat]? = some leds ∧
      m.display d = some (Segment.all.flatMap (fun s =>
        m.drawSegment s
          (if leds.testBit s.bit ∧ m.m_on = true then m.m_onColor else m.m_offColor))) ∧
      Segment.all = [Segment.A, Segment.B, Segment.C, Segment.D, Segment.E, Segment.F,
        Segment.G] := by
  obtain ⟨leds, hl, _⟩ := digitCodeMap_lookup d h0 h9
  exact ⟨leds, hl, m.display_eq_specTrace d leds h0 hl, rfl⟩

end TFTSevenSegmentModule

/-- Witness of C1: the digit 2 on the sample module. -/
theorem display_draws_each_segment_once_witness :
    ∃ leds, digitCodeMap[(2 : Int).toNat]? = some leds ∧
      sampleModule.display 2 = some (Segment.all.flatMap (fun s =>
        sampleModule.drawSegment s
          (if leds.testBit s.bit ∧ sampleModule.m_on = true then sampleModule.m_onColor
           else sampleModule.m_offColor))) ∧
      Segment.all = [Segment.A, Segment.B, Segment.C, Segment.D, Segment.E, Segment.F,
        Segment.G] :=
  TFTSevenSegmentModule.display_draws_each_segment_once sampleModule 2 (by decide) (by decide)

/-- Claim C2: the activation table is the canonical seven segment table
0x3F, 0x06, 0x5B, 0x4F, 0x66, 0x6D, 0x7D, 0x07, 0x7F, 0x6F; the masks `display` tests
for the segments A to G are 1, 2, 4, 8, 16, 32, 64; bit 7 of no entry is set; and
decoded with that bit order the entries are the usual glyphs of 0 to 9. -/
theorem digitCodeMap_canonical :
    digitCodeMap = [0x3F, 0x06, 0x5B, 0x4F, 0x66, 0x6D, 0x7D, 0x07, 0x7F, 0x6F] ∧
    Segment.all.map (fun s => 2 ^ s.bit) = [1, 2, 4, 8, 16, 32, 64] ∧
    (∀ leds ∈ digitCodeMap, leds.testBit 7 = false ∧ leds < 128) ∧
    digitCodeMap.map (fun leds => Segment.all.filter (fun s => leds.testBit s.bit)) =
      [ [Segment.A, Segment.B, Segment.C, Segment.D, Segment.E, Segment.F],
        [Segment.B, Segment.C],
        [Segment.A, Segment.B, Segment.D, Segment.E, Segment.G],
        [Segment.A, Segment.B, Segment.C, Segment.D, Segment.G],
        [Segment.B, Segment.C, Segment.F, Segment.G],
        [Segment.A, Segment.C, Segment.D, Segment.F, Segment.G],
        [Segment.A, Segment.C, Segment.D, Segment.E, Segment.F, Segment.G],
        [Segment.A, Segment.B, Segment.C],
        [Segment.A, Segment.B, Segment.C, Segment.D, Segment.E, Segment.F, Segment.G],
        [Segment.A, Segment.B, Segment.C, Segment.D, Segment.F, Segment.G] ] := by
  refine ⟨by decide, by decide, by decide, by decide⟩

namespace TFTSevenSegmentModule

/-- On a disabled module the specified trace has every segment in `offColor`. -/
theorem specTrace_of_off (m : TFTSevenSegmentModule) (leds : Nat) (h : m.m_on = false) :
    m.specTrace leds = m.blankTrace := by
  simp [specTrace, blankTrace, h]

/-- On an enabled module the colours follow the bits of the code alone. -/
theorem specTrace_of_on (m : TFTSevenSegmentModule) (leds : Nat) (h : m.m_on = true) :
    m.specTrace leds = m.litTrace leds := by
  simp [specTrace, litTrace, h]

/-- Claim C3: after `off()`, `display(d)` for d in 0..9 draws all seven segments in
`offColor`, and the calls it emits are the same for every d in 0..9. -/
theorem off_display_all_offColor (m : TFTSevenSegmentModule) (d : Int)
    (h0 : 0 ≤ d) (h9 : d ≤ 9) :
    m.off.display d
        = some (Segment.all.flatMap (fun s => m.off.drawSegment s m.m_offColor)) ∧
      ∀ e : Int, 0 ≤ e → e ≤ 9 → m.off.display e = m.off.display d := by
  have key : ∀ e : Int, 0 ≤ e → e ≤ 9 → m.off.display e = some m.off.blankTrace := by
    intro e he0 he9
    obtain ⟨leds, hl, _⟩ := digitCodeMap_lookup e he0 he9
    rw [display_eq_specTrace m.off e leds he0 hl, specTrace_of_off _ _ rfl]
  refine ⟨key d h0 h9, ?_⟩
  intro e he0 he9
  rw [key e he0 he9, key d h0 h9]

end TFTSevenSegmentModule

/-- Witness of C3: the digit 8 on the sample module once switched off. -/
theorem off_display_all_offColor_witness :
    sampleModule.off.display 8
        = some (Segment.all.flatMap
            (fun s => sampleModule.off.drawSegment s sampleModule.m_offColor)) ∧
      ∀ e : Int, 0 ≤ e → e ≤ 9 → sampleModule.off.display e = sampleModule.off.display 8 :=
  TFTSevenSegmentModule.off_display_all_offColor sampleModule 8 (by decide) (by decide)

/-! ### Calls through the module slots -/

namespace Digits

/-- For a digit between 0 and 9 the truncating `% 10` of the source changes nothing. -/
theorem tmod_ten_of_digit (v : Int) (h0 : 0 ≤ v) (h9 : v ≤ 9) : Int.tmod v 10 = v := by
  rw [Int.tmod_eq_emod h0 (by decide)]
  omega

/-- Result of `digits[i]->on(); digits[i]->display(v);` on an allocated slot. -/
theorem onAndDisplay_eq (ds : Digits) (i : Nat) (m : TFTSevenSegmentModule) (v : Int)
    (hm : ds i = some m) (h0 : 0 ≤ v) (h9 : v ≤ 9) :
    ∃ tr, ds.onAndDisplay i v = some (Function.update ds i (some m.on_), tr) ∧
      Shows m.on_ v tr := by
  obtain ⟨leds, hl, _⟩ := TFTSevenSegmentModule.digitCodeMap_lookup v h0 h9
  refine ⟨m.on_.litTrace leds, ?_, rfl, h0, by simp [hl]⟩
  have hd : m.on_.display v = some (m.on_.litTrace leds) := by
    rw [TFTSevenSegmentModule.display_eq_specTrace m.on_ v leds h0 hl,
      TFTSevenSegmentModule.specTrace_of_on _ _ rfl]
  simp [onAndDisplay, modify, displayAt, hm, hd]

/-- Result of `digits[i]->off(); digits[i]->display(0);` on an allocated slot. -/
theorem offAndDisplay_eq (ds : Digits) (i : Nat) (m : TFTSevenSegmentModule)
    (hm : ds i = some m) :
    ∃ tr, ds.offAndDisplay i = some (Function.update ds i (some m.off), tr) ∧
      Blanked m.off tr := by
  obtain ⟨leds, hl, _⟩ := TFTSevenSegmentModule.digitCodeMap_lookup 0 (by decide) (by decide)
  refine ⟨m.off.blankTrace, ?_, rfl, rfl⟩
  have hd : m.off.display 0 = some m.off.blankTrace := by
    rw [TFTSevenSegmentModule.display_eq_specTrace m.off 0 leds (by decide) hl,
      TFTSevenSegmentModule.specTrace_of_off _ _ rfl]
  simp [offAndDisplay, modify, displayAt, hm, hd]

/-- Result of `digits[i]->display(v);` on an allocated, enabled slot. -/
theorem displayAt_eq (ds : Digits) (i : Nat) (m : TFTSevenSegmentModule) (v : Int)
    (hm : ds i = some m) (hon : m.m_on = true) (h0 : 0 ≤ v) (h9 : v ≤ 9) :
    ∃ tr, ds.displayAt i v = some tr ∧ Shows m v tr := by
  obtain ⟨leds, hl, _⟩ := TFTSevenSegmentModule.digitCodeMap_lookup v h0 h9
  refine ⟨m.litTrace leds, ?_, hon, h0, by simp [hl]⟩
  simp only [displayAt, hm]
  rw [TFTSevenSegmentModule.display_eq_specTrace m v leds h0 hl,
    TFTSevenSegmentModule.specTrace_of_on _ _ hon]

/-- The source's pattern `if (cond) { on(); display(v); } else { off(); display(0); }`:
the slot ends enabled and showing `v` when `cond` holds, blanked otherwise, and no other
member of the module changes. -/
theorem showOrBlank (ds : Digits) (i : Nat) (m : TFTSevenSegmentModule) (v : Int)
    (cond : Prop) [Decidable cond] (hm : ds i = some m) (h0 : 0 ≤ v) (h9 : v ≤ 9) :
    ∃ m' tr,
      (if cond then ds.onAndDisplay i v else ds.offAndDisplay i)
        = some (Function.update ds i (some m'), tr) ∧
      m'.off = m.off ∧ (Blanked m' tr ↔ ¬ cond) ∧ (¬ Blanked m' tr → Shows m' v tr) := by
  by_cases hc : cond
  · obtain ⟨tr, h1, h2⟩ := onAndDisplay_eq ds i m v hm h0 h9
    refine ⟨m.on_, tr, by simp [hc, h1], rfl, ?_, fun _ => h2⟩
    simp [Blanked, hc, TFTSevenSegmentModule.on_]
  · obtain ⟨tr, h1, h2⟩ := offAndDisplay_eq ds i m hm
    refine ⟨m.off, tr, by simp [hc, h1], rfl, ?_, fun h => absurd h2 h⟩
    simp [hc, h2]

end Digits

/-! ### Decimal display -/

namespace TFTSevenSegmentDecimalDisplay

/-- What `display(hundreds, tens, ones)` returns on digits 0..9: the three slots are
rewritten in turn, each by the show-or-blank pattern under the guard of the source. -/
theorem display_result (d : TFTSevenSegmentDecimalDisplay) (hd : d.Allocated)
    (h t o : Int) (hh0 : 0 ≤ h) (hh9 : h ≤ 9) (ht0 : 0 ≤ t) (ht9 : t ≤ 9)
    (ho0 : 0 ≤ o) (ho9 : o ≤ 9) :
    ∃ mH mT mO trH trT trO,
      d.display h t o
        = some ({ d with digits := (Function.update (Function.update
                    (Function.update d.digits HUNDREDS (some mH)) TENS (some mT))
                    ONES (some mO)) }, trH ++ trT ++ trO) ∧
      (d.digits HUNDREDS).map TFTSevenSegmentModule.off = some mH.off ∧
      (d.digits TENS).map TFTSevenSegmentModule.off = some mT.off ∧
      (d.digits ONES).map TFTSevenSegmentModule.off = some mO.off ∧
      (Blanked mH trH ↔ ¬ h > 0) ∧ (¬ Blanked mH trH → Shows mH h trH) ∧
      (Blanked mT trT ↔ ¬ (t > 0 ∨ h > 0)) ∧ (¬ Blanked mT trT → Shows mT t trT) ∧
      (Blanked mO trO ↔ ¬ (t > 0 ∨ h > 0 ∨ o > 0)) ∧
      (¬ Blanked mO trO → Shows mO o trO) := by
  obtain ⟨m0, hm0⟩ := hd HUNDREDS (by decide)
  obtain ⟨m1, hm1⟩ := hd TENS (by decide)
  obtain ⟨m2, hm2⟩ := hd ONES (by decide)
  obtain ⟨mH, trH, e1, f1, b1, s1⟩ :=
    Digits.showOrBlank d.digits HUNDREDS m0 h (h > 0) hm0 hh0 hh9
  have hm1' : Function.update d.digits HUNDREDS (some mH) TENS = some m1 := by
    rw [Function.update_noteq (by decide)]; exact hm1
  obtain ⟨mT, trT, e2, f2, b2, s2⟩ :=
    Digits.showOrBlank _ TENS m1 t (t > 0 ∨ h > 0) hm1' ht0 ht9
  have hm2' : Function.update (Function.update d.digits HUNDREDS (some mH)) TENS (some mT)
      ONES = some m2 := by
    rw [Function.update_noteq (by decide), Function.update_noteq (by decide)]; exact hm2
  obtain ⟨mO, trO, e3, f3, b3, s3⟩ :=
    Digits.showOrBlank _ ONES m2 o (t > 0 ∨ h > 0 ∨ o > 0) hm2' ho0 ho9
  refine ⟨mH, mT, mO, trH, trT, trO, ?_, by simp [hm0, f1], by simp [hm1, f2],
    by simp [hm2, f3], b1, s1, b2, s2, b3, s3⟩
  simp only [display, Digits.tmod_ten_of_digit h hh0 hh9, Digits.tmod_ten_of_digit t ht0 ht9,
    Digits.tmod_ten_of_digit o ho0 ho9, e1, e2, e3, Option.bind_eq_bind, Option.some_bind,
    Option.pure_def]

/-- The constructor allocates the three modules. -/
theorem new_allocated (x y w h : Int) (onColor offColor : Nat) (ledWidth : Int) :
    (new x y w h onColor offColor ledWidth).Allocated := by
  intro i hi
  have hi' : i < 3 := hi
  interval_cases i <;>
    simp [new, DIGITS, List.range, List.range.loop, constructStep, Function.update]

/-- Claim C4: for hundreds, tens, ones in 0..9, the three-argument `display` blanks the
hundreds module iff hundreds = 0, the tens module iff hundreds = 0 and tens = 0, and
the ones module iff all three are 0; a module that is not blanked is enabled and
drawn showing its own digit.  The calls are those of the hundreds module, then of the
tens module, then of the ones module, and only the enabled flags change. -/
theorem display_zero_suppression (d : TFTSevenSegmentDecimalDisplay) (hd : d.Allocated)
    (h t o : Int) (hh0 : 0 ≤ h) (hh9 : h ≤ 9) (ht0 : 0 ≤ t) (ht9 : t ≤ 9)
    (ho0 : 0 ≤ o) (ho9 : o ≤ 9) :
    ∃ d' mH mT mO trH trT trO,
      d.display h t o = some (d', trH ++ trT ++ trO) ∧
      d'.digits HUNDREDS = some mH ∧ d'.digits TENS = some mT ∧ d'.digits ONES = some mO ∧
      (d.digits HUNDREDS).map TFTSevenSegmentModule.off = some mH.off ∧
      (d.digits TENS).map TFTSevenSegmentModule.off = some mT.off ∧
      (d.digits ONES).map TFTSevenSegmentModule.off = some mO.off ∧
      (Blanked mH trH ↔ h = 0) ∧
      (Blanked mT trT ↔ h = 0 ∧ t = 0) ∧
      (Blanked mO trO ↔ h = 0 ∧ t = 0 ∧ o = 0) ∧
      (¬ Blanked mH trH → Shows mH h trH) ∧
      (¬ Blanked mT trT → Shows mT t trT) ∧
      (¬ Blanked mO trO → Shows mO o trO) := by
  obtain ⟨mH, mT, mO, trH, trT, trO, e, f1, f2, f3, b1, s1, b2, s2, b3, s3⟩ :=
    display_result d hd h t o hh0 hh9 ht0 ht9 ho0 ho9
  refine ⟨_, mH, mT, mO, trH, trT, trO, e, ?_, ?_, ?_, f1, f2, f3, ?_, ?_, ?_, s1, s2, s3⟩
  · simp [HUNDREDS, TENS, ONES, Function.update]
  · simp [HUNDREDS, TENS, ONES, Function.update]
  · simp [HUNDREDS, TENS, ONES, Function.update]
  · rw [b1]; omega
  · rw [b2]; omega
  · rw [b3]; omega

end TFTSevenSegmentDecimalDisplay

/-- Witness of C4: the sample display showing 0, 4, 2. -/
theorem display_zero_suppression_witness :
    ∃ d' mH mT mO trH trT trO,
      sampleDecimal.display 0 4 2 = some (d', trH ++ trT ++ trO) ∧
      d'.digits TFTSevenSegmentDecimalDisplay.HUNDREDS = some mH ∧
      d'.digits TFTSevenSegmentDecimalDisplay.TENS = some mT ∧
      d'.digits TFTSevenSegmentDecimalDisplay.ONES = some mO ∧
      (sampleDecimal.digits TFTSevenSegmentDecimalDisplay.HUNDREDS).map
        TFTSevenSegmentModule.off = some mH.off ∧
      (sampleDecimal.digits TFTSevenSegmentDecimalDisplay.TENS).map
        TFTSevenSegmentModule.off = some mT.off ∧
      (sampleDecimal.digits TFTSevenSegmentDecimalDisplay.ONES).map
        TFTSevenSegmentModule.off = some mO.off ∧
      (Blanked mH trH ↔ (0 : Int) = 0) ∧
      (Blanked mT trT ↔ (0 : Int) = 0 ∧ (4 : Int) = 0) ∧
      (Blanked mO trO ↔ (0 : Int) = 0 ∧ (4 : Int) = 0 ∧ (2 : Int) = 0) ∧
      (¬ Blanked mH trH → Shows mH 0 trH) ∧
      (¬ Blanked mT trT → Shows mT 4 trT) ∧
      (¬ Blanked mO trO → Shows mO 2 trO) :=
  TFTSevenSegmentDecimalDisplay.display_zero_suppression sampleDecimal
    (TFTSevenSegmentDecimalDisplay.new_allocated 0 0 16 32 255 0 3) 0 4 2
    (by decide) (by decide) (by decide) (by decide) (by decide) (by decide)

/-- Claim C5 as stated fails: on the sample display `display(0,0,0)` switches the ones
module off, so it is not lit as the digit 0, and no call of the whole trace paints in
the on colour 255. -/
theorem display_zero_ones_not_lit :
    (sampleDecimal.display 0 0 0).map
        (fun r => (r.1.digits TFTSevenSegmentDecimalDisplay.ONES).map (fun m => m.m_on))
      = some (some false) ∧
    (sampleDecimal.display 0 0 0).map
        (fun r => r.2.all (fun call => decide (call.color ≠ some 255)))
      = some true ∧
    ¬ sampleDecimal.Renders 0 0 0 Blanked Blanked (fun m tr => Shows m 0 tr) := by
  obtain ⟨mH, mT, mO, trH, trT, trO, e, _, _, _, b1, _, b2, _, b3, _⟩ :=
    TFTSevenSegmentDecimalDisplay.display_result sampleDecimal
      (TFTSevenSegmentDecimalDisplay.new_allocated 0 0 16 32 255 0 3) 0 0 0
      (by decide) (by decide) (by decide) (by decide) (by decide) (by decide)
  have hO : Blanked mO trO := b3.mpr (by decide)
  refine ⟨?_, by decide, ?_⟩
  · rw [e]
    simp [TFTSevenSegmentDecimalDisplay.ONES, Function.update, hO.1]
  · rintro ⟨d', nH, nT, nO, uH, uT, uO, e', _, _, hnO, _, _, hs⟩
    rw [e] at e'
    have hd' := congrArg (fun r => r.map (fun p => p.1.digits TFTSevenSegmentDecimalDisplay.ONES)) e'
    simp [TFTSevenSegmentDecimalDisplay.ONES, Function.update] at hd' hnO
    rw [hnO] at hd'
    have : mO = nO := by simpa using hd'
    have h1 := hs.1
    rw [← this, hO.1] at h1
    exact Bool.noConfusion h1

namespace TFTSevenSegmentDecimalDisplay

/-- Claim C5, amended: `display(0,0,0)` blanks all three modules, the ones module
included; `display(0,0,5)` shows only the ones module lit, as 5; `display(0,4,2)` shows
tens lit as 4 and ones lit as 2 with hundreds blanked; `display(1,2,3)` shows all three
modules lit as 1, 2, 3. -/
theorem display_examples (d : TFTSevenSegmentDecimalDisplay) (hd : d.Allocated) :
    d.Renders 0 0 0 Blanked Blanked Blanked ∧
    d.Renders 0 0 5 Blanked Blanked (fun m tr => Shows m 5 tr) ∧
    d.Renders 0 4 2 Blanked (fun m tr => Shows m 4 tr) (fun m tr => Shows m 2 tr) ∧
    d.Renders 1 2 3 (fun m tr => Shows m 1 tr) (fun m tr => Shows m 2 tr)
      (fun m tr => Shows m 3 tr) := by
  have key : ∀ h t o : Int, 0 ≤ h → h ≤ 9 → 0 ≤ t → t ≤ 9 → 0 ≤ o → o ≤ 9 →
      d.Renders h t o
        (fun m tr => (Blanked m tr ↔ ¬ h > 0) ∧ (¬ Blanked m tr → Shows m h tr))
        (fun m tr => (Blanked m tr ↔ ¬ (t > 0 ∨ h > 0)) ∧ (¬ Blanked m tr → Shows m t tr))
        (fun m tr => (Blanked m tr ↔ ¬ (t > 0 ∨ h > 0 ∨ o > 0)) ∧
          (¬ Blanked m tr → Shows m o tr)) := by
    intro h t o hh0 hh9 ht0 ht9 ho0 ho9
    obtain ⟨mH, mT, mO, trH, trT, trO, e, _, _, _, b1, s1, b2, s2, b3, s3⟩ :=
      display_result d hd h t o hh0 hh9 ht0 ht9 ho0 ho9
    exact ⟨_, mH, mT, mO, trH, trT, trO, e, by simp [HUNDREDS, TENS, ONES, Function.update],
      by simp [HUNDREDS, TENS, ONES, Function.update],
      by simp [HUNDREDS, TENS, ONES, Function.update], ⟨b1, s1⟩, ⟨b2, s2⟩, ⟨b3, s3⟩⟩
  refine ⟨?_, ?_, ?_, ?_⟩
  · obtain ⟨d', mH, mT, mO, trH, trT, trO, e, hH, hT, hO, ⟨b1, _⟩, ⟨b2, _⟩, ⟨b3, _⟩⟩ :=
      key 0 0 0 (by decide) (by decide) (by decide) (by decide) (by decide) (by decide)
    exact ⟨d', mH, mT, mO, trH, trT, trO, e, hH, hT, hO, b1.mpr (by decide),
      b2.mpr (by decide), b3.mpr (by decide)⟩
  · obtain ⟨d', mH, mT, mO, trH, trT, trO, e, hH, hT, hO, ⟨b1, _⟩, ⟨b2, _⟩, ⟨b3, s3⟩⟩ :=
      key 0 0 5 (by decide) (by decide) (by decide) (by decide) (by decide) (by decide)
    exact ⟨d', mH, mT, mO, trH, trT, trO, e, hH, hT, hO, b1.mpr (by decide),
      b2.mpr (by decide), s3 (fun hb => absurd (b3.mp hb) (by decide))⟩
  · obtain ⟨d', mH, mT, mO, trH, trT, trO, e, hH, hT, hO, ⟨b1, _⟩, ⟨b2, s2⟩, ⟨b3, s3⟩⟩ :=
      key 0 4 2 (by decide) (by decide) (by decide) (by decide) (by decide) (by decide)
    exact ⟨d', mH, mT, mO, trH, trT, trO, e, hH, hT, hO, b1.mpr (by decide),
      s2 (fun hb => absurd (b2.mp hb) (by decide)),
      s3 (fun hb => absurd (b3.mp hb) (by decide))⟩
  · obtain ⟨d', mH, mT, mO, trH, trT, trO, e, hH, hT, hO, ⟨b1, s1⟩, ⟨b2, s2⟩, ⟨b3, s3⟩⟩ :=
      key 1 2 3 (by decide) (by decide) (by decide) (by decide) (by decide) (by decide)
    exact ⟨d', mH, mT, mO, trH, trT, trO, e, hH, hT, hO,
      s1 (fun hb => absurd (b1.mp hb) (by decide)),
      s2 (fun hb => absurd (b2.mp hb) (by decide)),
      s3 (fun hb => absurd (b3.mp hb) (by decide))⟩

end TFTSevenSegmentDecimalDisplay

/-- Witness of the amended C5: the four example calls on the sample display. -/
theorem display_examples_witness :
    sampleDecimal.Renders 0 0 0 Blanked Blanked Blanked ∧
    sampleDecimal.Renders 0 0 5 Blanked Blanked (fun m tr => Shows m 5 tr) ∧
    sampleDecimal.Renders 0 4 2 Blanked (fun m tr => Shows m 4 tr)
      (fun m tr => Shows m 2 tr) ∧
    sampleDecimal.Renders 1 2 3 (fun m tr => Shows m 1 tr) (fun m tr => Shows m 2 tr)
      (fun m tr => Shows m 3 tr) :=
  TFTSevenSegmentDecimalDisplay.display_examples sampleDecimal
    (TFTSevenSegmentDecimalDisplay.new_allocated 0 0 16 32 255 0 3)

/-! ### Clock display -/

namespace Digits

/-- The tens digit `(v / 10) % 10` the source computes for a non-negative value. -/
theorem tens_digit (v : Int) (h0 : 0 ≤ v) :
    Int.tmod (Int.tdiv v 10) 10 = (v / 10) % 10 ∧ 0 ≤ (v / 10) % 10 ∧ (v / 10) % 10 ≤ 9 := by
  rw [Int.tdiv_eq_ediv h0 (by decide), Int.tmod_eq_emod (by omega) (by decide)]
  omega

/-- The ones digit `v % 10` the source computes for a non-negative value. -/
theorem ones_digit (v : Int) (h0 : 0 ≤ v) :
    Int.tmod v 10 = v % 10 ∧ 0 ≤ v % 10 ∧ v % 10 ≤ 9 := by
  rw [Int.tmod_eq_emod h0 (by decide)]
  omega

/-- The call `digits[i]->display(v)` on an allocated slot returns what the module
draws. -/
theorem displayAt_some (ds : Digits) (i : Nat) (m : TFTSevenSegmentModule) (v : Int)
    (hm : ds i = some m) (h0 : 0 ≤ v) (h9 : v ≤ 9) :
    ∃ tr, ds.displayAt i v = some tr ∧ m.display v = some tr ∧
      (m.m_on = true → Shows m v tr) := by
  obtain ⟨leds, hl, _⟩ := TFTSevenSegmentModule.digitCodeMap_lookup v h0 h9
  have hd := TFTSevenSegmentModule.display_eq_specTrace m v leds h0 hl
  refine ⟨m.specTrace leds, by simp [displayAt, hm, hd], hd, ?_⟩
  intro hon
  exact ⟨hon, h0, by simp [hl, TFTSevenSegmentModule.specTrace_of_on m leds hon]⟩

end Digits

namespace TFTSevenSegmentClockDisplay

/-- The separator dots are drawn whenever the four modules they are placed between are
allocated: four `fillRect` calls. -/
theorem separators_some (c : TFTSevenSegmentClockDisplay) (ds : Digits) (sep : Bool)
    (a b e f : TFTSevenSegmentModule) (h1 : ds HH2 = some a) (h2 : ds MM1 = some b)
    (h3 : ds MM2 = some e) (h4 : ds SS1 = some f) :
    ∃ tr, c.separators ds sep = some tr ∧ tr.length = 4 := by
  simp [separators, h1, h2, h3, h4]

/-- What the hours part of `display` returns: the hours-tens slot by the show-or-blank
pattern under the guard `hours > 9`, the hours-ones slot drawn as it is, then the
separator dots. -/
theorem displayHours_result (c : TFTSevenSegmentClockDisplay) (ds : Digits) (hours : Int)
    (sep : Bool) (m0 m1 m2 m3 m4 : TFTSevenSegmentModule) (hh : 0 ≤ hours)
    (h0 : ds HH1 = some m0) (h1 : ds HH2 = some m1) (h2 : ds MM1 = some m2)
    (h3 : ds MM2 = some m3) (h4 : ds SS1 = some m4) :
    ∃ hh1 trHH1 trHH2 trSep,
      c.displayHours ds hours sep
        = some (Function.update ds HH1 (some hh1), trHH1 ++ trHH2 ++ trSep) ∧
      hh1.off = m0.off ∧
      (Blanked hh1 trHH1 ↔ ¬ hours > 9) ∧
      (¬ Blanked hh1 trHH1 → Shows hh1 ((hours / 10) % 10) trHH1) ∧
      m1.display (hours % 10) = some trHH2 ∧
      (m1.m_on = true → Shows m1 (hours % 10) trHH2) ∧
      c.separators (Function.update ds HH1 (some hh1)) sep = some trSep ∧
      trSep.length = 4 := by
  obtain ⟨et, t0, t9⟩ := Digits.tens_digit hours hh
  obtain ⟨eo, o0, o9⟩ := Digits.ones_digit hours hh
  obtain ⟨hh1, trHH1, e1, f1, b1, s1⟩ :=
    Digits.showOrBlank ds HH1 m0 ((hours / 10) % 10) (hours > 9) h0 t0 t9
  have g1 : Function.update ds HH1 (some hh1) HH2 = some m1 := by
    rw [Function.update_noteq (by decide)]; exact h1
  have g2 : Function.update ds HH1 (some hh1) MM1 = some m2 := by
    rw [Function.update_noteq (by decide)]; exact h2
  have g3 : Function.update ds HH1 (some hh1) MM2 = some m3 := by
    rw [Function.update_noteq (by decide)]; exact h3
  have g4 : Function.update ds HH1 (some hh1) SS1 = some m4 := by
    rw [Function.update_noteq (by decide)]; exact h4
  obtain ⟨trHH2, e2, d2, s2⟩ := Digits.displayAt_some _ HH2 m1 (hours % 10) g1 o0 o9
  obtain ⟨trSep, e3, l3⟩ := separators_some c _ sep m1 m2 m3 m4 g1 g2 g3 g4
  refine ⟨hh1, trHH1, trHH2, trSep, ?_, f1, b1, s1, d2, s2, e3, l3⟩
  simp only [displayHours, et, eo, e1, e2, e3, Option.bind_eq_bind, Option.some_bind,
    Option.pure_def]

/-- What the minutes and seconds part of `display` does: the minutes-tens slot by the
show-or-blank pattern under the guard `minutes > 9 || m_showHours`, the three other
slots drawn as they are; the hours part, if any, follows on the updated slots. -/
theorem display_core (c : TFTSevenSegmentClockDisplay) (minutes seconds : Int)
    (m2 m3 m4 m5 : TFTSevenSegmentModule) (hm : 0 ≤ minutes) (hs : 0 ≤ seconds)
    (h2 : c.digits MM1 = some m2) (h3 : c.digits MM2 = some m3)
    (h4 : c.digits SS1 = some m4) (h5 : c.digits SS2 = some m5) :
    ∃ mm1 trMM1 trMM2 trSS1 trSS2,
      (∀ (hours : Int) (sep : Bool),
        c.display hours minutes seconds sep
          = (if c.m_showHours = true then
               c.displayHours (Function.update c.digits MM1 (some mm1)) hours sep
             else some (Function.update c.digits MM1 (some mm1), [])).bind
              (fun r => some ({ c with digits := r.1 },
                trMM1 ++ trMM2 ++ trSS1 ++ trSS2 ++ r.2))) ∧
      mm1.off = m2.off ∧
      (Blanked mm1 trMM1 ↔ ¬ (minutes > 9 ∨ c.m_showHours = true)) ∧
      (¬ Blanked mm1 trMM1 → Shows mm1 ((minutes / 10) % 10) trMM1) ∧
      m3.display (minutes % 10) = some trMM2 ∧
      (m3.m_on = true → Shows m3 (minutes % 10) trMM2) ∧
      m4.display ((seconds / 10) % 10) = some trSS1 ∧
      (m4.m_on = true → Shows m4 ((seconds / 10) % 10) trSS1) ∧
      m5.display (seconds % 10) = some trSS2 ∧
      (m5.m_on = true → Shows m5 (seconds % 10) trSS2) := by
  obtain ⟨emt, mt0, mt9⟩ := Digits.tens_digit minutes hm
  obtain ⟨emo, mo0, mo9⟩ := Digits.ones_digit minutes hm
  obtain ⟨est, st0, st9⟩ := Digits.tens_digit seconds hs
  obtain ⟨eso, so0, so9⟩ := Digits.ones_digit seconds hs
  obtain ⟨mm1, trMM1, e1, f1, b1, s1⟩ :=
    Digits.showOrBlank c.digits MM1 m2 ((minutes / 10) % 10)
      (minutes > 9 ∨ c.m_showHours = true) h2 mt0 mt9
  have g3 : Function.update c.digits MM1 (some mm1) MM2 = some m3 := by
    rw [Function.update_noteq (by decide)]; exact h3
  have g4 : Function.update c.digits MM1 (some mm1) SS1 = some m4 := by
    rw [Function.update_noteq (by decide)]; exact h4
  have g5 : Function.update c.digits MM1 (some mm1) SS2 = some m5 := by
    rw [Function.update_noteq (by decide)]; exact h5
  obtain ⟨trMM2, e2, d2, s2⟩ := Digits.displayAt_some _ MM2 m3 (minutes % 10) g3 mo0 mo9
  obtain ⟨trSS1, e3, d3, s3⟩ :=
    Digits.displayAt_some _ SS1 m4 ((seconds / 10) % 10) g4 st0 st9
  obtain ⟨trSS2, e4, d4, s4⟩ := Digits.displayAt_some _ SS2 m5 (seconds % 10) g5 so0 so9
  refine ⟨mm1, trMM1, trMM2, trSS1, trSS2, ?_, f1, b1, s1, d2, s2, d3, s3, d4, s4⟩
  intro hours sep
  simp only [display, emt, emo, est, eso, e1, e2, e3, e4, Option.bind_eq_bind,
    Option.some_bind, Option.pure_def]

end TFTSevenSegmentClockDisplay

/-! ### The states a clock display can reach -/

namespace TFTSevenSegmentClockDisplay

/-- The constructor returns a display: the two seconds slots it resizes after the loop
were allocated by the loop. -/
theorem new_digits (x y w h : Int) (onColor offColor : Nat) (ledWidth : Int)
    (showHours : Bool) (r : Ratio) :
    ∃ c, new x y w h onColor offColor ledWidth showHours r = some c ∧
      c.m_showHours = showHours ∧
      ∀ i, c.digits.onFlag i
        = if firstDigit showHours ≤ i ∧ i < DIGITS then some true else none := by
  cases showHours
  · simp [new, firstDigit, DIGITS, List.range', constructStep, Digits.modify, SS1, SS2,
      MM2, Function.update, Digits.onFlag]
    intro i
    rcases i with _ | _ | _ | _ | _ | _ | i <;>
      simp [TFTSevenSegmentModule.setHeight, TFTSevenSegmentModule.setWidth]
    rw [if_neg (by omega)]
  · simp [new, firstDigit, DIGITS, List.range', constructStep, Digits.modify, SS1, SS2,
      MM2, Function.update, Digits.onFlag]
    intro i
    rcases i with _ | _ | _ | _ | _ | _ | i <;>
      simp [TFTSevenSegmentModule.setHeight, TFTSevenSegmentModule.setWidth]
    rw [if_neg (by omega)]

end TFTSevenSegmentClockDisplay

namespace Digits

/-- A mutator that leaves `m_on` alone, called on one slot, changes no enabled flag. -/
theorem modify_onFlag (ds ds' : Digits) (i : Nat)
    (f : TFTSevenSegmentModule → TFTSevenSegmentModule) (hf : ∀ m, (f m).m_on = m.m_on)
    (h : ds.modify i f = some ds') (j : Nat) : ds'.onFlag j = ds.onFlag j := by
  unfold modify at h
  cases hm : ds i with
  | none => simp [hm] at h
  | some m =>
    simp only [hm, Option.some.injEq] at h
    subst h
    by_cases hj : j = i
    · subst hj; simp [onFlag, hm, hf]
    · simp [onFlag, Function.update_noteq hj]

/-- The loop of a bulk setter changes no enabled flag. -/
theorem foldlM_modify_onFlag (f : TFTSevenSegmentModule → TFTSevenSegmentModule)
    (hf : ∀ m, (f m).m_on = m.m_on) (l : List Nat) :
    ∀ (ds ds' : Digits), l.foldlM (fun d i => modify d i f) ds = some ds' →
      ∀ j, ds'.onFlag j = ds.onFlag j := by
  induction l with
  | nil =>
    intro ds ds' h j
    simp only [List.foldlM_nil, Option.pure_def, Option.some.injEq] at h
    rw [h]
  | cons a l ih =>
    intro ds ds' h j
    simp only [List.foldlM_cons, Option.bind_eq_bind, Option.bind_eq_some] at h
    obtain ⟨ds1, h1, h2⟩ := h
    rw [ih ds1 ds' h2 j, modify_onFlag ds ds1 a f hf h1 j]

/-- The slots after `on(); display(v);` or `off(); display(0);` on slot `i`: the same
slots are allocated and every slot but `i` is untouched. -/
theorem showOrBlank_frame (ds ds' : Digits) (i : Nat) (v : Int) (tr : List DrawCall)
    (cond : Prop) [Decidable cond]
    (h : (if cond then ds.onAndDisplay i v else ds.offAndDisplay i) = some (ds', tr))
    (j : Nat) :
    (ds'.onFlag j).isSome = (ds.onFlag j).isSome ∧ (j ≠ i → ds' j = ds j) := by
  have key : ∃ m m', ds i = some m ∧ ds' = Function.update ds i (some m') := by
    cases hm : ds i with
    | none => split_ifs at h <;> simp [onAndDisplay, offAndDisplay, modify, hm] at h
    | some m =>
      split_ifs at h
      · simp only [onAndDisplay, modify, hm, Option.bind_eq_bind, Option.some_bind,
          Option.bind_eq_some, Option.pure_def, Option.some.injEq, Prod.mk.injEq] at h
        obtain ⟨_, _, h2, _⟩ := h
        exact ⟨m, m.on_, rfl, h2.symm⟩
      · simp only [offAndDisplay, modify, hm, Option.bind_eq_bind, Option.some_bind,
          Option.bind_eq_some, Option.pure_def, Option.some.injEq, Prod.mk.injEq] at h
        obtain ⟨_, _, h2, _⟩ := h
        exact ⟨m, m.off, rfl, h2.symm⟩
  obtain ⟨m, m', hm, rfl⟩ := key
  refine ⟨?_, fun hj => Function.update_noteq hj _ _⟩
  by_cases hj : j = i
  · subst hj; simp [onFlag, hm]
  · simp [onFlag, Function.update_noteq hj]

end Digits

namespace TFTSevenSegmentClockDisplay

/-- The slots after the hours part of `display`: only the hours-tens slot may change,
and it stays allocated. -/
theorem displayHours_frame (c : TFTSevenSegmentClockDisplay) (ds ds' : Digits)
    (hours : Int) (sep : Bool) (tr : List DrawCall)
    (h : c.displayHours ds hours sep = some (ds', tr)) (j : Nat) :
    (ds'.onFlag j).isSome = (ds.onFlag j).isSome ∧ (j ≠ HH1 → ds' j = ds j) := by
  simp only [displayHours, Option.bind_eq_bind, Option.bind_eq_some, Option.pure_def,
    Option.some.injEq, Prod.mk.injEq] at h
  obtain ⟨⟨ds1, tr1⟩, e1, _, _, _, _, e2, _⟩ := h
  subst e2
  exact Digits.showOrBlank_frame ds ds1 HH1 _ tr1 _ e1 j

/-- The slots after `display`: only the minutes-tens and hours-tens slots may change,
they stay allocated, and no other member of the display changes. -/
theorem display_frame (c c' : TFTSevenSegmentClockDisplay) (hours minutes seconds : Int)
    (sep : Bool) (tr : List DrawCall)
    (h : c.display hours minutes seconds sep = some (c', tr)) :
    c'.m_showHours = c.m_showHours ∧
    ∀ j, (c'.digits.onFlag j).isSome = (c.digits.onFlag j).isSome ∧
      (j ≠ MM1 → j ≠ HH1 → c'.digits j = c.digits j) := by
  simp only [display, Option.bind_eq_bind, Option.bind_eq_some, Option.pure_def,
    Option.some.injEq, Prod.mk.injEq] at h
  obtain ⟨⟨ds1, tr1⟩, e1, _, _, _, _, _, _, ⟨ds2, tr5⟩, e5, e6, _⟩ := h
  subst e6
  refine ⟨rfl, fun j => ?_⟩
  have f1 := Digits.showOrBlank_frame c.digits ds1 MM1 _ tr1 _ e1 j
  by_cases hs : c.m_showHours = true
  · simp only [hs, if_true] at e5
    have f2 := displayHours_frame c ds1 ds2 hours sep tr5 e5 j
    exact ⟨f2.1.trans f1.1, fun h1 h2 => (f2.2 h2).trans (f1.2 h1)⟩
  · rw [if_neg hs] at e5
    simp only [Option.some.injEq, Prod.mk.injEq] at e5
    rw [← e5.1]
    exact ⟨f1.1, fun h1 _ => f1.2 h1⟩

end TFTSevenSegmentClockDisplay

namespace Digits

/-- An allocated slot holds a module. -/
theorem exists_of_onFlag_isSome (ds : Digits) (i : Nat) (h : (ds.onFlag i).isSome = true) :
    ∃ m, ds i = some m := by
  unfold onFlag at h
  cases hm : ds i with
  | none => simp [hm] at h
  | some m => exact ⟨m, rfl⟩

/-- A slot whose flag is set holds an enabled module. -/
theorem exists_of_onFlag_true (ds : Digits) (i : Nat) (h : ds.onFlag i = some true) :
    ∃ m, ds i = some m ∧ m.m_on = true := by
  unfold onFlag at h
  cases hm : ds i with
  | none => simp [hm] at h
  | some m => exact ⟨m, rfl, by simpa [hm] using h⟩

end Digits

namespace TFTSevenSegmentClockDisplay

/-- The constructor establishes the invariant. -/
theorem inv_of_new (x y w h : Int) (onColor offColor : Nat) (ledWidth : Int)
    (showHours : Bool) (r : Ratio) (c : TFTSevenSegmentClockDisplay)
    (hc : new x y w h onColor offColor ledWidth showHours r = some c) : c.Inv := by
  obtain ⟨c0, h0, hs, hf⟩ := new_digits x y w h onColor offColor ledWidth showHours r
  rw [hc] at h0
  cases h0
  have a2 := hf MM1
  have a3 := hf MM2
  have a4 := hf SS1
  have a5 := hf SS2
  have a0 := hf HH1
  have a1 := hf HH2
  cases showHours <;>
    simp [firstDigit, DIGITS, HH1, HH2, MM1, MM2, SS1, SS2] at a0 a1 a2 a3 a4 a5 <;>
    simp [Inv, hs, HH1, HH2, MM1, MM2, SS1, SS2, a0, a1, a2, a3, a4, a5]

/-- The invariant depends on the enabled flags and `m_showHours` alone. -/
theorem inv_of_onFlag (c c' : TFTSevenSegmentClockDisplay) (hc : c.Inv)
    (hs : c'.m_showHours = c.m_showHours)
    (hf : ∀ j, (c'.digits.onFlag j).isSome = (c.digits.onFlag j).isSome ∧
      (j ≠ MM1 → j ≠ HH1 → c'.digits.onFlag j = c.digits.onFlag j)) : c'.Inv := by
  obtain ⟨i2, i3, i4, i5, ih⟩ := hc
  refine ⟨?_, ?_, ?_, ?_, ?_⟩
  · rw [(hf MM1).1]; exact i2
  · rw [(hf MM2).2 (by decide) (by decide)]; exact i3
  · rw [(hf SS1).2 (by decide) (by decide)]; exact i4
  · rw [(hf SS2).2 (by decide) (by decide)]; exact i5
  · intro h
    rw [hs] at h
    obtain ⟨j0, j1⟩ := ih h
    exact ⟨by rw [(hf HH1).1]; exact j0, by rw [(hf HH2).2 (by decide) (by decide)]; exact j1⟩

/-- `display` keeps the invariant. -/
theorem inv_of_display (c c' : TFTSevenSegmentClockDisplay) (hours minutes seconds : Int)
    (sep : Bool) (tr : List DrawCall) (hc : c.Inv)
    (h : c.display hours minutes seconds sep = some (c', tr)) : c'.Inv := by
  obtain ⟨hs, hf⟩ := display_frame c c' hours minutes seconds sep tr h
  refine inv_of_onFlag c c' hc hs (fun j => ⟨(hf j).1, fun h1 h2 => ?_⟩)
  simp only [Digits.onFlag, (hf j).2 h1 h2]

/-- A bulk setter that leaves `m_on` alone keeps the invariant. -/
theorem inv_of_modifyRange (c c' : TFTSevenSegmentClockDisplay) (ds : Digits)
    (f : TFTSevenSegmentModule → TFTSevenSegmentModule) (hf : ∀ m, (f m).m_on = m.m_on)
    (hc : c.Inv) (hm : c.digits.modifyRange (firstDigit c.m_showHours) DIGITS f = some ds)
    (hs : c'.m_showHours = c.m_showHours) (hd : c'.digits = ds) : c'.Inv := by
  have key := Digits.foldlM_modify_onFlag f hf _ c.digits ds hm
  refine inv_of_onFlag c c' hc hs (fun j => ?_)
  rw [hd, key j]
  exact ⟨rfl, fun _ _ => rfl⟩

/-- From the state the eight-argument constructor leaves no operation returns: `display`
dereferences the unassigned minutes-tens slot, and the loop of a bulk setter its first
slot. -/
theorem unbuilt_stuck (c : TFTSevenSegmentClockDisplay) (hu : c.Unbuilt) :
    (∀ (hours minutes seconds : Int) (sep : Bool),
      c.display hours minutes seconds sep = none) ∧
    (∀ f : TFTSevenSegmentModule → TFTSevenSegmentModule,
      c.digits.modifyRange (firstDigit c.m_showHours) DIGITS f = none) := by
  obtain ⟨hs, hd⟩ := hu
  constructor
  · intro hours minutes seconds sep
    simp only [display, Digits.onAndDisplay, Digits.offAndDisplay, Digits.modify, hd]
    split_ifs <;> rfl
  · intro f
    simp [Digits.modifyRange, hs, firstDigit, DIGITS, List.range', Digits.modify, hd]

/-- Every reachable state is the state the eight-argument constructor leaves or
satisfies the invariant. -/
theorem inv_of_reachable (c : TFTSevenSegmentClockDisplay) (h : Reachable c) :
    c.Unbuilt ∨ c.Inv := by
  induction h with
  | construct x y w h onColor offColor ledWidth showHours r c hc =>
    exact Or.inr (inv_of_new x y w h onColor offColor ledWidth showHours r c hc)
  | construct8 x y w h onColor offColor ledWidth =>
    exact Or.inl ⟨rfl, fun _ => rfl⟩
  | display c c' hours minutes seconds sep tr _ hd ih =>
    rcases ih with hu | ih
    · rw [(unbuilt_stuck c hu).1] at hd
      exact Option.noConfusion hd
    · exact Or.inr (inv_of_display c c' hours minutes seconds sep tr ih hd)
  | displaySeconds c c' t sep tr _ hd ih =>
    rcases ih with hu | ih
    · rw [displaySeconds, (unbuilt_stuck c hu).1] at hd
      exact Option.noConfusion hd
    · exact Or.inr (inv_of_display c c' _ _ _ sep tr ih hd)
  | displayMillis c c' t sep tr _ hd ih =>
    rcases ih with hu | ih
    · rw [displayMillis, displaySeconds, (unbuilt_stuck c hu).1] at hd
      exact Option.noConfusion hd
    · exact Or.inr (inv_of_display c c' _ _ _ sep tr ih hd)
  | setOnColor c c' color _ hd ih =>
    simp only [setOnColor, Option.bind_eq_bind, Option.bind_eq_some, Option.pure_def,
      Option.some.injEq] at hd
    obtain ⟨ds, h1, h2⟩ := hd
    subst h2
    rcases ih with hu | ih
    · rw [(unbuilt_stuck c hu).2] at h1
      exact Option.noConfusion h1
    · exact Or.inr (inv_of_modifyRange c _ ds (fun m => m.setOnColor color) (fun _ => rfl)
        ih h1 rfl rfl)
  | setOffColor c c' color _ hd ih =>
    simp only [setOffColor, Option.bind_eq_bind, Option.bind_eq_some, Option.pure_def,
      Option.some.injEq] at hd
    obtain ⟨ds, h1, h2⟩ := hd
    subst h2
    rcases ih with hu | ih
    · rw [(unbuilt_stuck c hu).2] at h1
      exact Option.noConfusion h1
    · exact Or.inr (inv_of_modifyRange c _ ds (fun m => m.setOffColor color) (fun _ => rfl)
        ih h1 rfl rfl)
  | setLedSegmentWidth c c' ledWidth _ hd ih =>
    simp only [setLedSegmentWidth, Option.bind_eq_bind, Option.bind_eq_some, Option.pure_def,
      Option.some.injEq] at hd
    obtain ⟨ds, h1, h2⟩ := hd
    subst h2
    rcases ih with hu | ih
    · rw [(unbuilt_stuck c hu).2] at h1
      exact Option.noConfusion h1
    · exact Or.inr (inv_of_modifyRange c _ ds (fun m => m.setLedWidth ledWidth)
        (fun _ => rfl) ih h1 rfl rfl)

/-- A reachable state with hours shown satisfies the invariant: the eight-argument
constructor leaves hours hidden. -/
theorem inv_of_reachable_shown (c : TFTSevenSegmentClockDisplay) (h : Reachable c)
    (hshow : c.m_showHours = true) : c.Inv := by
  rcases inv_of_reachable c h with hu | hi
  · rw [hu.1] at hshow
    exact Bool.noConfusion hshow
  · exact hi

end TFTSevenSegmentClockDisplay

namespace TFTSevenSegmentClockDisplay

/-- With hours shown and the six slots allocated, `display` on non-negative arguments
draws the six modules and the separators; the two tens modules follow the
show-or-blank pattern, the four others are drawn as they are. -/
theorem renders_of_showHours (c : TFTSevenSegmentClockDisplay)
    (m0 m1 m2 m3 m4 m5 : TFTSevenSegmentModule) (hshow : c.m_showHours = true)
    (h0 : c.digits HH1 = some m0) (h1 : c.digits HH2 = some m1)
    (h2 : c.digits MM1 = some m2) (h3 : c.digits MM2 = some m3)
    (h4 : c.digits SS1 = some m4) (h5 : c.digits SS2 = some m5)
    (hours minutes seconds : Int) (sep : Bool) (hh : 0 ≤ hours) (hm : 0 ≤ minutes)
    (hs : 0 ≤ seconds) :
    c.Renders hours minutes seconds sep
      (fun mod tr => (Blanked mod tr ↔ ¬ hours > 9) ∧
        (¬ Blanked mod tr → Shows mod ((hours / 10) % 10) tr))
      (fun mod tr => mod = m1 ∧ (m1.m_on = true → Shows m1 (hours % 10) tr))
      (fun mod tr => Shows mod ((minutes / 10) % 10) tr)
      (fun mod tr => mod = m3 ∧ (m3.m_on = true → Shows m3 (minutes % 10) tr))
      (fun mod tr => mod = m4 ∧ (m4.m_on = true → Shows m4 ((seconds / 10) % 10) tr))
      (fun mod tr => mod = m5 ∧ (m5.m_on = true → Shows m5 (seconds % 10) tr)) := by
  obtain ⟨mm1, trMM1, trMM2, trSS1, trSS2, e, _, b1, s1, _, s2, _, s3, _, s4⟩ :=
    display_core c minutes seconds m2 m3 m4 m5 hm hs h2 h3 h4 h5
  have g0 : Function.update c.digits MM1 (some mm1) HH1 = some m0 := by
    rw [Function.update_noteq (by decide)]; exact h0
  have g1 : Function.update c.digits MM1 (some mm1) HH2 = some m1 := by
    rw [Function.update_noteq (by decide)]; exact h1
  have g2 : Function.update c.digits MM1 (some mm1) MM1 = some mm1 := Function.update_same _ _ _
  have g3 : Function.update c.digits MM1 (some mm1) MM2 = some m3 := by
    rw [Function.update_noteq (by decide)]; exact h3
  have g4 : Function.update c.digits MM1 (some mm1) SS1 = some m4 := by
    rw [Function.update_noteq (by decide)]; exact h4
  have g5 : Function.update c.digits MM1 (some mm1) SS2 = some m5 := by
    rw [Function.update_noteq (by decide)]; exact h5
  obtain ⟨hh1, trHH1, trHH2, trSep, eH, _, bH, sH, _, sH2, eSep, _⟩ :=
    displayHours_result c _ hours sep m0 m1 mm1 m3 m4 hh g0 g1 g2 g3 g4
  have hlit : ¬ Blanked mm1 trMM1 := fun hb => (b1.mp hb) (Or.inr hshow)
  refine ⟨{ c with digits := (Function.update (Function.update c.digits MM1 (some mm1))
      HH1 (some hh1)) }, hh1, m1, mm1, m3, m4, m5, trHH1, trHH2, trMM1, trMM2, trSS1, trSS2,
    trSep,
    ?_, ?_, ?_, ?_, ?_, ?_, ?_, eSep, ⟨bH, sH⟩, ⟨rfl, sH2⟩, s1 hlit, ⟨rfl, s2⟩, ⟨rfl, s3⟩,
    ⟨rfl, s4⟩⟩
  · rw [e hours sep, if_pos hshow, eH]
    rfl
  · simp [Function.update, HH1, HH2, MM1, MM2, SS1, SS2]
  · simpa [Function.update, HH1, HH2, MM1, MM2, SS1, SS2] using h1
  · simp [Function.update, HH1, HH2, MM1, MM2, SS1, SS2]
  · simpa [Function.update, HH1, HH2, MM1, MM2, SS1, SS2] using h3
  · simpa [Function.update, HH1, HH2, MM1, MM2, SS1, SS2] using h4
  · simpa [Function.update, HH1, HH2, MM1, MM2, SS1, SS2] using h5

/-- With the owned slots allocated, `display` on non-negative arguments draws the four
minutes and seconds modules first: the minutes-tens module by the show-or-blank pattern
under the guard `minutes > 9 || m_showHours`, the three others as they are. -/
theorem rendersTime_of_allocated (c : TFTSevenSegmentClockDisplay) (hc : c.Allocated)
    (m3 m4 m5 : TFTSevenSegmentModule) (h3 : c.digits MM2 = some m3)
    (h4 : c.digits SS1 = some m4) (h5 : c.digits SS2 = some m5)
    (hours minutes seconds : Int) (sep : Bool) (hh : 0 ≤ hours) (hm : 0 ≤ minutes)
    (hs : 0 ≤ seconds) :
    c.RendersTime hours minutes seconds sep
      (fun mod tr => (Blanked mod tr ↔ ¬ (minutes > 9 ∨ c.m_showHours = true)) ∧
        (¬ Blanked mod tr → Shows mod ((minutes / 10) % 10) tr))
      (fun mod tr => mod = m3 ∧ (m3.m_on = true → Shows m3 (minutes % 10) tr))
      (fun mod tr => mod = m4 ∧ (m4.m_on = true → Shows m4 ((seconds / 10) % 10) tr))
      (fun mod tr => mod = m5 ∧ (m5.m_on = true → Shows m5 (seconds % 10) tr)) := by
  have hfirst : firstDigit c.m_showHours ≤ 2 := by
    unfold firstDigit; split <;> decide
  obtain ⟨m2, h2⟩ := hc MM1 hfirst (by decide)
  by_cases hshow : c.m_showHours = true
  · have hz : firstDigit c.m_showHours = 0 := by simp [firstDigit, hshow]
    obtain ⟨m0, h0⟩ := hc HH1 (by rw [hz]; decide) (by decide)
    obtain ⟨m1, h1⟩ := hc HH2 (by rw [hz]; decide) (by decide)
    obtain ⟨c', hh1, hh2, mm1, mm2, ss1, ss2, trHH1, trHH2, trMM1, trMM2, trSS1, trSS2,
        trSep, e, _, _, d2, d3, d4, d5, _, _, _, p2, p3, p4, p5⟩ :=
      renders_of_showHours c m0 m1 m2 m3 m4 m5 hshow h0 h1 h2 h3 h4 h5 hours minutes
        seconds sep hh hm hs
    refine ⟨c', mm1, mm2, ss1, ss2, trMM1, trMM2, trSS1, trSS2, trHH1 ++ trHH2 ++ trSep,
      e, d2, d3, d4, d5, ⟨?_, fun _ => p2⟩, p3, p4, p5⟩
    constructor
    · intro hb
      have h1 := hb.1
      rw [p2.1] at h1
      exact Bool.noConfusion h1
    · intro hn
      exact absurd (Or.inr hshow) hn
  · obtain ⟨mm1, trMM1, trMM2, trSS1, trSS2, e, _, b1, s1, _, s2, _, s3, _, s4⟩ :=
      display_core c minutes seconds m2 m3 m4 m5 hm hs h2 h3 h4 h5
    refine ⟨{ c with digits := (Function.update c.digits MM1 (some mm1)) }, mm1, m3, m4, m5,
      trMM1, trMM2, trSS1, trSS2, [], ?_, ?_, ?_, ?_, ?_,
      ⟨b1, s1⟩, ⟨rfl, s2⟩, ⟨rfl, s3⟩, ⟨rfl, s4⟩⟩
    · rw [e hours sep, if_neg hshow]
      rfl
    · simp [Function.update, HH1, HH2, MM1, MM2, SS1, SS2]
    · simpa [Function.update, HH1, HH2, MM1, MM2, SS1, SS2] using h3
    · simpa [Function.update, HH1, HH2, MM1, MM2, SS1, SS2] using h4
    · simpa [Function.update, HH1, HH2, MM1, MM2, SS1, SS2] using h5

end TFTSevenSegmentClockDisplay

namespace TFTSevenSegmentClockDisplay

/-- Weakening of the per-module properties of `Renders`. -/
theorem renders_mono {c : TFTSevenSegmentClockDisplay} {h m s : Int} {sep : Bool}
    {P0 P1 P2 P3 P4 P5 Q0 Q1 Q2 Q3 Q4 Q5 : TFTSevenSegmentModule → List DrawCall → Prop}
    (hr : c.Renders h m s sep P0 P1 P2 P3 P4 P5)
    (i0 : ∀ a b, P0 a b → Q0 a b) (i1 : ∀ a b, P1 a b → Q1 a b)
    (i2 : ∀ a b, P2 a b → Q2 a b) (i3 : ∀ a b, P3 a b → Q3 a b)
    (i4 : ∀ a b, P4 a b → Q4 a b) (i5 : ∀ a b, P5 a b → Q5 a b) :
    c.Renders h m s sep Q0 Q1 Q2 Q3 Q4 Q5 := by
  obtain ⟨c', hh1, hh2, mm1, mm2, ss1, ss2, trHH1, trHH2, trMM1, trMM2, trSS1, trSS2, trSep,
    e, d0, d1, d2, d3, d4, d5, es, p0, p1, p2, p3, p4, p5⟩ := hr
  exact ⟨c', hh1, hh2, mm1, mm2, ss1, ss2, trHH1, trHH2, trMM1, trMM2, trSS1, trSS2, trSep,
    e, d0, d1, d2, d3, d4, d5, es, i0 _ _ p0, i1 _ _ p1, i2 _ _ p2, i3 _ _ p3, i4 _ _ p4,
    i5 _ _ p5⟩

/-- Weakening of the per-module properties of `RendersTime`. -/
theorem rendersTime_mono {c : TFTSevenSegmentClockDisplay} {h m s : Int} {sep : Bool}
    {P2 P3 P4 P5 Q2 Q3 Q4 Q5 : TFTSevenSegmentModule → List DrawCall → Prop}
    (hr : c.RendersTime h m s sep P2 P3 P4 P5)
    (i2 : ∀ a b, P2 a b → Q2 a b) (i3 : ∀ a b, P3 a b → Q3 a b)
    (i4 : ∀ a b, P4 a b → Q4 a b) (i5 : ∀ a b, P5 a b → Q5 a b) :
    c.RendersTime h m s sep Q2 Q3 Q4 Q5 := by
  obtain ⟨c', mm1, mm2, ss1, ss2, trMM1, trMM2, trSS1, trSS2, trRest, e, d2, d3, d4, d5,
    p2, p3, p4, p5⟩ := hr
  exact ⟨c', mm1, mm2, ss1, ss2, trMM1, trMM2, trSS1, trSS2, trRest, e, d2, d3, d4, d5,
    i2 _ _ p2, i3 _ _ p3, i4 _ _ p4, i5 _ _ p5⟩

/-- Under the invariant the slots the constructor allocates hold a module. -/
theorem allocated_of_inv (c : TFTSevenSegmentClockDisplay) (hc : c.Inv) : c.Allocated := by
  obtain ⟨i2, i3, i4, i5, ih⟩ := hc
  intro i hlo hhi
  have hi : i < 6 := hhi
  by_cases hshow : c.m_showHours = true
  · obtain ⟨j0, j1⟩ := ih hshow
    interval_cases i
    · exact Digits.exists_of_onFlag_isSome _ _ j0
    · exact (Digits.exists_of_onFlag_true _ _ j1).imp fun _ h => h.1
    · exact Digits.exists_of_onFlag_isSome _ _ i2
    · exact (Digits.exists_of_onFlag_true _ _ i3).imp fun _ h => h.1
    · exact (Digits.exists_of_onFlag_true _ _ i4).imp fun _ h => h.1
    · exact (Digits.exists_of_onFlag_true _ _ i5).imp fun _ h => h.1
  · have hf : firstDigit c.m_showHours = 2 := by simp [firstDigit, hshow]
    rw [hf] at hlo
    interval_cases i
    · exact Digits.exists_of_onFlag_isSome _ _ i2
    · exact (Digits.exists_of_onFlag_true _ _ i3).imp fun _ h => h.1
    · exact (Digits.exists_of_onFlag_true _ _ i4).imp fun _ h => h.1
    · exact (Digits.exists_of_onFlag_true _ _ i5).imp fun _ h => h.1

/-- Claim C6: on a clock display constructed with hours shown, for hours in 0..23 and
minutes, seconds in 0..59, `display` blanks the hours-tens module iff hours <= 9 and
otherwise shows hours/10 lit on it; it shows hours%10 lit on the hours-ones module and
minutes/10, minutes%10, seconds/10, seconds%10 lit on the four remaining modules. -/
theorem display_with_hours_shown (c : TFTSevenSegmentClockDisplay) (hr : Reachable c)
    (hshow : c.m_showHours = true) (hours minutes seconds : Int) (sep : Bool)
    (hh0 : 0 ≤ hours) (hh1 : hours ≤ 23) (hm0 : 0 ≤ minutes) (hm1 : minutes ≤ 59)
    (hs0 : 0 ≤ seconds) (hs1 : seconds ≤ 59) :
    c.Renders hours minutes seconds sep
      (fun mod tr => (Blanked mod tr ↔ hours ≤ 9) ∧ (¬ hours ≤ 9 → Shows mod (hours / 10) tr))
      (fun mod tr => Shows mod (hours % 10) tr)
      (fun mod tr => Shows mod (minutes / 10) tr)
      (fun mod tr => Shows mod (minutes % 10) tr)
      (fun mod tr => Shows mod (seconds / 10) tr)
      (fun mod tr => Shows mod (seconds % 10) tr) := by
  obtain ⟨i2, i3, i4, i5, ih⟩ := inv_of_reachable_shown c hr hshow
  obtain ⟨j0, j1⟩ := ih hshow
  obtain ⟨m0, h0⟩ := Digits.exists_of_onFlag_isSome _ _ j0
  obtain ⟨m1, h1, o1⟩ := Digits.exists_of_onFlag_true _ _ j1
  obtain ⟨m2, h2⟩ := Digits.exists_of_onFlag_isSome _ _ i2
  obtain ⟨m3, h3, o3⟩ := Digits.exists_of_onFlag_true _ _ i3
  obtain ⟨m4, h4, o4⟩ := Digits.exists_of_onFlag_true _ _ i4
  obtain ⟨m5, h5, o5⟩ := Digits.exists_of_onFlag_true _ _ i5
  have eh : (hours / 10) % 10 = hours / 10 := by omega
  have em : (minutes / 10) % 10 = minutes / 10 := by omega
  have es : (seconds / 10) % 10 = seconds / 10 := by omega
  have key := renders_of_showHours c m0 m1 m2 m3 m4 m5 hshow h0 h1 h2 h3 h4 h5 hours minutes
    seconds sep hh0 hm0 hs0
  rw [eh, em, es] at key
  refine renders_mono key ?_ ?_ (fun _ _ h => h) ?_ ?_ ?_
  · rintro a b ⟨hb, hn⟩
    refine ⟨by rw [hb]; omega, fun h9 => hn (fun hbl => h9 ?_)⟩
    have := hb.mp hbl
    omega
  · rintro a b ⟨rfl, hsh⟩; exact hsh o1
  · rintro a b ⟨rfl, hsh⟩; exact hsh o3
  · rintro a b ⟨rfl, hsh⟩; exact hsh o4
  · rintro a b ⟨rfl, hsh⟩; exact hsh o5

/-- In every state reachable from the ten-argument constructor, and so in every state
that satisfies the invariant, the minutes-ones, seconds-tens and seconds-ones modules
are enabled, and `display` with non-negative arguments draws them lit, showing
minutes%10, (seconds/10)%10 and seconds%10. -/
theorem ones_and_seconds_enabled_of_inv (c : TFTSevenSegmentClockDisplay)
    (hinv : c.Inv) :
    c.digits.onFlag MM2 = some true ∧ c.digits.onFlag SS1 = some true ∧
    c.digits.onFlag SS2 = some true ∧
    ∀ (hours minutes seconds : Int) (sep : Bool), 0 ≤ hours → 0 ≤ minutes → 0 ≤ seconds →
      c.RendersTime hours minutes seconds sep
        (fun _ _ => True)
        (fun mod tr => Shows mod (minutes % 10) tr)
        (fun mod tr => Shows mod ((seconds / 10) % 10) tr)
        (fun mod tr => Shows mod (seconds % 10) tr) := by
  have i3 := hinv.2.1
  have i4 := hinv.2.2.1
  have i5 := hinv.2.2.2.1
  refine ⟨i3, i4, i5, ?_⟩
  intro hours minutes seconds sep hh hm hs
  obtain ⟨m3, h3, o3⟩ := Digits.exists_of_onFlag_true _ _ i3
  obtain ⟨m4, h4, o4⟩ := Digits.exists_of_onFlag_true _ _ i4
  obtain ⟨m5, h5, o5⟩ := Digits.exists_of_onFlag_true _ _ i5
  refine rendersTime_mono (rendersTime_of_allocated c (allocated_of_inv c hinv) m3 m4 m5
    h3 h4 h5 hours minutes seconds sep hh hm hs) (fun _ _ _ => trivial) ?_ ?_ ?_
  · rintro a b ⟨rfl, hsh⟩; exact hsh o3
  · rintro a b ⟨rfl, hsh⟩; exact hsh o4
  · rintro a b ⟨rfl, hsh⟩; exact hsh o5

/-- Every reachable state is the state the eight-argument constructor leaves, in which
no module exists, or has the minutes-ones, seconds-tens and seconds-ones modules
enabled. -/
theorem reachable_unbuilt_or_enabled (c : TFTSevenSegmentClockDisplay) (hr : Reachable c) :
    c.Unbuilt ∨
    (c.digits.onFlag MM2 = some true ∧ c.digits.onFlag SS1 = some true ∧
      c.digits.onFlag SS2 = some true) := by
  rcases inv_of_reachable c hr with hu | hi
  · exact Or.inl hu
  · exact Or.inr ⟨hi.2.1, hi.2.2.1, hi.2.2.2.1⟩

/-- Claim C9: for t >= 0, `displaySeconds(t, sep)` is `display(h, m, s, sep)` with
h = (t / 3600) % 24, m = (t / 60) % 60, s = t % 60; these satisfy 0 <= h < 24,
0 <= m < 60, 0 <= s < 60 and 3600*h + 60*m + s = t % 86400. -/
theorem displaySeconds_eq_display (c : TFTSevenSegmentClockDisplay) (t : Int) (sep : Bool)
    (ht : 0 ≤ t) :
    c.displaySeconds t sep = c.display ((t / 3600) % 24) ((t / 60) % 60) (t % 60) sep ∧
    0 ≤ (t / 3600) % 24 ∧ (t / 3600) % 24 < 24 ∧
    0 ≤ (t / 60) % 60 ∧ (t / 60) % 60 < 60 ∧
    0 ≤ t % 60 ∧ t % 60 < 60 ∧
    3600 * ((t / 3600) % 24) + 60 * ((t / 60) % 60) + t % 60 = t % 86400 := by
  have e1 : Int.tmod (Int.tdiv t (SECONDS_IN_MINUTE * MINUTES_IN_HOUR)) HOURS_IN_DAY
      = (t / 3600) % 24 := by
    show Int.tmod (Int.tdiv t 3600) 24 = _
    rw [Int.tdiv_eq_ediv ht (by decide), Int.tmod_eq_emod (by omega) (by decide)]
  have e2 : Int.tmod (Int.tdiv t SECONDS_IN_MINUTE) MINUTES_IN_HOUR = (t / 60) % 60 := by
    show Int.tmod (Int.tdiv t 60) 60 = _
    rw [Int.tdiv_eq_ediv ht (by decide), Int.tmod_eq_emod (by omega) (by decide)]
  have e3 : Int.tmod t SECONDS_IN_MINUTE = t % 60 := by
    show Int.tmod t 60 = _
    rw [Int.tmod_eq_emod ht (by decide)]
  refine ⟨by rw [displaySeconds, e1, e2, e3], ?_, ?_, ?_, ?_, ?_, ?_, ?_⟩ <;> omega

end TFTSevenSegmentClockDisplay

namespace TFTSevenSegmentDecimalDisplay

/-- Claim C10: for n in 0..999 the one-argument `display(n)` is `display(h, t, o)` with
h = n / 100, t = (n / 10) % 10, o = n % 10, where h, t, o lie in 0..9 and
100*h + 10*t + o = n. -/
theorem displayNumber_eq_display (d : TFTSevenSegmentDecimalDisplay) (n : Int)
    (h0 : 0 ≤ n) (h1 : n ≤ 999) :
    d.displayNumber n = d.display (n / 100) ((n / 10) % 10) (n % 10) ∧
    0 ≤ n / 100 ∧ n / 100 ≤ 9 ∧ 0 ≤ (n / 10) % 10 ∧ (n / 10) % 10 ≤ 9 ∧
    0 ≤ n % 10 ∧ n % 10 ≤ 9 ∧
    100 * (n / 100) + 10 * ((n / 10) % 10) + n % 10 = n := by
  have e1 : Int.tmod (Int.tdiv n 100) 10 = n / 100 := by
    rw [Int.tdiv_eq_ediv h0 (by decide), Int.tmod_eq_emod (by omega) (by decide)]
    omega
  have e2 : Int.tmod (Int.tdiv n 10) 10 = (n / 10) % 10 := (Digits.tens_digit n h0).1
  have e3 : Int.tmod n 10 = n % 10 := (Digits.ones_digit n h0).1
  refine ⟨by rw [displayNumber, e1, e2, e3], ?_, ?_, ?_, ?_, ?_, ?_, ?_⟩ <;> omega

end TFTSevenSegmentDecimalDisplay

/-! ### The sample displays -/

/-- The sample clock with hours shown is a constructed state. -/
theorem sampleClockState_reachable :
    TFTSevenSegmentClockDisplay.Reachable sampleClockState :=
  TFTSevenSegmentClockDisplay.Reachable.construct 0 0 16 32 255 0 3 true (Ratio.exact 3 4) _
    (Option.some_get _).symm

/-- The sample clock with hours hidden is a constructed state. -/
theorem sampleClockNoHoursState_reachable :
    TFTSevenSegmentClockDisplay.Reachable sampleClockNoHoursState :=
  TFTSevenSegmentClockDisplay.Reachable.construct 0 0 16 32 255 0 3 false (Ratio.exact 3 4) _
    (Option.some_get _).symm

/-- The sample clock with hours shown satisfies the invariant. -/
theorem sampleClockState_inv : sampleClockState.Inv :=
  TFTSevenSegmentClockDisplay.inv_of_new 0 0 16 32 255 0 3 true (Ratio.exact 3 4) _
    (Option.some_get _).symm

/-- Witness of C6: `display(9,5,3,true)` blanks the hours-tens module and shows 9,
05, 03; `display(10,5,3,true)` shows both hour digits. -/
theorem display_with_hours_shown_witness :
    sampleClockState.Renders 9 5 3 true Blanked (fun m tr => Shows m 9 tr)
      (fun m tr => Shows m 0 tr) (fun m tr => Shows m 5 tr)
      (fun m tr => Shows m 0 tr) (fun m tr => Shows m 3 tr) ∧
    sampleClockState.Renders 10 5 3 true (fun m tr => Shows m 1 tr)
      (fun m tr => Shows m 0 tr) (fun m tr => Shows m 0 tr) (fun m tr => Shows m 5 tr)
      (fun m tr => Shows m 0 tr) (fun m tr => Shows m 3 tr) :=
  ⟨TFTSevenSegmentClockDisplay.renders_mono
      (TFTSevenSegmentClockDisplay.display_with_hours_shown sampleClockState
        sampleClockState_reachable (by decide) 9 5 3 true (by decide) (by decide) (by decide)
        (by decide) (by decide) (by decide))
      (fun _ _ h => h.1.mpr (by decide)) (fun _ _ h => h) (fun _ _ h => h) (fun _ _ h => h)
      (fun _ _ h => h) (fun _ _ h => h),
   TFTSevenSegmentClockDisplay.renders_mono
      (TFTSevenSegmentClockDisplay.display_with_hours_shown sampleClockState
        sampleClockState_reachable (by decide) 10 5 3 true (by decide) (by decide) (by decide)
        (by decide) (by decide) (by decide))
      (fun _ _ h => h.2 (by decide)) (fun _ _ h => h) (fun _ _ h => h) (fun _ _ h => h)
      (fun _ _ h => h) (fun _ _ h => h)⟩

/-- Claim C8, the code at the failing input: the eight-argument constructor called with
(0, 0, 16, 32, 255, 0, 3) leaves a reachable state with hours hidden in which none of
the six module slots is assigned, so no module is enabled, and `display(1, 5, 3, true)`
does not return on it; the ten-argument constructor called with the same arguments,
hours shown and ratio 1, which the eight-argument constructor names in its body, leaves
six enabled modules. -/
theorem eight_argument_constructor_builds_no_module :
    TFTSevenSegmentClockDisplay.Reachable
      (TFTSevenSegmentClockDisplay.new8 0 0 16 32 255 0 3) ∧
    (TFTSevenSegmentClockDisplay.new8 0 0 16 32 255 0 3).m_showHours = false ∧
    (List.range 6).map
        ((TFTSevenSegmentClockDisplay.new8 0 0 16 32 255 0 3).digits.onFlag)
      = [none, none, none, none, none, none] ∧
    ((TFTSevenSegmentClockDisplay.new8 0 0 16 32 255 0 3).display 1 5 3 true).isSome
      = false ∧
    sampleClockUnitRatio.map (fun c => (List.range 6).map c.digits.onFlag)
      = some [some true, some true, some true, some true, some true, some true] := by
  refine ⟨TFTSevenSegmentClockDisplay.Reachable.construct8 0 0 16 32 255 0 3, by decide,
    by decide, by decide, by decide⟩

/-- Witness of C9: 3661 seconds are 1 h 1 min 1 s. -/
theorem displaySeconds_eq_display_witness :
    sampleClockState.displaySeconds 3661 true = sampleClockState.display 1 1 1 true ∧
    (0 : Int) ≤ 1 ∧ (1 : Int) < 24 ∧ (0 : Int) ≤ 1 ∧ (1 : Int) < 60 ∧
    (0 : Int) ≤ 1 ∧ (1 : Int) < 60 ∧
    (3600 * 1 + 60 * 1 + 1 : Int) = 3661 % 86400 :=
  TFTSevenSegmentClockDisplay.displaySeconds_eq_display sampleClockState 3661 true
    (by decide)

/-- Witness of C10: 427 is shown as 4, 2, 7. -/
theorem displayNumber_eq_display_witness :
    sampleDecimal.displayNumber 427 = sampleDecimal.display 4 2 7 ∧
    (0 : Int) ≤ 4 ∧ (4 : Int) ≤ 9 ∧ (0 : Int) ≤ 2 ∧ (2 : Int) ≤ 9 ∧
    (0 : Int) ≤ 7 ∧ (7 : Int) ≤ 9 ∧ (100 * 4 + 10 * 2 + 7 : Int) = 427 :=
  TFTSevenSegmentDecimalDisplay.displayNumber_eq_display sampleDecimal 427
    (by decide) (by decide)

/-! ### Separator dots of the clock display -/

namespace TFTSevenSegmentModule

/-- No drawer emits a `fillRect`. -/
theorem fillRects_drawSegment (m : TFTSevenSegmentModule) (s : Segment) (color : Nat) :
    fillRects (m.drawSegment s color) = [] := by
  simp only [fillRects, List.filter_eq_nil_iff]
  intro a ha
  cases s <;>
    simp only [drawSegment, draw_A_UpperLed, draw_B_RightUpperLed, draw_C_RightBottomLed,
      draw_D_BottomLed, draw_E_LeftBottomLed, draw_F_LeftUpperLed, draw_G_MiddleLed] at ha <;>
    (try split_ifs at ha) <;>
    simp at ha <;>
    (try rcases ha with rfl | ⟨_, _, rfl⟩ | rfl) <;>
    (try rcases ha with rfl | ⟨_, _, rfl | rfl⟩ | rfl) <;>
    simp [DrawCall.isFillRect]

/-- The seven drawers called by `display` emit no `fillRect`. -/
theorem fillRects_displayLeds (m : TFTSevenSegmentModule) (leds : Nat) :
    fillRects (m.displayLeds leds) = [] := by
  have h := fun s c => fillRects_drawSegment m s c
  have hA := h Segment.A
  have hB := h Segment.B
  have hC := h Segment.C
  have hD := h Segment.D
  have hE := h Segment.E
  have hF := h Segment.F
  have hG := h Segment.G
  simp only [drawSegment, fillRects] at hA hB hC hD hE hF hG
  simp only [displayLeds, fillRects, List.filter_append, hA, hB, hC, hD, hE, hF, hG,
    List.append_nil]

/-- What `display` returns: it reads the table at `digit` and runs the seven drawers
on the byte read. -/
theorem display_eq_some_iff (m : TFTSevenSegmentModule) (digit : Int) (tr : List DrawCall) :
    m.display digit = some tr ↔
      0 ≤ digit ∧ ∃ leds, digitCodeMap[digit.toNat]? = some leds ∧ tr = m.displayLeds leds := by
  unfold display
  by_cases h0 : 0 ≤ digit
  · simp only [h0, if_true, true_and]
    cases hl : digitCodeMap[digit.toNat]? with
    | none => simp
    | some leds =>
      simp only [Option.some.injEq, exists_eq_left', displayLeds]
      exact eq_comm
  · simp [h0]

/-- A module `display` emits no `fillRect`. -/
theorem fillRects_display (m : TFTSevenSegmentModule) (digit : Int) (tr : List DrawCall)
    (h : m.display digit = some tr) : fillRects tr = [] := by
  obtain ⟨_, leds, _, rfl⟩ := (display_eq_some_iff m digit tr).mp h
  exact fillRects_displayLeds m leds

end TFTSevenSegmentModule

namespace Digits

/-- The call `digits[i]->display(v)` emits no `fillRect`. -/
theorem fillRects_displayAt (ds : Digits) (i : Nat) (v : Int) (tr : List DrawCall)
    (h : ds.displayAt i v = some tr) : fillRects tr = [] := by
  unfold displayAt at h
  cases hm : ds i with
  | none => simp [hm] at h
  | some m =>
    rw [hm] at h
    exact TFTSevenSegmentModule.fillRects_display m v tr h

/-- The show-or-blank pattern emits no `fillRect`. -/
theorem fillRects_showOrBlank (ds ds' : Digits) (i : Nat) (v : Int) (tr : List DrawCall)
    (cond : Prop) [Decidable cond]
    (h : (if cond then ds.onAndDisplay i v else ds.offAndDisplay i) = some (ds', tr)) :
    fillRects tr = [] := by
  split_ifs at h
  · simp only [onAndDisplay, Option.bind_eq_bind, Option.bind_eq_some, Option.pure_def,
      Option.some.injEq, Prod.mk.injEq] at h
    obtain ⟨ds1, _, tr1, h1, _, rfl⟩ := h
    exact fillRects_displayAt ds1 i v tr1 h1
  · simp only [offAndDisplay, Option.bind_eq_bind, Option.bind_eq_some, Option.pure_def,
      Option.some.injEq, Prod.mk.injEq] at h
    obtain ⟨ds1, _, tr1, h1, _, rfl⟩ := h
    exact fillRects_displayAt ds1 i 0 tr1 h1

end Digits

namespace TFTSevenSegmentClockDisplay

/-- The separator code emits four `fillRect` squares of side `m_ledWidth / 2 + 1`, all
in `m_onColor` when the separator is on and all in `m_offColor` when it is off. -/
theorem separators_squares (c : TFTSevenSegmentClockDisplay) (ds : Digits) (sep : Bool)
    (tr : List DrawCall) (h : c.separators ds sep = some tr) :
    tr.length = 4 ∧ fillRects tr = tr ∧
    ∀ call ∈ tr, ∃ x y, call = DrawCall.fillRect x y (Int.tdiv c.m_ledWidth 2 + 1)
      (Int.tdiv c.m_ledWidth 2 + 1) (if sep = true then c.m_onColor else c.m_offColor) := by
  simp only [separators, Option.bind_eq_bind, Option.bind_eq_some, Option.pure_def,
    Option.some.injEq] at h
  obtain ⟨hh2, _, mm1, _, mm2, _, ss1, _, rfl⟩ := h
  refine ⟨rfl, rfl, ?_⟩
  intro call hc
  simp only [List.mem_cons, List.mem_singleton, List.not_mem_nil, or_false] at hc
  rcases hc with rfl | rfl | rfl | rfl <;> exact ⟨_, _, rfl⟩

/-- With hours hidden no call of `display` draws a separator dot: its trace holds no
`fillRect`, whatever `isSeparatorOn` is. -/
theorem fillRects_display_of_hidden (c c' : TFTSevenSegmentClockDisplay)
    (hours minutes seconds : Int) (sep : Bool) (tr : List DrawCall)
    (hshow : c.m_showHours = false)
    (h : c.display hours minutes seconds sep = some (c', tr)) : fillRects tr = [] := by
  simp only [display, hshow, Option.bind_eq_bind, Option.bind_eq_some, Option.pure_def,
    Option.some.injEq, Prod.mk.injEq] at h
  obtain ⟨⟨ds1, tr1⟩, e1, tr2, e2, tr3, e3, tr4, e4, ⟨ds2, tr5⟩, e5, _, rfl⟩ := h
  rw [if_neg (by decide)] at e5
  simp only [Option.some.injEq, Prod.mk.injEq] at e5
  have f1 := Digits.fillRects_showOrBlank c.digits ds1 MM1 _ tr1 _ e1
  have f2 := Digits.fillRects_displayAt _ _ _ _ e2
  have f3 := Digits.fillRects_displayAt _ _ _ _ e3
  have f4 := Digits.fillRects_displayAt _ _ _ _ e4
  simp only [fillRects] at f1 f2 f3 f4 ⊢
  simp only [List.filter_append, f1, f2, f3, f4, ← e5.2, List.filter_nil, List.append_nil]

/-- With hours shown every call of `display` draws the four separator squares, and
they are its only `fillRect` calls. -/
theorem fillRects_display_of_shown (c c' : TFTSevenSegmentClockDisplay)
    (hours minutes seconds : Int) (sep : Bool) (tr : List DrawCall)
    (hshow : c.m_showHours = true)
    (h : c.display hours minutes seconds sep = some (c', tr)) :
    c.separators c'.digits sep = some (fillRects tr) ∧ (fillRects tr).length = 4 ∧
    ∀ call ∈ fillRects tr, ∃ x y, call = DrawCall.fillRect x y
      (Int.tdiv c.m_ledWidth 2 + 1) (Int.tdiv c.m_ledWidth 2 + 1)
      (if sep = true then c.m_onColor else c.m_offColor) := by
  simp only [display, hshow, if_true, Option.bind_eq_bind, Option.bind_eq_some,
    Option.pure_def, Option.some.injEq, Prod.mk.injEq] at h
  obtain ⟨⟨ds1, tr1⟩, e1, tr2, e2, tr3, e3, tr4, e4, ⟨ds2, tr5⟩, e5, rfl, rfl⟩ := h
  simp only [displayHours, Option.bind_eq_bind, Option.bind_eq_some, Option.pure_def,
    Option.some.injEq, Prod.mk.injEq] at e5
  obtain ⟨⟨ds3, tr6⟩, e6, tr7, e7, tr8, e8, rfl, rfl⟩ := e5
  have f1 := Digits.fillRects_showOrBlank c.digits ds1 MM1 _ tr1 _ e1
  have f2 := Digits.fillRects_displayAt _ _ _ _ e2
  have f3 := Digits.fillRects_displayAt _ _ _ _ e3
  have f4 := Digits.fillRects_displayAt _ _ _ _ e4
  have f6 := Digits.fillRects_showOrBlank ds1 ds3 HH1 _ tr6 _ e6
  have f7 := Digits.fillRects_displayAt _ _ _ _ e7
  obtain ⟨l8, f8, c8⟩ := separators_squares c _ sep tr8 e8
  have hf : fillRects (tr1 ++ tr2 ++ tr3 ++ tr4 ++ (tr6 ++ tr7 ++ tr8)) = tr8 := by
    simp only [fillRects] at f1 f2 f3 f4 f6 f7 f8 ⊢
    simp only [List.filter_append, f1, f2, f3, f4, f6, f7, f8, List.append_nil,
      List.nil_append]
  rw [hf]
  exact ⟨e8, l8, c8⟩

end TFTSevenSegmentClockDisplay

/-- Claim C11, the code at the failing input: on the sample clock constructed with
hours hidden, `display(0,5,3,sep)` emits no `fillRect` at all, for `sep` true and for
`sep` false, so the dots of the minutes/seconds gap are not drawn; on the sample
clock with hours shown (ledWidth 3, onColor 255) the same call emits four squares of
side 3/2 + 1 = 2 in colour 255. -/
theorem display_hidden_hours_draws_no_separator :
    (sampleClockNoHoursState.display 0 5 3 true).map (fun r => fillRects r.2) = some [] ∧
    (sampleClockNoHoursState.display 0 5 3 false).map (fun r => fillRects r.2) = some [] ∧
    (sampleClockState.display 0 5 3 true).map (fun r => fillRects r.2)
      = some [DrawCall.fillRect 43 8 2 2 255, DrawCall.fillRect 43 23 2 2 255,
              DrawCall.fillRect 93 6 2 2 255, DrawCall.fillRect 93 17 2 2 255] := by
  refine ⟨by decide, by decide, by decide⟩

/-! ### Bulk setters -/

namespace Digits

/-- A property every result of `f` has, once true of a slot, stays true of it through
the loop of a bulk setter. -/
theorem foldlM_modify_keeps (f : TFTSevenSegmentModule → TFTSevenSegmentModule)
    (P : TFTSevenSegmentModule → Prop) (hf : ∀ m, P (f m)) (l : List Nat) :
    ∀ (ds ds' : Digits) (j : Nat), l.foldlM (fun d i => modify d i f) ds = some ds' →
      (∃ m, ds j = some m ∧ P m) → ∃ m, ds' j = some m ∧ P m := by
  induction l with
  | nil =>
    intro ds ds' j h hj
    simp only [List.foldlM_nil, Option.pure_def, Option.some.injEq] at h
    rw [← h]; exact hj
  | cons a l ih =>
    intro ds ds' j h hj
    simp only [List.foldlM_cons, Option.bind_eq_bind, Option.bind_eq_some] at h
    obtain ⟨ds1, h1, h2⟩ := h
    refine ih ds1 ds' j h2 ?_
    unfold modify at h1
    cases hm : ds a with
    | none => simp [hm] at h1
    | some m =>
      simp only [hm, Option.some.injEq] at h1
      rw [← h1]
      by_cases hja : j = a
      · rw [hja]; exact ⟨f m, by simp, hf m⟩
      · rw [Function.update_noteq hja]; exact hj

/-- After the loop of a bulk setter every slot the loop visits holds a result of `f`. -/
theorem foldlM_modify_sets (f : TFTSevenSegmentModule → TFTSevenSegmentModule)
    (P : TFTSevenSegmentModule → Prop) (hf : ∀ m, P (f m)) (l : List Nat) :
    ∀ (ds ds' : Digits), l.foldlM (fun d i => modify d i f) ds = some ds' →
      ∀ j ∈ l, ∃ m, ds' j = some m ∧ P m := by
  induction l with
  | nil => intro ds ds' _ j hj; simp at hj
  | cons a l ih =>
    intro ds ds' h j hj
    simp only [List.foldlM_cons, Option.bind_eq_bind, Option.bind_eq_some] at h
    obtain ⟨ds1, h1, h2⟩ := h
    by_cases hjl : j ∈ l
    · exact ih ds1 ds' h2 j hjl
    · have hja : j = a := by
        rcases List.mem_cons.mp hj with h | h
        · exact h
        · exact absurd h hjl
      refine foldlM_modify_keeps f P hf l ds1 ds' j h2 ?_
      unfold modify at h1
      cases hm : ds a with
      | none => simp [hm] at h1
      | some m =>
        simp only [hm, Option.some.injEq] at h1
        rw [← h1, hja]
        exact ⟨f m, by simp, hf m⟩

/-- The loop of a bulk setter returns when every slot it visits is allocated. -/
theorem foldlM_modify_some (f : TFTSevenSegmentModule → TFTSevenSegmentModule)
    (l : List Nat) :
    ∀ (ds : Digits), (∀ j ∈ l, ∃ m, ds j = some m) →
      ∃ ds', l.foldlM (fun d i => modify d i f) ds = some ds' := by
  induction l with
  | nil => intro ds _; exact ⟨ds, rfl⟩
  | cons a l ih =>
    intro ds h
    obtain ⟨m, hm⟩ := h a (List.mem_cons_self a l)
    have h1 : modify ds a f = some (Function.update ds a (some (f m))) := by
      simp [modify, hm]
    obtain ⟨ds', h2⟩ := ih (Function.update ds a (some (f m))) (by
      intro j hj
      by_cases hja : j = a
      · rw [hja]; exact ⟨f m, by simp⟩
      · rw [Function.update_noteq hja]; exact h j (List.mem_cons_of_mem a hj))
    exact ⟨ds', by simp [List.foldlM_cons, h1, h2]⟩

/-- A bulk setter over the slots `start .. stop - 1`, all allocated, returns, and then
every one of these slots holds a result of `f`. -/
theorem modifyRange_sets (ds : Digits) (start stop : Nat)
    (f : TFTSevenSegmentModule → TFTSevenSegmentModule) (P : TFTSevenSegmentModule → Prop)
    (hf : ∀ m, P (f m)) (ha : ∀ j, start ≤ j → j < stop → ∃ m, ds j = some m) :
    ∃ ds', ds.modifyRange start stop f = some ds' ∧
      ∀ j, start ≤ j → j < stop → ∃ m, ds' j = some m ∧ P m := by
  have hmem : ∀ j, j ∈ List.range' start (stop - start) ↔ start ≤ j ∧ j < stop := by
    intro j
    rw [List.mem_range'_1]
    omega
  obtain ⟨ds', h⟩ := foldlM_modify_some f (List.range' start (stop - start)) ds
    (fun j hj => ha j ((hmem j).mp hj).1 ((hmem j).mp hj).2)
  exact ⟨ds', h, fun j h1 h2 =>
    foldlM_modify_sets f P hf _ ds ds' h j ((hmem j).mpr ⟨h1, h2⟩)⟩

end Digits

namespace TFTSevenSegmentClockDisplay

/-- Clock display: after `setOnColor(col)`, `setOffColor(col)` or
`setLedSegmentWidth(n)` every owned module has on colour `col`, off colour `col` or led
width `n`, and the display's own member is updated too. -/
theorem setters_fan_out (c : TFTSevenSegmentClockDisplay) (hc : c.Allocated) (col : Nat)
    (n : Int) :
    (∃ c', c.setOnColor col = some c' ∧ c'.m_onColor = col ∧
      ∀ i, firstDigit c.m_showHours ≤ i → i < DIGITS →
        ∃ m, c'.digits i = some m ∧ m.m_onColor = col) ∧
    (∃ c', c.setOffColor col = some c' ∧ c'.m_offColor = col ∧
      ∀ i, firstDigit c.m_showHours ≤ i → i < DIGITS →
        ∃ m, c'.digits i = some m ∧ m.m_offColor = col) ∧
    (∃ c', c.setLedSegmentWidth n = some c' ∧ c'.m_ledWidth = n ∧
      ∀ i, firstDigit c.m_showHours ≤ i → i < DIGITS →
        ∃ m, c'.digits i = some m ∧ m.getLedWidth = n) := by
  refine ⟨?_, ?_, ?_⟩
  · obtain ⟨ds', h, hp⟩ := Digits.modifyRange_sets c.digits (firstDigit c.m_showHours) DIGITS
      (fun m => m.setOnColor col) (fun m => m.m_onColor = col) (fun _ => rfl) hc
    have e : c.setOnColor col = some { c with digits := ds', m_onColor := col } := by
      simp only [setOnColor, h, Option.bind_eq_bind, Option.some_bind, Option.pure_def]
    exact ⟨_, e, rfl, hp⟩
  · obtain ⟨ds', h, hp⟩ := Digits.modifyRange_sets c.digits (firstDigit c.m_showHours) DIGITS
      (fun m => m.setOffColor col) (fun m => m.m_offColor = col) (fun _ => rfl) hc
    have e : c.setOffColor col = some { c with digits := ds', m_offColor := col } := by
      simp only [setOffColor, h, Option.bind_eq_bind, Option.some_bind, Option.pure_def]
    exact ⟨_, e, rfl, hp⟩
  · obtain ⟨ds', h, hp⟩ := Digits.modifyRange_sets c.digits (firstDigit c.m_showHours) DIGITS
      (fun m => m.setLedWidth n) (fun m => m.getLedWidth = n) (fun _ => rfl) hc
    have e : c.setLedSegmentWidth n = some { c with digits := ds', m_ledWidth := n } := by
      simp only [setLedSegmentWidth, h, Option.bind_eq_bind, Option.some_bind, Option.pure_def]
    exact ⟨_, e, rfl, hp⟩

end TFTSevenSegmentClockDisplay

namespace TFTSevenSegmentDecimalDisplay

/-- Decimal display: after `setOnColor(col)` or `setOffColor(col)` every module has on
colour `col` or off colour `col`. -/
theorem color_setters_fan_out (d : TFTSevenSegmentDecimalDisplay) (hd : d.Allocated)
    (col : Nat) :
    (∃ d', d.setOnColor col = some d' ∧
      ∀ i, i < DIGITS → ∃ m, d'.digits i = some m ∧ m.m_onColor = col) ∧
    (∃ d', d.setOffColor col = some d' ∧
      ∀ i, i < DIGITS → ∃ m, d'.digits i = some m ∧ m.m_offColor = col) := by
  refine ⟨?_, ?_⟩
  · obtain ⟨ds', h, hp⟩ := Digits.modifyRange_sets d.digits 0 DIGITS
      (fun m => m.setOnColor col) (fun m => m.m_onColor = col) (fun _ => rfl)
      (fun j _ hj => hd j hj)
    have e : d.setOnColor col = some { d with digits := ds' } := by
      simp only [setOnColor, h, Option.bind_eq_bind, Option.some_bind, Option.pure_def]
    exact ⟨_, e, fun i hi => hp i (Nat.zero_le i) hi⟩
  · obtain ⟨ds', h, hp⟩ := Digits.modifyRange_sets d.digits 0 DIGITS
      (fun m => m.setOffColor col) (fun m => m.m_offColor = col) (fun _ => rfl)
      (fun j _ hj => hd j hj)
    have e : d.setOffColor col = some { d with digits := ds' } := by
      simp only [setOffColor, h, Option.bind_eq_bind, Option.some_bind, Option.pure_def]
    exact ⟨_, e, fun i hi => hp i (Nat.zero_le i) hi⟩

/-- Decimal display: `setLedSegmentWidth(n)` stores `n` in the display's member and
leaves every module as it was. -/
theorem setLedSegmentWidth_keeps_modules (d : TFTSevenSegmentDecimalDisplay) (n : Int) :
    (d.setLedSegmentWidth n).m_ledWidth = n ∧ (d.setLedSegmentWidth n).digits = d.digits :=
  ⟨rfl, rfl⟩

end TFTSevenSegmentDecimalDisplay

/-- Claim C12, the code at the failing input: on the sample decimal display (led width
3) `setLedSegmentWidth(5)` stores 5 in the display but every module still answers
`getLedWidth() = 3`; on the sample clock the same call leaves every module with led
width 5, and the decimal `setOnColor(7)` does reach every module. -/
theorem decimal_setLedSegmentWidth_not_fanned_out :
    (sampleDecimal.setLedSegmentWidth 5).m_ledWidth = 5 ∧
    (List.range 3).map (fun i =>
        ((sampleDecimal.setLedSegmentWidth 5).digits i).map (fun m => m.getLedWidth))
      = [some 3, some 3, some 3] ∧
    (sampleClockState.setLedSegmentWidth 5).map (fun c =>
        (List.range 6).map (fun i => (c.digits i).map (fun m => m.getLedWidth)))
      = some [some 5, some 5, some 5, some 5, some 5, some 5] ∧
    (sampleDecimal.setOnColor 7).map (fun d =>
        (List.range 3).map (fun i => (d.digits i).map (fun m => m.m_onColor)))
      = some [some 7, some 7, some 7] := by
  refine ⟨by decide, by decide, by decide, by decide⟩

/-! ### Geometry of the segments -/

namespace TFTSevenSegmentModule

/-- A drawer body made of lines only, between `startWrite` and `endWrite`: its lines
are the body. -/
theorem lines_bracket (body : List DrawCall) (h : ∀ a ∈ body, a.isLine = true) :
    lines ([DrawCall.startWrite] ++ body ++ [DrawCall.endWrite]) = body := by
  simp only [lines, List.filter_append, List.filter_cons, List.filter_nil, DrawCall.isLine,
    Bool.false_eq_true, if_false, List.nil_append, List.append_nil]
  exact List.filter_eq_self.mpr h

/-- The iterations of a source loop, indexed by natural numbers. -/
theorem loopIndices_map {α : Type} (bound : Int) (f : Int → α) :
    (loopIndices bound).map f = (List.range bound.toNat).map (fun i : Nat => f (i : Int)) := by
  have h : ((List.range bound.toNat).flatMap fun a => [(a : Int)])
      = (List.range bound.toNat).map (fun a : Nat => (a : Int)) :=
    (List.map_eq_flatMap _ _).symm
  simp [loopIndices, h, List.map_map, Function.comp_def]

/-- Claim C13: with origin (x, y), width W, height H and led thickness L, for L < 2
segment A is one horizontal line from (x, y) of length W and segment D one horizontal
line from (x, y+H) of length W; otherwise A is the L lines from (x+i+3, y+i) of length
W-2i-5, i = 0..L-1, and D the L lines from (x+i+3, y+H-i) of length W-2i-5; each
drawer emits `startWrite`, these lines in this order, `endWrite`. -/
theorem draw_A_D_lines (m : TFTSevenSegmentModule) (color : Nat) :
    lines (m.draw_A_UpperLed color)
      = (if m.m_ledWidth < 2 then [DrawCall.writeFastHLine m.m_x m.m_y m.m_w color]
         else (List.range m.m_ledWidth.toNat).map (fun i : Nat =>
           DrawCall.writeFastHLine (m.m_x + i + 3) (m.m_y + i) (m.m_w - 2 * i - 5) color)) ∧
    lines (m.draw_D_BottomLed color)
      = (if m.m_ledWidth < 2 then
           [DrawCall.writeFastHLine m.m_x (m.m_y + m.m_h) m.m_w color]
         else (List.range m.m_ledWidth.toNat).map (fun i : Nat =>
           DrawCall.writeFastHLine (m.m_x + i + 3) (m.m_y + m.m_h - i)
             (m.m_w - 2 * i - 5) color)) ∧
    m.draw_A_UpperLed color
      = [DrawCall.startWrite] ++ lines (m.draw_A_UpperLed color) ++ [DrawCall.endWrite] ∧
    m.draw_D_BottomLed color
      = [DrawCall.startWrite] ++ lines (m.draw_D_BottomLed color) ++ [DrawCall.endWrite] ∧
    (2 ≤ m.m_ledWidth → ((lines (m.draw_A_UpperLed color)).length : Int) = m.m_ledWidth ∧
      ((lines (m.draw_D_BottomLed color)).length : Int) = m.m_ledWidth) := by
  have hA : lines (m.draw_A_UpperLed color)
      = (if m.m_ledWidth < 2 then [DrawCall.writeFastHLine m.m_x m.m_y m.m_w color]
         else (List.range m.m_ledWidth.toNat).map (fun i : Nat =>
           DrawCall.writeFastHLine (m.m_x + i + 3) (m.m_y + i) (m.m_w - 2 * i - 5) color)) := by
    unfold draw_A_UpperLed
    rw [lines_bracket]
    · split_ifs
      · rfl
      · exact loopIndices_map _ _
    · intro a ha
      split_ifs at ha
      · simp only [List.mem_singleton] at ha; rw [ha]; rfl
      · simp only [List.mem_map] at ha
        obtain ⟨_, _, rfl⟩ := ha; rfl
  have hD : lines (m.draw_D_BottomLed color)
      = (if m.m_ledWidth < 2 then
           [DrawCall.writeFastHLine m.m_x (m.m_y + m.m_h) m.m_w color]
         else (List.range m.m_ledWidth.toNat).map (fun i : Nat =>
           DrawCall.writeFastHLine (m.m_x + i + 3) (m.m_y + m.m_h - i)
             (m.m_w - 2 * i - 5) color)) := by
    unfold draw_D_BottomLed
    rw [lines_bracket]
    · split_ifs
      · rfl
      · exact loopIndices_map _ _
    · intro a ha
      split_ifs at ha
      · simp only [List.mem_singleton] at ha; rw [ha]; rfl
      · simp only [List.mem_map] at ha
        obtain ⟨_, _, rfl⟩ := ha; rfl
  refine ⟨hA, hD, ?_, ?_, ?_⟩
  · rw [hA]
    unfold draw_A_UpperLed
    split_ifs
    · rfl
    · rw [loopIndices_map]
  · rw [hD]
    unfold draw_D_BottomLed
    split_ifs
    · rfl
    · rw [loopIndices_map]
  · intro hL
    rw [hA, hD, if_neg (by omega), if_neg (by omega)]
    simp only [List.length_map, List.length_range]
    omega

end TFTSevenSegmentModule

namespace TFTSevenSegmentModule

/-- The iterations of a source loop are the integers `0, 1, ..., bound - 1`. -/
theorem loopIndices_eq (bound : Int) :
    loopIndices bound = (List.range bound.toNat).map (fun a : Nat => (a : Int)) := by
  have h := loopIndices_map bound (fun i => i)
  simpa using h

/-- The lines of a drawer whose body is one vertical line per loop iteration. -/
theorem lines_vertical (bound : Int) (f : Int → Int × Int × Int) (color : Nat) :
    lines ([DrawCall.startWrite]
        ++ (loopIndices bound).map (fun i =>
              DrawCall.writeFastVLine (f i).1 (f i).2.1 (f i).2.2 color)
        ++ [DrawCall.endWrite])
      = (List.range bound.toNat).map (fun i : Nat =>
          DrawCall.writeFastVLine (f i).1 (f i).2.1 (f i).2.2 color) := by
  rw [lines_bracket]
  · exact loopIndices_map _ _
  · intro a ha
    simp only [List.mem_map] at ha
    obtain ⟨_, _, rfl⟩ := ha; rfl

/-- Claim C14: with origin (x, y), width W, height H and led thickness L, segment F is
the vertical lines from (x+i, y+i) of length H/2 - 2i, i = 0..L-1, and segment E the
vertical lines from (x+i, y+H/2+i+1) of length H/2 - 2i; B and C have the same start
rows and lengths at column x+W-i; each drawer emits `startWrite`, these lines in this
order, `endWrite`; for L <= 0 none of the four draws a line.  H/2 is the truncating
division of the source, the usual one for H >= 0. -/
theorem draw_F_E_B_C_lines (m : TFTSevenSegmentModule) (color : Nat) :
    lines (m.draw_F_LeftUpperLed color)
      = (List.range m.m_ledWidth.toNat).map (fun i : Nat =>
          DrawCall.writeFastVLine (m.m_x + i) (m.m_y + i) (Int.tdiv m.m_h 2 - 2 * i) color) ∧
    lines (m.draw_E_LeftBottomLed color)
      = (List.range m.m_ledWidth.toNat).map (fun i : Nat =>
          DrawCall.writeFastVLine (m.m_x + i) (m.m_y + Int.tdiv m.m_h 2 + i + 1)
            (Int.tdiv m.m_h 2 - 2 * i) color) ∧
    lines (m.draw_B_RightUpperLed color)
      = (List.range m.m_ledWidth.toNat).map (fun i : Nat =>
          DrawCall.writeFastVLine (m.m_x + m.m_w - i) (m.m_y + i)
            (Int.tdiv m.m_h 2 - 2 * i) color) ∧
    lines (m.draw_C_RightBottomLed color)
      = (List.range m.m_ledWidth.toNat).map (fun i : Nat =>
          DrawCall.writeFastVLine (m.m_x + m.m_w - i) (m.m_y + Int.tdiv m.m_h 2 + i + 1)
            (Int.tdiv m.m_h 2 - 2 * i) color) ∧
    (∀ s ∈ [Segment.F, Segment.E, Segment.B, Segment.C],
      m.drawSegment s color
        = [DrawCall.startWrite] ++ lines (m.drawSegment s color) ++ [DrawCall.endWrite]) ∧
    (m.m_ledWidth ≤ 0 → ∀ s ∈ [Segment.F, Segment.E, Segment.B, Segment.C],
      lines (m.drawSegment s color) = []) ∧
    (0 ≤ m.m_h → Int.tdiv m.m_h 2 = m.m_h / 2) := by
  have hF : lines (m.draw_F_LeftUpperLed color)
      = (List.range m.m_ledWidth.toNat).map (fun i : Nat =>
          DrawCall.writeFastVLine (m.m_x + i) (m.m_y + i) (Int.tdiv m.m_h 2 - 2 * i) color) :=
    lines_vertical m.m_ledWidth
      (fun i => (m.m_x + i, m.m_y + i, Int.tdiv m.m_h 2 - 2 * i)) color
  have hE : lines (m.draw_E_LeftBottomLed color)
      = (List.range m.m_ledWidth.toNat).map (fun i : Nat =>
          DrawCall.writeFastVLine (m.m_x + i) (Int.tdiv m.m_h 2 + m.m_y + i + 1)
            (Int.tdiv m.m_h 2 - 2 * i) color) :=
    lines_vertical m.m_ledWidth
      (fun i => (m.m_x + i, Int.tdiv m.m_h 2 + m.m_y + i + 1, Int.tdiv m.m_h 2 - 2 * i)) color
  have hB : lines (m.draw_B_RightUpperLed color)
      = (List.range m.m_ledWidth.toNat).map (fun i : Nat =>
          DrawCall.writeFastVLine (m.m_x + m.m_w - i) (m.m_y + i)
            (Int.tdiv m.m_h 2 - 2 * i) color) :=
    lines_vertical m.m_ledWidth
      (fun i => (m.m_x + m.m_w - i, m.m_y + i, Int.tdiv m.m_h 2 - 2 * i)) color
  have hC : lines (m.draw_C_RightBottomLed color)
      = (List.range m.m_ledWidth.toNat).map (fun i : Nat =>
          DrawCall.writeFastVLine (m.m_x + m.m_w - i) (m.m_y + Int.tdiv m.m_h 2 + i + 1)
            (Int.tdiv m.m_h 2 - 2 * i) color) :=
    lines_vertical m.m_ledWidth
      (fun i => (m.m_x + m.m_w - i, m.m_y + Int.tdiv m.m_h 2 + i + 1,
        Int.tdiv m.m_h 2 - 2 * i)) color
  have hE' : lines (m.draw_E_LeftBottomLed color)
      = (List.range m.m_ledWidth.toNat).map (fun i : Nat =>
          DrawCall.writeFastVLine (m.m_x + i) (m.m_y + Int.tdiv m.m_h 2 + i + 1)
            (Int.tdiv m.m_h 2 - 2 * i) color) := by
    have e : ∀ i : Nat, Int.tdiv m.m_h 2 + m.m_y + (i : Int) + 1
        = m.m_y + Int.tdiv m.m_h 2 + i + 1 := fun i => by ring
    rw [hE]
    simp only [e]
  refine ⟨hF, hE', hB, hC, ?_, ?_, ?_⟩
  · intro s hs
    simp only [List.mem_cons, List.mem_singleton, List.not_mem_nil, or_false] at hs
    rcases hs with rfl | rfl | rfl | rfl
    · show m.draw_F_LeftUpperLed color = _ ++ lines (m.draw_F_LeftUpperLed color) ++ _
      rw [hF]; unfold draw_F_LeftUpperLed; rw [loopIndices_map]
    · show m.draw_E_LeftBottomLed color = _ ++ lines (m.draw_E_LeftBottomLed color) ++ _
      rw [hE]; unfold draw_E_LeftBottomLed; rw [loopIndices_map]
    · show m.draw_B_RightUpperLed color = _ ++ lines (m.draw_B_RightUpperLed color) ++ _
      rw [hB]; unfold draw_B_RightUpperLed; rw [loopIndices_map]
    · show m.draw_C_RightBottomLed color = _ ++ lines (m.draw_C_RightBottomLed color) ++ _
      rw [hC]; unfold draw_C_RightBottomLed; rw [loopIndices_map]
  · intro hL s hs
    have hz : m.m_ledWidth.toNat = 0 := by omega
    simp only [List.mem_cons, List.mem_singleton, List.not_mem_nil, or_false] at hs
    rcases hs with rfl | rfl | rfl | rfl
    · show lines (m.draw_F_LeftUpperLed color) = []
      rw [hF, hz]; rfl
    · show lines (m.draw_E_LeftBottomLed color) = []
      rw [hE, hz]; rfl
    · show lines (m.draw_B_RightUpperLed color) = []
      rw [hB, hz]; rfl
    · show lines (m.draw_C_RightBottomLed color) = []
      rw [hC, hz]; rfl
  · intro hH
    exact Int.tdiv_eq_ediv hH (by decide)

end TFTSevenSegmentModule

namespace TFTSevenSegmentModule

/-- The loop bound `m_ledWidth / 2 + m_ledWidth % 2` of segment G is the half thickness
rounded up. -/
theorem half_thickness (L : Int) (h : 2 ≤ L) :
    Int.tdiv L 2 + Int.tmod L 2 = (L + 1) / 2 ∧ (L + 1) / 2 = ⌈(L : ℚ) / 2⌉ := by
  constructor
  · rw [Int.tdiv_eq_ediv (by omega) (by decide), Int.tmod_eq_emod (by omega) (by decide)]
    omega
  · symm
    rw [Int.ceil_eq_iff]
    have h1 : (L + 1) / 2 * 2 = L ∨ (L + 1) / 2 * 2 = L + 1 := by omega
    rcases h1 with h | h
    · have : (((L + 1) / 2 : Int) : ℚ) * 2 = L := by exact_mod_cast h
      constructor <;> linarith
    · have : (((L + 1) / 2 : Int) : ℚ) * 2 = L + 1 := by exact_mod_cast h
      constructor <;> linarith

/-- A loop body of two calls per iteration emits twice as many calls as iterations. -/
theorem length_flatMap_pair {α : Type} (f g : α → DrawCall) (l : List α) :
    (l.flatMap (fun i => [f i, g i])).length = 2 * l.length := by
  induction l with
  | nil => rfl
  | cons a l ih =>
    simp only [List.flatMap_cons, List.length_append, List.length_cons, List.length_nil, ih]
    omega

/-- Claim C15: with origin (x, y), width W, height H and led thickness L, for L < 2
segment G is one horizontal line, on row y+H/2; otherwise, with k = ceil(L/2), G is,
for each i = 0..k-1, the line from (x+i+2, y+H/2-i) of length W-2i-4 and the line from
(x+i+2, y+H/2+i+1) of length W-2i-4: k lines on rows at or above y+H/2 and k lines on
rows below it.  The drawer emits `startWrite`, these lines, `endWrite`. -/
theorem draw_G_lines (m : TFTSevenSegmentModule) (color : Nat) :
    lines (m.draw_G_MiddleLed color)
      = (if m.m_ledWidth < 2 then
           [DrawCall.writeFastHLine (m.m_x + 1) (m.m_y + Int.tdiv m.m_h 2) m.m_w color]
         else (List.range ((m.m_ledWidth + 1) / 2).toNat).flatMap (fun i : Nat =>
           [DrawCall.writeFastHLine (m.m_x + i + 2) (m.m_y + Int.tdiv m.m_h 2 - i)
              (m.m_w - 2 * i - 4) color,
            DrawCall.writeFastHLine (m.m_x + i + 2) (m.m_y + Int.tdiv m.m_h 2 + i + 1)
              (m.m_w - 2 * i - 4) color])) ∧
    m.draw_G_MiddleLed color
      = [DrawCall.startWrite] ++ lines (m.draw_G_MiddleLed color) ++ [DrawCall.endWrite] ∧
    (2 ≤ m.m_ledWidth →
      (m.m_ledWidth + 1) / 2 = ⌈(m.m_ledWidth : ℚ) / 2⌉ ∧
      ((lines (m.draw_G_MiddleLed color)).length : Int) = 2 * ((m.m_ledWidth + 1) / 2)) := by
  have hG : lines (m.draw_G_MiddleLed color)
      = (if m.m_ledWidth < 2 then
           [DrawCall.writeFastHLine (m.m_x + 1) (m.m_y + Int.tdiv m.m_h 2) m.m_w color]
         else (List.range ((m.m_ledWidth + 1) / 2).toNat).flatMap (fun i : Nat =>
           [DrawCall.writeFastHLine (m.m_x + i + 2) (m.m_y + Int.tdiv m.m_h 2 - i)
              (m.m_w - 2 * i - 4) color,
            DrawCall.writeFastHLine (m.m_x + i + 2) (m.m_y + Int.tdiv m.m_h 2 + i + 1)
              (m.m_w - 2 * i - 4) color])) ∧
      m.draw_G_MiddleLed color
        = [DrawCall.startWrite] ++ lines (m.draw_G_MiddleLed color)
            ++ [DrawCall.endWrite] := by
    unfold draw_G_MiddleLed
    by_cases hL : m.m_ledWidth < 2
    · simp only [hL, if_true]
      have hb := lines_bracket
        [DrawCall.writeFastHLine (m.m_x + 1) (m.m_y + Int.tdiv m.m_h 2) m.m_w color]
        (by intro a ha; simp only [List.mem_singleton] at ha; rw [ha]; rfl)
      rw [hb]
      exact ⟨rfl, rfl⟩
    · have h1 : m.m_ledWidth > 1 := by omega
      have hk := (half_thickness m.m_ledWidth (by omega)).1
      have heq : ([DrawCall.startWrite]
          ++ (if m.m_ledWidth < 2 then
                [DrawCall.writeFastHLine (m.m_x + 1) (m.m_y + Int.tdiv m.m_h 2) m.m_w color]
              else
                let ledWidth : Int := if m.m_ledWidth < 2 then 1 else Int.tdiv m.m_ledWidth 2
                (loopIndices (ledWidth + Int.tmod m.m_ledWidth 2)).flatMap (fun i =>
                  [DrawCall.writeFastHLine (m.m_x + i + 2) (m.m_y + Int.tdiv m.m_h 2 - i)
                     (m.m_w - 2 * i - 4) color]
                  ++ (if m.m_ledWidth > 1 then
                        [DrawCall.writeFastHLine (m.m_x + i + 2)
                           (m.m_y + Int.tdiv m.m_h 2 + i + 1) (m.m_w - 2 * i - 4) color]
                      else [])))
          ++ [DrawCall.endWrite])
          = [DrawCall.startWrite]
            ++ (List.range ((m.m_ledWidth + 1) / 2).toNat).flatMap (fun i : Nat =>
               [DrawCall.writeFastHLine (m.m_x + i + 2) (m.m_y + Int.tdiv m.m_h 2 - i)
                  (m.m_w - 2 * i - 4) color,
                DrawCall.writeFastHLine (m.m_x + i + 2) (m.m_y + Int.tdiv m.m_h 2 + i + 1)
                  (m.m_w - 2 * i - 4) color])
            ++ [DrawCall.endWrite] := by
        simp only [hL, if_false, h1, if_true, hk, loopIndices_eq, List.flatMap_map]
        rfl
      rw [heq, if_neg hL]
      have hb := lines_bracket
        ((List.range ((m.m_ledWidth + 1) / 2).toNat).flatMap (fun i : Nat =>
           [DrawCall.writeFastHLine (m.m_x + i + 2) (m.m_y + Int.tdiv m.m_h 2 - i)
              (m.m_w - 2 * i - 4) color,
            DrawCall.writeFastHLine (m.m_x + i + 2) (m.m_y + Int.tdiv m.m_h 2 + i + 1)
              (m.m_w - 2 * i - 4) color]))
        (by
          intro a ha
          simp only [List.mem_flatMap, List.mem_cons, List.mem_singleton,
            List.not_mem_nil, or_false] at ha
          obtain ⟨_, _, rfl | rfl⟩ := ha <;> rfl)
      rw [hb]
      exact ⟨rfl, rfl⟩
  refine ⟨hG.1, hG.2, ?_⟩
  intro hL
  refine ⟨(half_thickness m.m_ledWidth hL).2, ?_⟩
  rw [hG.1, if_neg (by omega), length_flatMap_pair, List.length_range]
  have : 0 ≤ (m.m_ledWidth + 1) / 2 := by omega
  push_cast
  omega

end TFTSevenSegmentModule

/-- Witness of C13: the sample module (L = 3, W = 16, H = 32) and the same module
with L = 1. -/
theorem draw_A_D_lines_witness :
    lines (sampleModule.draw_A_UpperLed 255)
      = [DrawCall.writeFastHLine 3 0 11 255, DrawCall.writeFastHLine 4 1 9 255,
         DrawCall.writeFastHLine 5 2 7 255] ∧
    lines (sampleModule.draw_D_BottomLed 255)
      = [DrawCall.writeFastHLine 3 32 11 255, DrawCall.writeFastHLine 4 31 9 255,
         DrawCall.writeFastHLine 5 30 7 255] ∧
    ((lines (sampleModule.draw_A_UpperLed 255)).length : Int) = 3 ∧
    lines ((sampleModule.setLedWidth 1).draw_A_UpperLed 255)
      = [DrawCall.writeFastHLine 0 0 16 255] ∧
    lines ((sampleModule.setLedWidth 1).draw_D_BottomLed 255)
      = [DrawCall.writeFastHLine 0 32 16 255] :=
  have h := TFTSevenSegmentModule.draw_A_D_lines sampleModule 255
  have h1 := TFTSevenSegmentModule.draw_A_D_lines (sampleModule.setLedWidth 1) 255
  ⟨h.1, h.2.1, (h.2.2.2.2 (by decide)).1, h1.1, h1.2.1⟩

/-- Witness of C14: the sample module (L = 3, W = 16, H = 32), and the same module with
L = 0, which draws no line. -/
theorem draw_F_E_B_C_lines_witness :
    lines (sampleModule.draw_F_LeftUpperLed 255)
      = [DrawCall.writeFastVLine 0 0 16 255, DrawCall.writeFastVLine 1 1 14 255,
         DrawCall.writeFastVLine 2 2 12 255] ∧
    lines (sampleModule.draw_E_LeftBottomLed 255)
      = [DrawCall.writeFastVLine 0 17 16 255, DrawCall.writeFastVLine 1 18 14 255,
         DrawCall.writeFastVLine 2 19 12 255] ∧
    lines (sampleModule.draw_B_RightUpperLed 255)
      = [DrawCall.writeFastVLine 16 0 16 255, DrawCall.writeFastVLine 15 1 14 255,
         DrawCall.writeFastVLine 14 2 12 255] ∧
    lines (sampleModule.draw_C_RightBottomLed 255)
      = [DrawCall.writeFastVLine 16 17 16 255, DrawCall.writeFastVLine 15 18 14 255,
         DrawCall.writeFastVLine 14 19 12 255] ∧
    (∀ s ∈ [Segment.F, Segment.E, Segment.B, Segment.C],
      lines ((sampleModule.setLedWidth 0).drawSegment s 255) = []) ∧
    Int.tdiv sampleModule.m_h 2 = sampleModule.m_h / 2 :=
  have h := TFTSevenSegmentModule.draw_F_E_B_C_lines sampleModule 255
  have h0 := TFTSevenSegmentModule.draw_F_E_B_C_lines (sampleModule.setLedWidth 0) 255
  ⟨h.1, h.2.1, h.2.2.1, h.2.2.2.1, h0.2.2.2.2.2.1 (by decide), h.2.2.2.2.2.2 (by decide)⟩

/-- Witness of C15: the sample module (L = 3, so k = 2) and the same module with
L = 1. -/
theorem draw_G_lines_witness :
    lines (sampleModule.draw_G_MiddleLed 255)
      = [DrawCall.writeFastHLine 2 16 12 255, DrawCall.writeFastHLine 2 17 12 255,
         DrawCall.writeFastHLine 3 15 10 255, DrawCall.writeFastHLine 3 18 10 255] ∧
    ((3 : Int) + 1) / 2 = ⌈((3 : Int) : ℚ) / 2⌉ ∧
    ((lines (sampleModule.draw_G_MiddleLed 255)).length : Int) = 2 * (((3 : Int) + 1) / 2) ∧
    lines ((sampleModule.setLedWidth 1).draw_G_MiddleLed 255)
      = [DrawCall.writeFastHLine 1 16 16 255] :=
  have h := TFTSevenSegmentModule.draw_G_lines sampleModule 255
  have h1 := TFTSevenSegmentModule.draw_G_lines (sampleModule.setLedWidth 1) 255
  ⟨h.1, (h.2.2 (by decide)).1, (h.2.2 (by decide)).2, h1.1⟩

/-! ### The surface after a display -/

namespace Surface

/-- After a trace a pixel either keeps the colour it had or has a colour that does not
depend on the surface the trace started from. -/
theorem run_pixel (spans : DrawCall → Int × Int → Bool) (tr : List DrawCall) (p : Int × Int) :
    (∀ s : Surface, run spans s tr p = s p) ∨
      ∃ col, ∀ s : Surface, run spans s tr p = col := by
  induction tr with
  | nil => exact Or.inl (fun _ => rfl)
  | cons call rest ih =>
    rcases ih with h | ⟨col, h⟩
    · cases hc : call.color with
      | none =>
        refine Or.inl (fun s => ?_)
        simp only [run, List.foldl_cons] at h ⊢
        rw [h]
        simp [paint, hc]
      | some c =>
        by_cases hs : spans call p = true
        · refine Or.inr ⟨c, fun s => ?_⟩
          simp only [run, List.foldl_cons] at h ⊢
          rw [h]
          simp [paint, hc, hs]
        · refine Or.inl (fun s => ?_)
          simp only [run, List.foldl_cons] at h ⊢
          rw [h]
          simp [paint, hc, hs]
    · refine Or.inr ⟨col, fun s => ?_⟩
      simp only [run, List.foldl_cons] at h ⊢
      exact h _

/-- Applying a trace twice leaves the surface as applying it once. -/
theorem run_twice (spans : DrawCall → Int × Int → Bool) (s : Surface) (tr : List DrawCall) :
    run spans s (tr ++ tr) = run spans s tr := by
  funext p
  have happ : run spans s (tr ++ tr) = run spans (run spans s tr) tr := by
    simp [run, List.foldl_append]
  rw [happ]
  rcases run_pixel spans tr p with h | ⟨col, h⟩
  · exact h _
  · rw [h, h]

end Surface

namespace TFTSevenSegmentModule

/-- Claim C16: for every module state, every d in 0..9 and every initial surface,
`display(d)` twice in a row leaves the surface as `display(d)` once does.  `display`
writes no member of the module, so the second call runs on the same state and emits
the same calls; this holds for every assignment of pixels to the primitives. -/
theorem display_twice_same_surface (m : TFTSevenSegmentModule) (d : Int)
    (h0 : 0 ≤ d) (h9 : d ≤ 9) (spans : DrawCall → Int × Int → Bool) (s : Surface) :
    ∃ tr, m.display d = some tr ∧
      Surface.run spans s (tr ++ tr) = Surface.run spans s tr := by
  obtain ⟨leds, hl, _⟩ := digitCodeMap_lookup d h0 h9
  exact ⟨_, display_eq_specTrace m d leds h0 hl, Surface.run_twice spans s _⟩

end TFTSevenSegmentModule

/-- Witness of C16: the digit 8 on the sample module, on a surface that starts black,
with the pixels of the specification; the pixel (3, 0) of segment A ends in the on
colour after one display and after two. -/
theorem display_twice_same_surface_witness :
    (∃ tr, sampleModule.display 8 = some tr ∧
      Surface.run DrawCall.covers (fun _ => 0) (tr ++ tr)
        = Surface.run DrawCall.covers (fun _ => 0) tr) ∧
    (sampleModule.display 8).map (fun tr =>
        (Surface.run DrawCall.covers (fun _ => 0) tr (3, 0),
         Surface.run DrawCall.covers (fun _ => 0) (tr ++ tr) (3, 0)))
      = some (255, 255) :=
  ⟨TFTSevenSegmentModule.display_twice_same_surface sampleModule 8 (by decide) (by decide)
    DrawCall.covers (fun _ => 0), by decide⟩

/-! ### Digits outside the table -/

namespace TFTSevenSegmentModule

/-- Every drawer opens with `startWrite` and emits at least two calls. -/
theorem drawSegment_head (m : TFTSevenSegmentModule) (s : Segment) (color : Nat) :
    ∃ rest, m.drawSegment s color = DrawCall.startWrite :: rest ∧ 1 ≤ rest.length := by
  cases s <;>
    simp only [drawSegment, draw_A_UpperLed, draw_B_RightUpperLed, draw_C_RightBottomLed,
      draw_D_BottomLed, draw_E_LeftBottomLed, draw_F_LeftUpperLed, draw_G_MiddleLed,
      List.singleton_append, List.cons_append] <;>
    exact ⟨_, rfl, by simp⟩

/-- The drawer calls of `display` are unconditional: whatever byte the table read
yields, the trace opens with `startWrite` and holds at least fourteen calls. -/
theorem displayLeds_draws (m : TFTSevenSegmentModule) (leds : Nat) :
    (m.displayLeds leds).head? = some DrawCall.startWrite ∧
      14 ≤ (m.displayLeds leds).length := by
  obtain ⟨rA, eA, lA⟩ := drawSegment_head m Segment.A (m.ledColor leds 1)
  obtain ⟨rB, eB, lB⟩ := drawSegment_head m Segment.B (m.ledColor leds 2)
  obtain ⟨rC, eC, lC⟩ := drawSegment_head m Segment.C (m.ledColor leds 4)
  obtain ⟨rD, eD, lD⟩ := drawSegment_head m Segment.D (m.ledColor leds 8)
  obtain ⟨rE, eE, lE⟩ := drawSegment_head m Segment.E (m.ledColor leds 16)
  obtain ⟨rF, eF, lF⟩ := drawSegment_head m Segment.F (m.ledColor leds 32)
  obtain ⟨rG, eG, lG⟩ := drawSegment_head m Segment.G (m.ledColor leds 64)
  simp only [drawSegment] at eA eB eC eD eE eF eG
  simp only [displayLeds, eA, eB, eC, eD, eE, eF, eG, List.cons_append, List.head?_cons,
    List.length_cons, List.length_append, true_and]
  omega

/-- The number of calls a drawer emits does not depend on the colour. -/
theorem length_drawSegment (m : TFTSevenSegmentModule) (s : Segment) (c c' : Nat) :
    (m.drawSegment s c).length = (m.drawSegment s c').length := by
  cases s <;>
    simp only [drawSegment, draw_A_UpperLed, draw_B_RightUpperLed, draw_C_RightBottomLed,
      draw_D_BottomLed, draw_E_LeftBottomLed, draw_F_LeftUpperLed, draw_G_MiddleLed] <;>
    (try split_ifs) <;>
    simp [List.length_flatMap, Function.comp_def]

/-- The number of calls `display` emits does not depend on the byte read. -/
theorem length_displayLeds (m : TFTSevenSegmentModule) (leds leds' : Nat) :
    (m.displayLeds leds).length = (m.displayLeds leds').length := by
  have h := fun s c c' => length_drawSegment m s c c'
  have hA := h Segment.A (m.ledColor leds 1) (m.ledColor leds' 1)
  have hB := h Segment.B (m.ledColor leds 2) (m.ledColor leds' 2)
  have hC := h Segment.C (m.ledColor leds 4) (m.ledColor leds' 4)
  have hD := h Segment.D (m.ledColor leds 8) (m.ledColor leds' 8)
  have hE := h Segment.E (m.ledColor leds 16) (m.ledColor leds' 16)
  have hF := h Segment.F (m.ledColor leds 32) (m.ledColor leds' 32)
  have hG := h Segment.G (m.ledColor leds 64) (m.ledColor leds' 64)
  simp only [drawSegment] at hA hB hC hD hE hF hG
  simp only [displayLeds, List.length_append, hA, hB, hC, hD, hE, hF, hG]

/-- Claim C17, amended: `display(digit)` has a defined activation-table lookup iff
0 <= digit <= 9, the digits for which the table has an entry.  The code makes no range
check and reports no failure: for a digit in 0..9 it draws with the table's entry, and
for every digit, in range or not, it runs the seven drawers on whatever byte the read
yields, so draw calls are emitted for an out-of-range digit too. -/
theorem display_defined_iff (m : TFTSevenSegmentModule) (digit : Int) (read : Int → Nat)
    (hread : ReadsTable read) :
    ((m.display digit).isSome = true ↔ 0 ≤ digit ∧ digit ≤ 9) ∧
    (¬ (0 ≤ digit ∧ digit ≤ 9) → digit < 0 ∨ digitCodeMap[digit.toNat]? = none) ∧
    (0 ≤ digit → digit ≤ 9 → m.display digit = some (m.displayReading read digit)) ∧
    m.displayReading read digit = m.displayLeds (read digit) ∧
    (m.displayReading read digit).head? = some DrawCall.startWrite ∧
    14 ≤ (m.displayReading read digit).length := by
  have hout : ¬ (0 ≤ digit ∧ digit ≤ 9) → digit < 0 ∨ digitCodeMap[digit.toNat]? = none := by
    intro h
    by_cases h0 : 0 ≤ digit
    · exact Or.inr (digitCodeMap_none _ (by omega))
    · exact Or.inl (by omega)
  have hin : 0 ≤ digit → digit ≤ 9 → m.display digit = some (m.displayReading read digit) := by
    intro h0 h9
    exact (display_eq_some_iff m digit _).mpr ⟨h0, read digit, hread digit h0 h9, rfl⟩
  refine ⟨?_, hout, hin, rfl, (displayLeds_draws m (read digit)).1,
    (displayLeds_draws m (read digit)).2⟩
  constructor
  · intro hs
    by_contra hr
    obtain ⟨tr, htr⟩ := Option.isSome_iff_exists.mp hs
    obtain ⟨h0, leds, hl, _⟩ := (display_eq_some_iff m digit tr).mp htr
    rcases hout hr with h | h
    · omega
    · rw [h] at hl; exact Option.noConfusion hl
  · rintro ⟨h0, h9⟩
    rw [hin h0 h9]
    rfl

end TFTSevenSegmentModule

/-- The sample memory holds the table on the digits 0..9. -/
theorem sampleRead_readsTable : ReadsTable sampleRead := by
  intro d h0 h9
  interval_cases d <;> rfl

/-- Claim C17 as stated fails: the table has no entry for the digit 10, and
`display(10)` on the sample module emits 36 draw calls whatever byte the read past the
table yields; with the byte 0x7F there it draws the glyph of 8, and with a zero byte it
draws all seven segments in the off colour.  Nothing in `display` refuses the digit. -/
theorem display_out_of_range_still_draws :
    digitCodeMap[(10 : Int).toNat]? = none ∧
    (∀ read : Int → Nat, (sampleModule.displayReading read 10).length = 36 ∧
      sampleModule.displayReading read 10 ≠ []) ∧
    some (sampleModule.displayReading (fun _ => 0x7F) 10) = sampleModule.display 8 ∧
    sampleModule.displayReading sampleRead 10 = sampleModule.blankTrace := by
  refine ⟨by decide, fun read => ?_, by decide, by decide⟩
  have hlen : (sampleModule.displayReading read 10).length = 36 :=
    (TFTSevenSegmentModule.length_displayLeds sampleModule (read 10) 0).trans (by decide)
  refine ⟨hlen, fun h => ?_⟩
  rw [h] at hlen
  exact absurd hlen (by decide)

/-- Witness of the amended C17: the digits 9 and 10 on the sample module, with a memory
holding zero bytes around the table. -/
theorem display_defined_iff_witness :
    (sampleModule.display 9).isSome = true ∧ (sampleModule.display 10).isSome = false ∧
    ((10 : Int) < 0 ∨ digitCodeMap[(10 : Int).toNat]? = none) ∧
    sampleModule.display 9 = some (sampleModule.displayReading sampleRead 9) ∧
    (sampleModule.displayReading sampleRead 10).head? = some DrawCall.startWrite ∧
    14 ≤ (sampleModule.displayReading sampleRead 10).length :=
  have h9 := TFTSevenSegmentModule.display_defined_iff sampleModule 9 sampleRead
    sampleRead_readsTable
  have h10 := TFTSevenSegmentModule.display_defined_iff sampleModule 10 sampleRead
    sampleRead_readsTable
  ⟨h9.1.mpr (by decide),
   by
    cases hs : (sampleModule.display 10).isSome with
    | false => rfl
    | true => exact absurd (h10.1.mp hs) (by decide),
   h10.2.1 (by decide),
   h9.2.2.1 (by decide) (by decide),
   h10.2.2.2.2.1, h10.2.2.2.2.2⟩

/-! ### Mutators and accessors of a module -/

namespace TFTSevenSegmentModule

/-- Claim C18: after `setPosition(x, y)`, `getX() = x` and `getY() = y`; after
`setLedWidth(n)`, `getLedWidth() = n`; after `setWidth(w)`, `getWidth() = w`; after
`setHeight(h)`, `getHeight() = h`. -/
theorem setters_round_trip (m : TFTSevenSegmentModule) (x y n w h : Int) :
    (m.setPosition x y).getX = x ∧ (m.setPosition x y).getY = y ∧
    (m.setLedWidth n).getLedWidth = n ∧ (m.setWidth w).getWidth = w ∧
    (m.setHeight h).getHeight = h :=
  ⟨rfl, rfl, rfl, rfl, rfl⟩

/-- Claim C19: each mutator changes the members it names and no other (a mutator
returns the new state alone: its body calls nothing on the surface), and the next
`display(d)` draws from the new state: the drawers run on the updated geometry, with
the updated colours and enabled flag. -/
theorem mutators_frame (m : TFTSevenSegmentModule) (x y n w h : Int) (c : Nat) :
    m.setPosition x y = { m with m_x := x, m_y := y } ∧
    m.setOnColor c = { m with m_onColor := c } ∧
    m.setOffColor c = { m with m_offColor := c } ∧
    m.setLedWidth n = { m with m_ledWidth := n } ∧
    m.setWidth w = { m with m_w := w } ∧
    m.setHeight h = { m with m_h := h } ∧
    m.on_ = { m with m_on := true } ∧
    m.off = { m with m_on := false } ∧
    ∀ (d : Int) (leds : Nat), 0 ≤ d → digitCodeMap[d.toNat]? = some leds →
      (m.setOnColor c).display d = some (Segment.all.flatMap (fun s =>
        (m.setOnColor c).drawSegment s
          (if leds.testBit s.bit ∧ m.m_on = true then c else m.m_offColor))) ∧
      (m.setOffColor c).display d = some (Segment.all.flatMap (fun s =>
        (m.setOffColor c).drawSegment s
          (if leds.testBit s.bit ∧ m.m_on = true then m.m_onColor else c))) ∧
      m.on_.display d = some (Segment.all.flatMap (fun s =>
        m.on_.drawSegment s (if leds.testBit s.bit then m.m_onColor else m.m_offColor))) ∧
      m.off.display d = some (Segment.all.flatMap (fun s =>
        m.off.drawSegment s m.m_offColor)) ∧
      (∀ g ∈ [m.setPosition x y, m.setLedWidth n, m.setWidth w, m.setHeight h],
        g.display d = some (Segment.all.flatMap (fun s =>
          g.drawSegment s
            (if leds.testBit s.bit ∧ m.m_on = true then m.m_onColor else m.m_offColor)))) := by
  refine ⟨rfl, rfl, rfl, rfl, rfl, rfl, rfl, rfl, ?_⟩
  intro d leds h0 hl
  refine ⟨display_eq_specTrace _ d leds h0 hl, display_eq_specTrace _ d leds h0 hl, ?_, ?_, ?_⟩
  · rw [display_eq_specTrace _ d leds h0 hl, specTrace_of_on _ _ rfl]
    rfl
  · rw [display_eq_specTrace _ d leds h0 hl, specTrace_of_off _ _ rfl]
    rfl
  · intro g hg
    simp only [List.mem_cons, List.mem_singleton, List.not_mem_nil, or_false] at hg
    rcases hg with rfl | rfl | rfl | rfl <;> exact display_eq_specTrace _ d leds h0 hl

end TFTSevenSegmentModule

/-- Witness of C19: the digit 1 (segments B and C) after `setOnColor(7)` on the sample
module: the two lit segments are drawn in colour 7, the five others in off colour 0,
at the unchanged position. -/
theorem mutators_frame_witness :
    (sampleModule.setOnColor 7).display 1 = some (Segment.all.flatMap (fun s =>
      (sampleModule.setOnColor 7).drawSegment s
        (if (6 : Nat).testBit s.bit ∧ sampleModule.m_on = true then 7
         else sampleModule.m_offColor))) ∧
    ((sampleModule.setOnColor 7).display 1).map (fun tr => tr.filterMap DrawCall.color
        |>.dedup) = some [7, 0] ∧
    (sampleModule.setPosition 5 9).display 1 = some (Segment.all.flatMap (fun s =>
      (sampleModule.setPosition 5 9).drawSegment s
        (if (6 : Nat).testBit s.bit ∧ sampleModule.m_on = true then sampleModule.m_onColor
         else sampleModule.m_offColor))) :=
  have h := (TFTSevenSegmentModule.mutators_frame sampleModule 5 9 3 16 32 7).2.2.2.2.2.2.2.2
    1 6 (by decide) (by decide)
  ⟨h.1, by decide, h.2.2.2.2 _ (List.mem_cons_self _ _)⟩

/-! ### Width and height of a display -/

namespace Digits

/-- A mutator that leaves a member alone, called on one slot, changes that member in no
slot. -/
theorem modify_map {α : Type} (g : TFTSevenSegmentModule → α) (ds ds' : Digits) (i : Nat)
    (f : TFTSevenSegmentModule → TFTSevenSegmentModule) (hf : ∀ m, g (f m) = g m)
    (h : ds.modify i f = some ds') (j : Nat) : (ds' j).map g = (ds j).map g := by
  unfold modify at h
  cases hm : ds i with
  | none => simp [hm] at h
  | some m =>
    simp only [hm, Option.some.injEq] at h
    subst h
    by_cases hj : j = i
    · subst hj; simp [hm, hf]
    · simp [Function.update_noteq hj]

/-- The loop of a bulk setter that leaves a member alone changes it in no slot. -/
theorem foldlM_modify_map {α : Type} (g : TFTSevenSegmentModule → α)
    (f : TFTSevenSegmentModule → TFTSevenSegmentModule) (hf : ∀ m, g (f m) = g m)
    (l : List Nat) :
    ∀ (ds ds' : Digits), l.foldlM (fun d i => modify d i f) ds = some ds' →
      ∀ j, (ds' j).map g = (ds j).map g := by
  induction l with
  | nil =>
    intro ds ds' h j
    simp only [List.foldlM_nil, Option.pure_def, Option.some.injEq] at h
    rw [h]
  | cons a l ih =>
    intro ds ds' h j
    simp only [List.foldlM_cons, Option.bind_eq_bind, Option.bind_eq_some] at h
    obtain ⟨ds1, h1, h2⟩ := h
    rw [ih ds1 ds' h2 j, modify_map g ds ds1 a f hf h1 j]

/-- The show-or-blank pattern changes, in every slot, no member that `on()` and `off()`
leave alone. -/
theorem showOrBlank_map {α : Type} (g : TFTSevenSegmentModule → α)
    (hon : ∀ m, g m.on_ = g m) (hoff : ∀ m, g m.off = g m)
    (ds ds' : Digits) (i : Nat) (v : Int) (tr : List DrawCall) (cond : Prop) [Decidable cond]
    (h : (if cond then ds.onAndDisplay i v else ds.offAndDisplay i) = some (ds', tr))
    (j : Nat) : (ds' j).map g = (ds j).map g := by
  split_ifs at h
  · simp only [onAndDisplay, Option.bind_eq_bind, Option.bind_eq_some, Option.pure_def,
      Option.some.injEq, Prod.mk.injEq] at h
    obtain ⟨ds1, h1, _, _, rfl, _⟩ := h
    exact modify_map g ds ds1 i _ hon h1 j
  · simp only [offAndDisplay, Option.bind_eq_bind, Option.bind_eq_some, Option.pure_def,
      Option.some.injEq, Prod.mk.injEq] at h
    obtain ⟨ds1, h1, _, _, rfl, _⟩ := h
    exact modify_map g ds ds1 i _ hoff h1 j

end Digits

namespace TFTSevenSegmentClockDisplay

/-- A call of `display` changes, in every slot, no member that `on()` and `off()` leave
alone. -/
theorem display_map {α : Type} (g : TFTSevenSegmentModule → α)
    (hon : ∀ m, g m.on_ = g m) (hoff : ∀ m, g m.off = g m)
    (c c' : TFTSevenSegmentClockDisplay) (hours minutes seconds : Int) (sep : Bool)
    (tr : List DrawCall) (h : c.display hours minutes seconds sep = some (c', tr)) (j : Nat) :
    (c'.digits j).map g = (c.digits j).map g := by
  simp only [display, Option.bind_eq_bind, Option.bind_eq_some, Option.pure_def,
    Option.some.injEq, Prod.mk.injEq] at h
  obtain ⟨⟨ds1, tr1⟩, e1, _, _, _, _, _, _, ⟨ds2, tr5⟩, e5, e6, _⟩ := h
  subst e6
  have f1 := Digits.showOrBlank_map g hon hoff c.digits ds1 MM1 _ tr1 _ e1 j
  by_cases hs : c.m_showHours = true
  · simp only [hs, if_true, displayHours, Option.bind_eq_bind, Option.bind_eq_some,
      Option.pure_def, Option.some.injEq, Prod.mk.injEq] at e5
    obtain ⟨⟨ds3, tr6⟩, e6, _, _, _, _, rfl, _⟩ := e5
    exact (Digits.showOrBlank_map g hon hoff ds1 ds3 HH1 _ tr6 _ e6 j).trans f1
  · rw [if_neg hs] at e5
    simp only [Option.pure_def, Option.some.injEq, Prod.mk.injEq] at e5
    show (ds2 j).map g = _
    rw [← e5.1]
    exact f1

/-- The height invariant depends on the heights of the modules alone. -/
theorem heightInv_of_map (c c' : TFTSevenSegmentClockDisplay) (hc : c.HeightInv)
    (hf : ∀ j, (c'.digits j).map (fun m => m.m_h) = (c.digits j).map (fun m => m.m_h)) :
    c'.HeightInv := by
  obtain ⟨h, hs, h1, h2⟩ := hc
  have key : ∀ i m, c'.digits i = some m → ∃ m0, c.digits i = some m0 ∧ m0.m_h = m.m_h := by
    intro i m hm
    have := hf i
    rw [hm] at this
    cases hm0 : c.digits i with
    | none => rw [hm0] at this; simp at this
    | some m0 =>
      rw [hm0] at this
      exact ⟨m0, rfl, by simpa using this.symm⟩
  refine ⟨h, hs, fun i m hi hm => ?_, fun i m hi hm => ?_⟩
  · obtain ⟨m0, e0, e1⟩ := key i m hm
    rw [← e1]; exact h1 i m0 hi e0
  · obtain ⟨m0, e0, e1⟩ := key i m hm
    rw [← e1]; exact h2 i m0 hi e0

/-- The constructor establishes the height invariant. -/
theorem heightInv_of_new (x y w h : Int) (onColor offColor : Nat) (ledWidth : Int)
    (showHours : Bool) (r : Ratio) (c : TFTSevenSegmentClockDisplay)
    (hc : new x y w h onColor offColor ledWidth showHours r = some c) : c.HeightInv := by
  have hd : ∀ i m, c.digits i = some m →
      (i < SS1 → m.m_h = h) ∧ (SS1 ≤ i → m.m_h = r.scale h) := by
    intro i m hm
    cases showHours <;>
      simp [new, firstDigit, DIGITS, List.range', constructStep, Digits.modify, SS1, SS2,
        MM2, Function.update] at hc <;>
      subst hc <;>
      rcases i with _ | _ | _ | _ | _ | _ | i <;>
      simp [TFTSevenSegmentModule.setHeight, TFTSevenSegmentModule.setWidth] at hm <;>
      subst hm <;>
      simp [SS1]
  exact ⟨h, r.scale h, fun i m hi hm => (hd i m hm).1 hi,
    fun i m hi hm => (hd i m hm).2 hi⟩

end TFTSevenSegmentClockDisplay

namespace TFTSevenSegmentClockDisplay

/-- Every reachable state satisfies the height invariant. -/
theorem heightInv_of_reachable (c : TFTSevenSegmentClockDisplay) (h : Reachable c) :
    c.HeightInv := by
  induction h with
  | construct x y w h onColor offColor ledWidth showHours r c hc =>
    exact heightInv_of_new x y w h onColor offColor ledWidth showHours r c hc
  | construct8 x y w h onColor offColor ledWidth =>
    exact ⟨0, 0, fun i m _ hm => Option.noConfusion hm, fun i m _ hm => Option.noConfusion hm⟩
  | display c c' hours minutes seconds sep tr _ hd ih =>
    exact heightInv_of_map c c' ih
      (display_map (fun m => m.m_h) (fun _ => rfl) (fun _ => rfl) c c' _ _ _ sep tr hd)
  | displaySeconds c c' t sep tr _ hd ih =>
    exact heightInv_of_map c c' ih
      (display_map (fun m => m.m_h) (fun _ => rfl) (fun _ => rfl) c c' _ _ _ sep tr hd)
  | displayMillis c c' t sep tr _ hd ih =>
    exact heightInv_of_map c c' ih
      (display_map (fun m => m.m_h) (fun _ => rfl) (fun _ => rfl) c c' _ _ _ sep tr hd)
  | setOnColor c c' color _ hd ih =>
    simp only [setOnColor, Option.bind_eq_bind, Option.bind_eq_some, Option.pure_def,
      Option.some.injEq] at hd
    obtain ⟨ds, h1, h2⟩ := hd
    subst h2
    exact heightInv_of_map c _ ih
      (Digits.foldlM_modify_map (fun m => m.m_h) (fun m => m.setOnColor color) (fun _ => rfl) _ c.digits ds h1)
  | setOffColor c c' color _ hd ih =>
    simp only [setOffColor, Option.bind_eq_bind, Option.bind_eq_some, Option.pure_def,
      Option.some.injEq] at hd
    obtain ⟨ds, h1, h2⟩ := hd
    subst h2
    exact heightInv_of_map c _ ih
      (Digits.foldlM_modify_map (fun m => m.m_h) (fun m => m.setOffColor color) (fun _ => rfl) _ c.digits ds h1)
  | setLedSegmentWidth c c' ledWidth _ hd ih =>
    simp only [setLedSegmentWidth, Option.bind_eq_bind, Option.bind_eq_some, Option.pure_def,
      Option.some.injEq] at hd
    obtain ⟨ds, h1, h2⟩ := hd
    subst h2
    exact heightInv_of_map c _ ih
      (Digits.foldlM_modify_map (fun m => m.m_h) (fun m => m.setLedWidth ledWidth) (fun _ => rfl) _ c.digits ds h1)

/-- Clock display, in a reachable state that has its modules: `getWidth()` is the right
edge of the seconds-ones module minus the x of the first owned module, and
`getHeight()` is the largest height among the owned modules. -/
theorem getWidth_getHeight_clock (c : TFTSevenSegmentClockDisplay) (hr : Reachable c)
    (hinv : c.Inv) :
    (∃ last first, c.digits SS2 = some last ∧
      c.digits (firstDigit c.m_showHours) = some first ∧
      c.getWidth = some (last.getX + last.getWidth - first.getX)) ∧
    (∃ H, c.getHeight = some H ∧
      (∀ i m, firstDigit c.m_showHours ≤ i → i < DIGITS → c.digits i = some m →
        m.getHeight ≤ H) ∧
      ∃ i m, firstDigit c.m_showHours ≤ i ∧ i < DIGITS ∧ c.digits i = some m ∧
        m.getHeight = H) := by
  have halloc := allocated_of_inv c hinv
  have hfirst : firstDigit c.m_showHours ≤ 2 := by
    unfold firstDigit; split <;> decide
  obtain ⟨mm1, h2⟩ := halloc MM1 hfirst (by decide)
  obtain ⟨ss1, h4⟩ := halloc SS1 (le_trans hfirst (by decide)) (by decide)
  obtain ⟨ss2, h5⟩ := halloc SS2 (le_trans hfirst (by decide)) (by decide)
  constructor
  · by_cases hshow : c.m_showHours = true
    · have hz : firstDigit c.m_showHours = 0 := by simp [firstDigit, hshow]
      obtain ⟨hh1, h0⟩ := halloc HH1 (by rw [hz]; decide) (by decide)
      refine ⟨ss2, hh1, h5, by rw [hz]; exact h0, ?_⟩
      simp [getWidth, hshow, h5, h0]
    · have hz : firstDigit c.m_showHours = 2 := by simp [firstDigit, hshow]
      refine ⟨ss2, mm1, h5, by rw [hz]; exact h2, ?_⟩
      simp [getWidth, hshow, h5, h2]
  · obtain ⟨h, hs, i1, i2⟩ := heightInv_of_reachable c hr
    have e2 : mm1.m_h = h := i1 MM1 mm1 (by decide) h2
    have e4 : ss1.m_h = hs := i2 SS1 ss1 (by decide) h4
    have hget : c.getHeight
        = some (if ss1.getHeight > mm1.getHeight then ss1.getHeight else mm1.getHeight) := by
      simp only [getHeight, h4, h2, Option.bind_eq_bind, Option.some_bind, Option.pure_def]
      split_ifs <;> rfl
    refine ⟨_, hget, ?_, ?_⟩
    · intro i m _ _ hm
      have hm' : m.m_h = h ∨ m.m_h = hs := by
        by_cases hi : i < SS1
        · exact Or.inl (i1 i m hi hm)
        · exact Or.inr (i2 i m (by omega) hm)
      simp only [TFTSevenSegmentModule.getHeight, e2, e4]
      split_ifs <;> rcases hm' with h | h <;> omega
    · by_cases hgt : ss1.getHeight > mm1.getHeight
      · exact ⟨SS1, ss1, le_trans hfirst (by decide), by decide, h4, by rw [if_pos hgt]⟩
      · exact ⟨MM1, mm1, hfirst, by decide, h2, by rw [if_neg hgt]⟩

end TFTSevenSegmentClockDisplay

namespace TFTSevenSegmentDecimalDisplay

/-- The modules of a decimal display as the constructor leaves them: module `i` sits
at x + (i + 1) * (w + w/8 + 3) and has width `w` and height `h`. -/
theorem new_modules (x y w h : Int) (onColor offColor : Nat) (ledWidth : Int) (i : Nat)
    (hi : i < DIGITS) :
    (new x y w h onColor offColor ledWidth).digits i
      = some { m_x := x + ((i : Int) + 1) * (w + Int.tdiv w 8 + 3), m_y := y, m_w := w,
               m_h := h, m_onColor := onColor, m_offColor := offColor,
               m_ledWidth := ledWidth, m_on := true } := by
  have hi' : i < 3 := hi
  interval_cases i <;>
    simp [new, DIGITS, List.range, List.range.loop, constructStep, Function.update] <;>
    ring

/-- Decimal display: `getWidth()` is the right edge of the ones module minus the x of
the hundreds module, which for a constructed display is 3*w + 2*(w/8) + 6 whatever the
origin; `getHeight()` is the member `m_h`, which the constructor sets to the height it
gives to each module. -/
theorem getWidth_getHeight_decimal (d : TFTSevenSegmentDecimalDisplay) (hd : d.Allocated)
    (x y w h : Int) (onColor offColor : Nat) (ledWidth : Int) :
    (∃ ones hundreds, d.digits ONES = some ones ∧ d.digits HUNDREDS = some hundreds ∧
      d.getWidth = some (ones.getX + ones.getWidth - hundreds.getX)) ∧
    (new x y w h onColor offColor ledWidth).getWidth
      = some (3 * w + 2 * Int.tdiv w 8 + 6) ∧
    d.getHeight = d.m_h ∧
    (new x y w h onColor offColor ledWidth).getHeight = h ∧
    (∀ i, i < DIGITS → ∃ m, (new x y w h onColor offColor ledWidth).digits i = some m ∧
      m.getHeight = h) := by
  obtain ⟨ones, h2⟩ := hd ONES (by decide)
  obtain ⟨hundreds, h0⟩ := hd HUNDREDS (by decide)
  refine ⟨⟨ones, hundreds, h2, h0, by simp [getWidth, h2, h0]⟩, ?_, rfl, rfl, ?_⟩
  · have e2 := new_modules x y w h onColor offColor ledWidth ONES (by decide)
    have e0 := new_modules x y w h onColor offColor ledWidth HUNDREDS (by decide)
    rw [getWidth, e2, e0]
    simp only [Option.bind_eq_bind, Option.some_bind, Option.pure_def,
      TFTSevenSegmentModule.getX, TFTSevenSegmentModule.getWidth, Option.some.injEq, ONES,
      HUNDREDS]
    push_cast
    ring
  · intro i hi
    exact ⟨_, new_modules x y w h onColor offColor ledWidth i hi, rfl⟩

end TFTSevenSegmentDecimalDisplay

/-- Claim C20, the code at the failing input: on the sample decimal display (modules 32
high) `setSegmentModuleHeight(100)` stores 100 in the display and reaches no module, and
`getHeight()` then answers the stored 100 while each of the three modules is still 32
high; `getWidth()` of the same display reads the modules and still answers
58 = 3*16 + 2*(16/8) + 6 after `setSegmentModuleWidth(100)`, and `getHeight()` of the
sample clock reads the modules and still answers 32 after
`setSegmentModuleHeight(100)`. -/
theorem decimal_getHeight_not_module_height :
    (sampleDecimal.setSegmentModuleHeight 100).getHeight = 100 ∧
    (List.range 3).map (fun i =>
        ((sampleDecimal.setSegmentModuleHeight 100).digits i).map (fun m => m.getHeight))
      = [some 32, some 32, some 32] ∧
    sampleDecimal.getHeight = 32 ∧
    sampleDecimal.getWidth = some 58 ∧
    (sampleDecimal.setSegmentModuleWidth 100).getWidth = some 58 ∧
    sampleClockState.getHeight = some 32 ∧
    (sampleClockState.setSegmentModuleHeight 100).getHeight = some 32 ∧
    sampleClockState.getWidth = some 128 := by
  refine ⟨by decide, by decide, by decide, by decide, by decide, by decide, by decide,
    by decide⟩

/-! ### The batch-write bracket -/

namespace TFTSevenSegmentModule

/-- Every drawer is one bracket: `startWrite`, then line writes only, then `endWrite`. -/
theorem drawSegment_bracket (m : TFTSevenSegmentModule) (s : Segment) (color : Nat) :
    ∃ body, m.drawSegment s color = [DrawCall.startWrite] ++ body ++ [DrawCall.endWrite] ∧
      ∀ a ∈ body, a.isLine = true := by
  cases s <;> refine ⟨_, rfl, fun a ha => ?_⟩ <;>
    (try split_ifs at ha) <;>
    simp at ha <;>
    (try rcases ha with rfl | ⟨_, _, rfl⟩ | rfl) <;>
    (try rcases ha with ⟨_, _, rfl⟩) <;>
    (try rcases ha with ⟨_, _, rfl | rfl⟩) <;>
    simp [DrawCall.isLine]

end TFTSevenSegmentModule

/-- Once violated, the bracket discipline stays violated. -/
theorem foldl_bracketStep_none (tr : List DrawCall) : tr.foldl bracketStep none = none := by
  induction tr with
  | nil => rfl
  | cons a rest ih =>
    have h : bracketStep none a = none := by cases a <;> rfl
    rw [List.foldl_cons, h, ih]

/-- Replaying line writes while the bracket is open keeps it open. -/
theorem foldl_bracketStep_lines (body : List DrawCall) (h : ∀ a ∈ body, a.isLine = true) :
    body.foldl bracketStep (some true) = some true := by
  induction body with
  | nil => rfl
  | cons a rest ih =>
    have ha := h a (List.mem_cons_self _ _)
    have hr : bracketStep (some true) a = some true := by
      cases a <;> simp [DrawCall.isLine] at ha <;> rfl
    rw [List.foldl_cons, hr]
    exact ih (fun b hb => h b (List.mem_cons_of_mem _ hb))

/-- A bracket of line writes, replayed from the closed state, ends closed. -/
theorem foldl_bracketStep_block (body : List DrawCall) (h : ∀ a ∈ body, a.isLine = true) :
    ([DrawCall.startWrite] ++ body ++ [DrawCall.endWrite]).foldl bracketStep (some false)
      = some false := by
  simp only [List.foldl_append, List.foldl_cons, List.foldl_nil, bracketStep,
    foldl_bracketStep_lines body h]

/-- A bracket of line writes holds one `startWrite` and one `endWrite`. -/
theorem count_block (body : List DrawCall) (h : ∀ a ∈ body, a.isLine = true) :
    ([DrawCall.startWrite] ++ body ++ [DrawCall.endWrite]).count DrawCall.startWrite = 1 ∧
    ([DrawCall.startWrite] ++ body ++ [DrawCall.endWrite]).count DrawCall.endWrite = 1 := by
  have h1 : body.count DrawCall.startWrite = 0 :=
    List.count_eq_zero.mpr (fun hm => by simpa [DrawCall.isLine] using h _ hm)
  have h2 : body.count DrawCall.endWrite = 0 :=
    List.count_eq_zero.mpr (fun hm => by simpa [DrawCall.isLine] using h _ hm)
  simp [List.count_append, h1, h2]

namespace TFTSevenSegmentModule

/-- Claim C23: for every module state and colour each of the seven drawers emits
`startWrite` first, `endWrite` last and only line writes in between, so one of each;
the four vertical drawers emit just the two brackets when the led thickness is zero or
negative; and the trace of `display(d)`, d in 0..9, holds seven `startWrite` and seven
`endWrite`, and replayed from a closed surface it never opens a write while one is
open, never closes or draws while none is open, and ends closed. -/
theorem display_brackets_paired (m : TFTSevenSegmentModule) (d : Int)
    (h0 : 0 ≤ d) (h9 : d ≤ 9) :
    (∀ s color, ∃ body,
      m.drawSegment s color = [DrawCall.startWrite] ++ body ++ [DrawCall.endWrite] ∧
      (∀ a ∈ body, a.isLine = true) ∧
      (m.drawSegment s color).count DrawCall.startWrite = 1 ∧
      (m.drawSegment s color).count DrawCall.endWrite = 1 ∧
      bracketRun (m.drawSegment s color) = some false) ∧
    (m.m_ledWidth ≤ 0 → ∀ color,
      m.draw_F_LeftUpperLed color = [DrawCall.startWrite, DrawCall.endWrite] ∧
      m.draw_E_LeftBottomLed color = [DrawCall.startWrite, DrawCall.endWrite] ∧
      m.draw_B_RightUpperLed color = [DrawCall.startWrite, DrawCall.endWrite] ∧
      m.draw_C_RightBottomLed color = [DrawCall.startWrite, DrawCall.endWrite]) ∧
    ∃ tr, m.display d = some tr ∧
      tr.count DrawCall.startWrite = 7 ∧ tr.count DrawCall.endWrite = 7 ∧
      bracketRun tr = some false ∧
      ∀ pre, pre <+: tr → bracketRun pre ≠ none := by
  have hseg : ∀ s color, ∃ body,
      m.drawSegment s color = [DrawCall.startWrite] ++ body ++ [DrawCall.endWrite] ∧
      (∀ a ∈ body, a.isLine = true) ∧
      (m.drawSegment s color).count DrawCall.startWrite = 1 ∧
      (m.drawSegment s color).count DrawCall.endWrite = 1 ∧
      bracketRun (m.drawSegment s color) = some false := by
    intro s color
    obtain ⟨body, e, hb⟩ := drawSegment_bracket m s color
    refine ⟨body, e, hb, ?_, ?_, ?_⟩
    · rw [e]; exact (count_block body hb).1
    · rw [e]; exact (count_block body hb).2
    · rw [e]; exact foldl_bracketStep_block body hb
  refine ⟨hseg, ?_, ?_⟩
  · intro hL color
    have hz : m.m_ledWidth.toNat = 0 := by omega
    simp [draw_F_LeftUpperLed, draw_E_LeftBottomLed, draw_B_RightUpperLed,
      draw_C_RightBottomLed, loopIndices, hz]
  · obtain ⟨leds, hl, _⟩ := digitCodeMap_lookup d h0 h9
    have c1 : ∀ s c, (m.drawSegment s c).count DrawCall.startWrite = 1 := fun s c => by
      obtain ⟨_, _, _, h, _⟩ := hseg s c; exact h
    have c2 : ∀ s c, (m.drawSegment s c).count DrawCall.endWrite = 1 := fun s c => by
      obtain ⟨_, _, _, _, h, _⟩ := hseg s c; exact h
    have c3 : ∀ s c, (m.drawSegment s c).foldl bracketStep (some false) = some false :=
      fun s c => by obtain ⟨_, _, _, _, _, h⟩ := hseg s c; exact h
    have hrun : bracketRun (m.specTrace leds) = some false := by
      simp only [bracketRun, specTrace, Segment.all, List.flatMap_cons, List.flatMap_nil,
        List.append_nil, List.foldl_append, c3]
    refine ⟨m.specTrace leds, display_eq_specTrace m d leds h0 hl, ?_, ?_, hrun, ?_⟩
    · simp only [specTrace, Segment.all, List.flatMap_cons, List.flatMap_nil,
        List.append_nil, List.count_append, c1]
    · simp only [specTrace, Segment.all, List.flatMap_cons, List.flatMap_nil,
        List.append_nil, List.count_append, c2]
    · rintro pre ⟨suf, e⟩ hn
      rw [← e, bracketRun, List.foldl_append] at hrun
      rw [bracketRun] at hn
      rw [hn, foldl_bracketStep_none] at hrun
      exact Option.noConfusion hrun

end TFTSevenSegmentModule

/-- Witness of C23: the digit 8 on the sample module. -/
theorem display_brackets_paired_witness :
    ∃ tr, sampleModule.display 8 = some tr ∧
      tr.count DrawCall.startWrite = 7 ∧ tr.count DrawCall.endWrite = 7 ∧
      bracketRun tr = some false ∧
      ∀ pre, pre <+: tr → bracketRun pre ≠ none :=
  (TFTSevenSegmentModule.display_brackets_paired sampleModule 8 (by decide) (by decide)).2.2

/-! ### Layout of the clock display -/

/-- The truncating division of the source by a positive divisor is the truncation toward
zero of the exact quotient. -/
theorem tdiv_eq_truncQ (n : Int) (d : Nat) (hd : 0 < d) :
    Int.tdiv n d = truncQ ((n : ℚ) / (d : ℚ)) := by
  have hdq : (0 : ℚ) < (d : ℚ) := by exact_mod_cast hd
  unfold truncQ
  by_cases hn : 0 ≤ n
  · have hq : (0 : ℚ) ≤ (n : ℚ) / (d : ℚ) := div_nonneg (by exact_mod_cast hn) hdq.le
    rw [if_pos hq, Rat.floor_intCast_div_natCast, Int.tdiv_eq_ediv hn (by omega)]
  · have hn' : n < 0 := by omega
    have hq : ¬ (0 : ℚ) ≤ (n : ℚ) / (d : ℚ) := by
      rw [not_le]
      exact div_neg_of_neg_of_pos (by exact_mod_cast hn') hdq
    rw [if_neg hq]
    have h1 : ⌈(n : ℚ) / (d : ℚ)⌉ = -⌊((-n : Int) : ℚ) / (d : ℚ)⌋ := by
      rw [← Int.ceil_neg]
      congr 1
      push_cast
      ring
    rw [h1, Rat.floor_intCast_div_natCast, ← Int.tdiv_eq_ediv (by omega) (by omega),
      Int.neg_tdiv, neg_neg]

namespace Ratio

/-- Where no `float` operation rounds, the three expressions of the constructor are the
truncations toward zero of the exact rational values `v * r`, `v * r + 1` and
`offsetx + v * r + 3`. -/
theorem exact_eq_truncQ (num : Int) (den : Nat) (hd : 0 < den) (offsetx v : Int) :
    (exact num den).scale v = truncQ ((v : ℚ) * ((num : ℚ) / (den : ℚ))) ∧
    (exact num den).scaleInc v = truncQ ((v : ℚ) * ((num : ℚ) / (den : ℚ)) + 1) ∧
    (exact num den).advance offsetx v
      = truncQ ((offsetx : ℚ) + (v : ℚ) * ((num : ℚ) / (den : ℚ)) + 3) := by
  have hdq : (den : ℚ) ≠ 0 := by exact_mod_cast hd.ne.symm
  refine ⟨?_, ?_, ?_⟩ <;>
    simp only [exact] <;>
    rw [tdiv_eq_truncQ _ _ hd] <;>
    congr 1 <;>
    push_cast <;>
    field_simp

/-- With ratio 1 and no rounding, scaling changes nothing. -/
theorem exact_one (offsetx v : Int) :
    (exact 1 1).scale v = v ∧ (exact 1 1).scaleInc v = v + 1 ∧
    (exact 1 1).advance offsetx v = offsetx + v + 3 := by
  refine ⟨?_, ?_, ?_⟩ <;> simp [exact, Int.tdiv_one]

end Ratio

namespace TFTSevenSegmentClockDisplay

/-- The modules the constructor creates for a clock with hours shown: column, width,
height and led thickness of each of the six. -/
theorem new_shown_modules (x y w h : Int) (onColor offColor : Nat) (ledWidth : Int)
    (r : Ratio) :
    ∃ c, new x y w h onColor offColor ledWidth true r = some c ∧
      c.m_showHours = true ∧
      c.digits HH1 = some ⟨x, y, w, h, onColor, offColor, ledWidth, true⟩ ∧
      c.digits HH2 = some ⟨x + (w + Int.tdiv w 8 + 3), y, w, h, onColor, offColor,
        ledWidth, true⟩ ∧
      c.digits MM1 = some ⟨x + (2 * (w + Int.tdiv w 8 + 3) + Int.tdiv w 2), y, w, h,
        onColor, offColor, ledWidth, true⟩ ∧
      c.digits MM2 = some ⟨x + (3 * (w + Int.tdiv w 8 + 3) + Int.tdiv w 2), y, w, h,
        onColor, offColor, ledWidth, true⟩ ∧
      c.digits SS1 = some ⟨x + (4 * (w + Int.tdiv w 8 + 3) + 2 * Int.tdiv w 2), y,
        r.scale w, r.scale h, onColor, offColor,
        if ledWidth > 2 then r.scaleInc ledWidth else ledWidth, true⟩ ∧
      c.digits SS2 = some ⟨x + r.advance
          (4 * (w + Int.tdiv w 8 + 3) + 2 * Int.tdiv w 2) (w + Int.tdiv w 8), y,
        r.scale w, r.scale h, onColor, offColor,
        if ledWidth > 2 then r.scaleInc ledWidth else ledWidth, true⟩ := by
  simp [new, firstDigit, DIGITS, List.range', constructStep, Digits.modify, SS1, SS2,
      MM2, MM1, HH2, HH1, Function.update, TFTSevenSegmentModule.setHeight,
      TFTSevenSegmentModule.setWidth]
  have e : Int.tdiv w 2 + Int.tdiv w 2 = 2 * Int.tdiv w 2 := by ring
  rw [e]
  exact ⟨rfl, rfl, fun h => (if_pos h).symm⟩

/-- The modules the constructor creates for a clock with hours hidden: the two hours
slots stay unassigned, and the four others are laid out from the origin. -/
theorem new_hidden_modules (x y w h : Int) (onColor offColor : Nat) (ledWidth : Int)
    (r : Ratio) :
    ∃ c, new x y w h onColor offColor ledWidth false r = some c ∧
      c.m_showHours = false ∧
      c.digits HH1 = none ∧ c.digits HH2 = none ∧
      c.digits MM1 = some ⟨x, y, w, h, onColor, offColor, ledWidth, true⟩ ∧
      c.digits MM2 = some ⟨x + (w + Int.tdiv w 8 + 3), y, w, h, onColor, offColor,
        ledWidth, true⟩ ∧
      c.digits SS1 = some ⟨x + (2 * (w + Int.tdiv w 8 + 3) + Int.tdiv w 2), y,
        r.scale w, r.scale h, onColor, offColor,
        if ledWidth > 2 then r.scaleInc ledWidth else ledWidth, true⟩ ∧
      c.digits SS2 = some ⟨x + r.advance
          (2 * (w + Int.tdiv w 8 + 3) + Int.tdiv w 2) (w + Int.tdiv w 8), y,
        r.scale w, r.scale h, onColor, offColor,
        if ledWidth > 2 then r.scaleInc ledWidth else ledWidth, true⟩ := by
  simp [new, firstDigit, DIGITS, List.range', constructStep, Digits.modify, SS1, SS2,
      MM2, MM1, HH2, HH1, Function.update, TFTSevenSegmentModule.setHeight,
      TFTSevenSegmentModule.setWidth]
  exact fun h => (if_pos h).symm

/-- Claim C24, amended: for a clock display with hours shown, constructed at origin x
with module width w, the first module stands at x and the extra half-width gap w/2 is
inserted between the pairs, after the second digit of a pair:
x(hours-ones) - x(hours-tens) = w + w/8 + 3 and
x(minutes-ones) - x(minutes-tens) = w + w/8 + 3, while the step from one pair to the
next is x(minutes-tens) - x(hours-ones) = (w + w/8 + 3) + w/2. -/
theorem new_pair_spacing (x y w h : Int) (onColor offColor : Nat) (ledWidth : Int)
    (r : Ratio) :
    ∃ c hh1 hh2 mm1 mm2,
      new x y w h onColor offColor ledWidth true r = some c ∧
      c.digits HH1 = some hh1 ∧ c.digits HH2 = some hh2 ∧
      c.digits MM1 = some mm1 ∧ c.digits MM2 = some mm2 ∧
      hh1.getX = x ∧
      hh2.getX - hh1.getX = w + Int.tdiv w 8 + 3 ∧
      mm2.getX - mm1.getX = w + Int.tdiv w 8 + 3 ∧
      mm1.getX - hh2.getX = (w + Int.tdiv w 8 + 3) + Int.tdiv w 2 := by
  obtain ⟨c, hc, _, e0, e1, e2, e3, _, _⟩ :=
    new_shown_modules x y w h onColor offColor ledWidth r
  refine ⟨c, _, _, _, _, hc, e0, e1, e2, e3, rfl, ?_, ?_, ?_⟩ <;>
    simp only [TFTSevenSegmentModule.getX] <;> ring

/-- The sizes the constructor gives the modules: the hours and minutes modules keep w, h
and L; the seconds modules get the scaled width and height and, for L > 2, the scaled
led thickness. -/
theorem new_module_sizes (x y w h : Int) (onColor offColor : Nat) (ledWidth : Int)
    (showHours : Bool) (r : Ratio) :
    ∃ c, new x y w h onColor offColor ledWidth showHours r = some c ∧
      (∀ i, firstDigit showHours ≤ i → i < SS1 → ∃ m, c.digits i = some m ∧
        m.getWidth = w ∧ m.getHeight = h ∧ m.getLedWidth = ledWidth) ∧
      (∀ i, SS1 ≤ i → i < DIGITS → ∃ m, c.digits i = some m ∧
        m.getWidth = r.scale w ∧ m.getHeight = r.scale h ∧
        m.getLedWidth = if ledWidth > 2 then r.scaleInc ledWidth else ledWidth) := by
  cases showHours
  · obtain ⟨c, hc, _, _, _, e2, e3, e4, e5⟩ :=
      new_hidden_modules x y w h onColor offColor ledWidth r
    refine ⟨c, hc, ?_, ?_⟩
    · intro i h1 h2
      simp only [firstDigit, SS1, Bool.false_eq_true, if_false] at h1 h2
      have hi : i = MM1 ∨ i = MM2 := by simp only [MM1, MM2]; omega
      rcases hi with rfl | rfl
      · exact ⟨_, e2, rfl, rfl, rfl⟩
      · exact ⟨_, e3, rfl, rfl, rfl⟩
    · intro i h1 h2
      have hi : i = SS1 ∨ i = SS2 := by simp only [SS1, SS2, DIGITS] at h1 h2 ⊢; omega
      rcases hi with rfl | rfl
      · exact ⟨_, e4, rfl, rfl, rfl⟩
      · exact ⟨_, e5, rfl, rfl, rfl⟩
  · obtain ⟨c, hc, _, e0, e1, e2, e3, e4, e5⟩ :=
      new_shown_modules x y w h onColor offColor ledWidth r
    refine ⟨c, hc, ?_, ?_⟩
    · intro i _ h2
      have hi : i = HH1 ∨ i = HH2 ∨ i = MM1 ∨ i = MM2 := by
        simp only [SS1, HH1, HH2, MM1, MM2] at h2 ⊢; omega
      rcases hi with rfl | rfl | rfl | rfl
      · exact ⟨_, e0, rfl, rfl, rfl⟩
      · exact ⟨_, e1, rfl, rfl, rfl⟩
      · exact ⟨_, e2, rfl, rfl, rfl⟩
      · exact ⟨_, e3, rfl, rfl, rfl⟩
    · intro i h1 h2
      have hi : i = SS1 ∨ i = SS2 := by simp only [SS1, SS2, DIGITS] at h1 h2 ⊢; omega
      rcases hi with rfl | rfl
      · exact ⟨_, e4, rfl, rfl, rfl⟩
      · exact ⟨_, e5, rfl, rfl, rfl⟩

/-- Claim C25, amended: for a clock display constructed with module width w, height h,
led width L and seconds ratio r, the hours and minutes modules keep w, h and L; the two
seconds modules have the width and the height that the `float` products (float)w * r
and (float)h * r give when converted to an integer, and the led thickness that
L * r + 1 gives when converted to an integer if L > 2, and L otherwise; where the
`float` arithmetic is exact these are trunc(w*r), trunc(h*r) and trunc(L*r + 1); in
particular with r = 1 all modules have identical width and height, and the seconds
modules have led thickness L + 1 when L > 2 and L otherwise. -/
theorem new_seconds_scaled (x y w h : Int) (onColor offColor : Nat) (ledWidth : Int)
    (showHours : Bool) (r : Ratio) :
    (∃ c, new x y w h onColor offColor ledWidth showHours r = some c ∧
      (∀ i, firstDigit showHours ≤ i → i < SS1 → ∃ m, c.digits i = some m ∧
        m.getWidth = w ∧ m.getHeight = h ∧ m.getLedWidth = ledWidth) ∧
      (∀ i, SS1 ≤ i → i < DIGITS → ∃ m, c.digits i = some m ∧
        m.getWidth = r.scale w ∧ m.getHeight = r.scale h ∧
        m.getLedWidth = if ledWidth > 2 then r.scaleInc ledWidth else ledWidth)) ∧
    (∀ (num : Int) (den : Nat), 0 < den →
      (Ratio.exact num den).scale w = truncQ ((w : ℚ) * ((num : ℚ) / (den : ℚ))) ∧
      (Ratio.exact num den).scale h = truncQ ((h : ℚ) * ((num : ℚ) / (den : ℚ))) ∧
      (Ratio.exact num den).scaleInc ledWidth
        = truncQ ((ledWidth : ℚ) * ((num : ℚ) / (den : ℚ)) + 1)) ∧
    (∃ c, new x y w h onColor offColor ledWidth showHours (Ratio.exact 1 1) = some c ∧
      ∀ i, firstDigit showHours ≤ i → i < DIGITS → ∃ m, c.digits i = some m ∧
        m.getWidth = w ∧ m.getHeight = h ∧
        m.getLedWidth = if SS1 ≤ i ∧ ledWidth > 2 then ledWidth + 1 else ledWidth) := by
  refine ⟨new_module_sizes x y w h onColor offColor ledWidth showHours r, ?_, ?_⟩
  · intro num den hd
    exact ⟨(Ratio.exact_eq_truncQ num den hd 0 w).1, (Ratio.exact_eq_truncQ num den hd 0 h).1,
      (Ratio.exact_eq_truncQ num den hd 0 ledWidth).2.1⟩
  · obtain ⟨c, hc, h1, h2⟩ :=
      new_module_sizes x y w h onColor offColor ledWidth showHours (Ratio.exact 1 1)
    refine ⟨c, hc, fun i hi1 hi2 => ?_⟩
    by_cases hs : SS1 ≤ i
    · obtain ⟨m, hm, a, b, e⟩ := h2 i hs hi2
      refine ⟨m, hm, ?_, ?_, ?_⟩
      · rw [a, (Ratio.exact_one 0 w).1]
      · rw [b, (Ratio.exact_one 0 h).1]
      · rw [e, (Ratio.exact_one 0 ledWidth).2.1]
        by_cases hl : ledWidth > 2 <;> simp [hs, hl]
    · obtain ⟨m, hm, a, b, e⟩ := h1 i hi1 (by omega)
      exact ⟨m, hm, a, b, by rw [e, if_neg (fun hh => hs hh.1)]⟩

end TFTSevenSegmentClockDisplay

/-- Claim C24 as stated fails: on the sample clock (hours shown, origin 0, module width
16) the hours-ones module stands 21 = 16 + 16/8 + 3 columns after the hours-tens module,
not 29 = 21 + 16/2, and the minutes-tens module 29 columns after the hours-ones module,
not 21. -/
theorem hours_pair_step_without_half_gap :
    (List.range 4).map (fun i => (sampleClockState.digits i).map (fun m => m.getX))
      = [some 0, some 21, some 50, some 71] ∧
    (21 : Int) - 0 ≠ (16 + Int.tdiv 16 8 + 3) + Int.tdiv 16 2 ∧
    (50 : Int) - 21 ≠ 16 + Int.tdiv 16 8 + 3 := by
  refine ⟨by decide, by decide, by decide⟩

/-- Claim C25 as stated fails: on the clock constructed with module size 16 x 32, led
width 3 and seconds ratio 1, where every `float` operation is exact, the two seconds
modules have led thickness 4 = 3 * 1 + 1, not trunc(3 * 1) = 3, so the modules do not
all have the same led thickness. -/
theorem seconds_thickness_at_unit_ratio :
    sampleClockUnitRatio.map (fun c =>
        (List.range 6).map (fun i => (c.digits i).map (fun m => m.getLedWidth)))
      = some [some 3, some 3, some 3, some 3, some 4, some 4] ∧
    truncQ ((3 : ℚ) * ((1 : ℚ) / (1 : ℚ))) = 3 := by
  refine ⟨by decide, ?_⟩
  simp [truncQ]

/-- Witness of the amended C25: the sample clock, module size 16 x 32, led width 3,
seconds ratio 3/4: the seconds modules are 12 x 24 with led thickness 3. -/
theorem new_seconds_scaled_witness :
    (∃ c, TFTSevenSegmentClockDisplay.new 0 0 16 32 255 0 3 true (Ratio.exact 3 4) = some c ∧
      (∀ i, TFTSevenSegmentClockDisplay.firstDigit true ≤ i →
        i < TFTSevenSegmentClockDisplay.SS1 → ∃ m, c.digits i = some m ∧
        m.getWidth = 16 ∧ m.getHeight = 32 ∧ m.getLedWidth = 3) ∧
      (∀ i, TFTSevenSegmentClockDisplay.SS1 ≤ i → i < TFTSevenSegmentClockDisplay.DIGITS →
        ∃ m, c.digits i = some m ∧
        m.getWidth = (Ratio.exact 3 4).scale 16 ∧ m.getHeight = (Ratio.exact 3 4).scale 32 ∧
        m.getLedWidth = if (3 : Int) > 2 then (Ratio.exact 3 4).scaleInc 3 else 3)) ∧
    (Ratio.exact 3 4).scale 16 = 12 ∧ (Ratio.exact 3 4).scale 32 = 24 ∧
    (Ratio.exact 3 4).scaleInc 3 = 3 ∧
    (Ratio.exact 3 4).scale 16 = truncQ (((16 : Int) : ℚ) * (((3 : Int) : ℚ) / ((4 : Nat) : ℚ))) :=
  have h := TFTSevenSegmentClockDisplay.new_seconds_scaled 0 0 16 32 255 0 3 true
    (Ratio.exact 3 4)
  ⟨h.1, by decide, by decide, by decide, (h.2.1 3 4 (by decide)).1⟩

/-! ### Digits handed to the modules -/

namespace Digits

/-- On an allocated slot `digits[i]->display(v)` is defined exactly for the digits the
table has an entry for. -/
theorem displayAt_isSome_iff (ds : Digits) (i : Nat) (m : TFTSevenSegmentModule) (v : Int)
    (hm : ds i = some m) : (ds.displayAt i v).isSome = true ↔ 0 ≤ v ∧ v ≤ 9 := by
  simp only [displayAt, hm]
  constructor
  · intro hs
    obtain ⟨tr, htr⟩ := Option.isSome_iff_exists.mp hs
    obtain ⟨h0, leds, hl, _⟩ := (TFTSevenSegmentModule.display_eq_some_iff m v tr).mp htr
    refine ⟨h0, ?_⟩
    by_contra h9
    rw [TFTSevenSegmentModule.digitCodeMap_none _ (by omega)] at hl
    exact Option.noConfusion hl
  · rintro ⟨h0, h9⟩
    obtain ⟨leds, hl, _⟩ := TFTSevenSegmentModule.digitCodeMap_lookup v h0 h9
    rw [TFTSevenSegmentModule.display_eq_specTrace m v leds h0 hl]
    rfl

/-- The hundreds digit `(v / 100) % 10` the source computes for a non-negative value. -/
theorem hundreds_digit (v : Int) (h0 : 0 ≤ v) :
    0 ≤ Int.tmod (Int.tdiv v 100) 10 ∧ Int.tmod (Int.tdiv v 100) 10 ≤ 9 := by
  rw [Int.tdiv_eq_ediv h0 (by decide), Int.tmod_eq_emod (by omega) (by decide)]
  omega

end Digits

namespace TFTSevenSegmentDecimalDisplay

/-- With the three slots allocated, `display(hundreds, tens, ones)` on non-negative
arguments returns. -/
theorem decimal_display_some (d : TFTSevenSegmentDecimalDisplay) (hd : d.Allocated)
    (h t o : Int) (hh : 0 ≤ h) (ht : 0 ≤ t) (ho : 0 ≤ o) :
    ∃ d' tr, d.display h t o = some (d', tr) := by
  obtain ⟨mH, eH⟩ := hd HUNDREDS (by decide)
  obtain ⟨mT, eT⟩ := hd TENS (by decide)
  obtain ⟨mO, eO⟩ := hd ONES (by decide)
  obtain ⟨_, h0, h9⟩ := Digits.ones_digit h hh
  obtain ⟨_, t0, t9⟩ := Digits.ones_digit t ht
  obtain ⟨_, o0, o9⟩ := Digits.ones_digit o ho
  rw [← Int.tmod_eq_emod hh (by decide)] at h0 h9
  rw [← Int.tmod_eq_emod ht (by decide)] at t0 t9
  rw [← Int.tmod_eq_emod ho (by decide)] at o0 o9
  obtain ⟨m1, tr1, e1, _⟩ := Digits.showOrBlank d.digits HUNDREDS mH (Int.tmod h 10)
    (h > 0) eH h0 h9
  have eT1 : (Function.update d.digits HUNDREDS (some m1)) TENS = some mT := by
    rw [Function.update_noteq (by decide)]; exact eT
  obtain ⟨m2, tr2, e2, _⟩ := Digits.showOrBlank _ TENS mT (Int.tmod t 10)
    (t > 0 ∨ h > 0) eT1 t0 t9
  have eO2 : (Function.update (Function.update d.digits HUNDREDS (some m1)) TENS (some m2))
      ONES = some mO := by
    rw [Function.update_noteq (by decide), Function.update_noteq (by decide)]; exact eO
  obtain ⟨m3, tr3, e3, _⟩ := Digits.showOrBlank _ ONES mO (Int.tmod o 10)
    (t > 0 ∨ h > 0 ∨ o > 0) eO2 o0 o9
  refine ⟨{ d with digits := Function.update (Function.update
    (Function.update d.digits HUNDREDS (some m1)) TENS (some m2)) ONES (some m3) },
    tr1 ++ tr2 ++ tr3, ?_⟩
  simp only [display, e1, e2, e3, Option.bind_eq_bind, Option.some_bind, Option.pure_def]

end TFTSevenSegmentDecimalDisplay

namespace TFTSevenSegmentClockDisplay

/-- With the owned slots allocated, `display` on non-negative arguments returns. -/
theorem clock_display_some (c : TFTSevenSegmentClockDisplay) (hc : c.Allocated)
    (hours minutes seconds : Int) (sep : Bool) (hh : 0 ≤ hours) (hm : 0 ≤ minutes)
    (hs : 0 ≤ seconds) :
    ∃ c' tr, c.display hours minutes seconds sep = some (c', tr) := by
  have hfirst : firstDigit c.m_showHours ≤ 2 := by
    unfold firstDigit; split <;> decide
  obtain ⟨m3, h3⟩ := hc MM2 (by simp only [MM2]; omega) (by decide)
  obtain ⟨m4, h4⟩ := hc SS1 (by simp only [SS1]; omega) (by decide)
  obtain ⟨m5, h5⟩ := hc SS2 (by simp only [SS2]; omega) (by decide)
  obtain ⟨c', _, _, _, _, _, _, _, _, _, e, _⟩ :=
    rendersTime_of_allocated c hc m3 m4 m5 h3 h4 h5 hours minutes seconds sep hh hm hs
  exact ⟨c', _, e⟩

end TFTSevenSegmentClockDisplay

/-- Claim C28: a module `display` is defined exactly for the digits 0..9; the digit
expressions of the source (`v % 10`, `(v / 10) % 10`, `(v / 100) % 10`) lie in 0..9 for
every non-negative `v`; and on a display whose owned slots are allocated, clock
`display(hours, minutes, seconds, sep)`, `displaySeconds(t, sep)` and
`displayMillis(t, sep)`, decimal `display(number)` and decimal
`display(hundreds, tens, ones)` return on non-negative arguments, which they do only if
every table lookup they make is in range. -/
theorem displays_pass_digits_in_range (c : TFTSevenSegmentClockDisplay)
    (d : TFTSevenSegmentDecimalDisplay) (hc : c.Allocated) (hd : d.Allocated)
    (hours minutes seconds t number hundreds tens ones : Int) (sep : Bool)
    (h1 : 0 ≤ hours) (h2 : 0 ≤ minutes) (h3 : 0 ≤ seconds) (h4 : 0 ≤ t) (h5 : 0 ≤ number)
    (h6 : 0 ≤ hundreds) (h7 : 0 ≤ tens) (h8 : 0 ≤ ones) :
    (∀ (m : TFTSevenSegmentModule) (v : Int), (m.display v).isSome = true ↔ 0 ≤ v ∧ v ≤ 9) ∧
    (∀ v : Int, 0 ≤ v →
      (0 ≤ Int.tmod v 10 ∧ Int.tmod v 10 ≤ 9) ∧
      (0 ≤ Int.tmod (Int.tdiv v 10) 10 ∧ Int.tmod (Int.tdiv v 10) 10 ≤ 9) ∧
      (0 ≤ Int.tmod (Int.tdiv v 100) 10 ∧ Int.tmod (Int.tdiv v 100) 10 ≤ 9)) ∧
    (c.display hours minutes seconds sep).isSome = true ∧
    (c.displaySeconds t sep).isSome = true ∧
    (c.displayMillis t sep).isSome = true ∧
    (d.displayNumber number).isSome = true ∧
    (d.display hundreds tens ones).isSome = true := by
  have hclock : ∀ a b e : Int, 0 ≤ a → 0 ≤ b → 0 ≤ e →
      (c.display a b e sep).isSome = true := by
    intro a b e ha hb he
    obtain ⟨c', tr, h⟩ := TFTSevenSegmentClockDisplay.clock_display_some c hc a b e sep ha hb he
    rw [h]; rfl
  have hdec : ∀ a b e : Int, 0 ≤ a → 0 ≤ b → 0 ≤ e → (d.display a b e).isSome = true := by
    intro a b e ha hb he
    obtain ⟨d', tr, h⟩ := TFTSevenSegmentDecimalDisplay.decimal_display_some d hd a b e ha hb he
    rw [h]; rfl
  have hsec : ∀ u : Int, 0 ≤ u → (c.displaySeconds u sep).isSome = true := by
    intro u hu
    unfold TFTSevenSegmentClockDisplay.displaySeconds
    exact hclock _ _ _ (Int.tmod_nonneg _ (Int.tdiv_nonneg hu (by decide)))
      (Int.tmod_nonneg _ (Int.tdiv_nonneg hu (by decide))) (Int.tmod_nonneg _ hu)
  refine ⟨?_, ?_, hclock _ _ _ h1 h2 h3, hsec t h4, ?_, ?_, hdec _ _ _ h6 h7 h8⟩
  · intro m v
    have h := Digits.displayAt_isSome_iff (fun _ => some m) 0 m v rfl
    simpa [Digits.displayAt] using h
  · intro v hv
    obtain ⟨e1, a1, b1⟩ := Digits.ones_digit v hv
    obtain ⟨e2, a2, b2⟩ := Digits.tens_digit v hv
    rw [← e1] at a1 b1
    rw [← e2] at a2 b2
    exact ⟨⟨a1, b1⟩, ⟨a2, b2⟩, Digits.hundreds_digit v hv⟩
  · unfold TFTSevenSegmentClockDisplay.displayMillis
    exact hsec _ (Int.tdiv_nonneg h4 (by decide))
  · unfold TFTSevenSegmentDecimalDisplay.displayNumber
    exact hdec _ _ _ (Int.tmod_nonneg _ (Int.tdiv_nonneg h5 (by decide)))
      (Int.tmod_nonneg _ (Int.tdiv_nonneg h5 (by decide))) (Int.tmod_nonneg _ h5)

/-- Witness of C28: the sample clock and the sample decimal display, on the time
23:59:58, 86398 seconds, 86398 milliseconds, the number 999 and the digits 12, 34,
56. -/
theorem displays_pass_digits_in_range_witness :
    (sampleClockState.display 23 59 58 true).isSome = true ∧
    (sampleClockState.displaySeconds 86398 true).isSome = true ∧
    (sampleClockState.displayMillis 86398 true).isSome = true ∧
    (sampleDecimal.displayNumber 999).isSome = true ∧
    (sampleDecimal.display 12 34 56).isSome = true :=
  (displays_pass_digits_in_range sampleClockState sampleDecimal
    (TFTSevenSegmentClockDisplay.allocated_of_inv _ sampleClockState_inv)
    (TFTSevenSegmentDecimalDisplay.new_allocated 0 0 16 32 255 0 3)
    23 59 58 86398 999 12 34 56 true (by decide) (by decide) (by decide) (by decide)
    (by decide) (by decide) (by decide) (by decide)).2.2

/-! ### The unallocated hours slots of a clock without hours -/

namespace TFTSevenSegmentClockDisplay

/-- A state with the same `m_showHours` and the same slots allocated as a state with
hours hidden is a state with hours hidden. -/
theorem hoursHidden_of_pattern (c c' : TFTSevenSegmentClockDisplay) (hc : c.HoursHidden)
    (hs : c'.m_showHours = c.m_showHours)
    (hp : ∀ j, (c'.digits j).isSome = (c.digits j).isSome) : c'.HoursHidden := by
  obtain ⟨h1, h2, h3, h4⟩ := hc
  refine ⟨hs.trans h1, ?_, ?_, fun i hi1 hi2 => ?_⟩
  · have := hp HH1
    rw [h2] at this
    simpa using this
  · have := hp HH2
    rw [h3] at this
    simpa using this
  · obtain ⟨m, hm⟩ := h4 i hi1 hi2
    have := hp i
    rw [hm] at this
    exact Option.isSome_iff_exists.mp this

/-- With hours hidden the owned slots are the four minutes and seconds slots. -/
theorem allocated_of_hoursHidden (c : TFTSevenSegmentClockDisplay) (hc : c.HoursHidden) :
    c.Allocated := by
  intro i h1 h2
  rw [hc.1] at h1
  exact hc.2.2.2 i h1 h2

/-- With hours hidden `display` returns on non-negative minutes and seconds, whatever
the hours argument, and leaves the hours slots unassigned. -/
theorem display_of_hoursHidden (c : TFTSevenSegmentClockDisplay) (hc : c.HoursHidden)
    (hours minutes seconds : Int) (sep : Bool) (hm : 0 ≤ minutes) (hs : 0 ≤ seconds) :
    ∃ c' tr, c.display hours minutes seconds sep = some (c', tr) ∧ c'.HoursHidden := by
  obtain ⟨m2, h2⟩ := hc.2.2.2 MM1 (le_refl _) (by decide)
  obtain ⟨m3, h3⟩ := hc.2.2.2 MM2 (by decide) (by decide)
  obtain ⟨m4, h4⟩ := hc.2.2.2 SS1 (by decide) (by decide)
  obtain ⟨m5, h5⟩ := hc.2.2.2 SS2 (by decide) (by decide)
  obtain ⟨mm1, t1, t2, t3, t4, e, _⟩ := display_core c minutes seconds m2 m3 m4 m5 hm hs
    h2 h3 h4 h5
  have e1 := e hours sep
  rw [hc.1] at e1
  simp only [Bool.false_eq_true, if_false, Option.some_bind] at e1
  refine ⟨_, _, e1, ?_⟩
  obtain ⟨hs', hp⟩ := display_frame c _ hours minutes seconds sep _ e1
  refine hoursHidden_of_pattern c _ hc hs' (fun j => ?_)
  have := (hp j).1
  simpa [Digits.onFlag] using this

/-- With hours hidden a bulk setter returns and leaves the hours slots unassigned. -/
theorem modifyRange_of_hoursHidden (c : TFTSevenSegmentClockDisplay) (hc : c.HoursHidden)
    (f : TFTSevenSegmentModule → TFTSevenSegmentModule) :
    ∃ ds, c.digits.modifyRange (firstDigit c.m_showHours) DIGITS f = some ds ∧
      ∀ j, (ds j).isSome = (c.digits j).isSome := by
  obtain ⟨ds, h, _⟩ := Digits.modifyRange_sets c.digits (firstDigit c.m_showHours) DIGITS f
    (fun _ => True) (fun _ => trivial) (allocated_of_hoursHidden c hc)
  refine ⟨ds, h, fun j => ?_⟩
  have := Digits.foldlM_modify_map (fun _ => ()) f (fun _ => rfl) _ c.digits ds h j
  cases h1 : ds j <;> cases h2 : c.digits j <;> simp [h1, h2] at this ⊢

/-- With hours hidden the destructor frees the four owned modules and returns. -/
theorem destroy_of_hoursHidden (c : TFTSevenSegmentClockDisplay) (hc : c.HoursHidden) :
    ∃ ds, c.destroy = some ds ∧ ∀ i, i < DIGITS → ds i = none := by
  obtain ⟨hs, h0, h1, ha⟩ := hc
  obtain ⟨m2, h2⟩ := ha MM1 (le_refl _) (by decide)
  obtain ⟨m3, h3⟩ := ha MM2 (by decide) (by decide)
  obtain ⟨m4, h4⟩ := ha SS1 (by decide) (by decide)
  obtain ⟨m5, h5⟩ := ha SS2 (by decide) (by decide)
  simp only [MM1, MM2, SS1, SS2, HH1, HH2] at h0 h1 h2 h3 h4 h5
  refine ⟨Function.update (Function.update (Function.update (Function.update c.digits
    2 none) 3 none) 4 none) 5 none, ?_, ?_⟩
  · simp [destroy, hs, firstDigit, DIGITS, List.range', Digits.deleteAt, h2, h3, h4, h5,
      Function.update]
  · intro i hi
    simp only [DIGITS] at hi
    interval_cases i <;> simp [Function.update, h0, h1]

/-- Claim C29: the constructor called with hours hidden leaves the two hours slots
unassigned and allocates the four others; from every such state `display` (whatever
the hours argument), `displaySeconds`, `displayMillis`, `setOnColor`, `setOffColor` and
`setLedSegmentWidth` return with the hours slots still unassigned, `getWidth`,
`getHeight`, `getSegmentModuleWidth` and `getSegmentModuleHeight` return, and the
destructor returns having freed the four owned modules.  An operation that touched an
unassigned slot would not return. -/
theorem hidden_hours_slots_untouched (c : TFTSevenSegmentClockDisplay)
    (hc : c.HoursHidden) (hours minutes seconds t : Int) (sep : Bool) (color : Nat)
    (ledWidth : Int) (hm : 0 ≤ minutes) (hs : 0 ≤ seconds) (ht : 0 ≤ t) :
    (∀ (x y w h : Int) (onColor offColor : Nat) (L : Int) (r : Ratio),
      ∃ c0, new x y w h onColor offColor L false r = some c0 ∧ c0.HoursHidden) ∧
    (∃ c' tr, c.display hours minutes seconds sep = some (c', tr) ∧ c'.HoursHidden) ∧
    (∃ c' tr, c.displaySeconds t sep = some (c', tr) ∧ c'.HoursHidden) ∧
    (∃ c' tr, c.displayMillis t sep = some (c', tr) ∧ c'.HoursHidden) ∧
    (∃ c', c.setOnColor color = some c' ∧ c'.HoursHidden) ∧
    (∃ c', c.setOffColor color = some c' ∧ c'.HoursHidden) ∧
    (∃ c', c.setLedSegmentWidth ledWidth = some c' ∧ c'.HoursHidden) ∧
    c.getWidth.isSome = true ∧ c.getHeight.isSome = true ∧
    c.getSegmentModuleWidth.isSome = true ∧ c.getSegmentModuleHeight.isSome = true ∧
    (∃ ds, c.destroy = some ds ∧ ∀ i, i < DIGITS → ds i = none) := by
  have hsec : ∀ u : Int, 0 ≤ u →
      ∃ c' tr, c.displaySeconds u sep = some (c', tr) ∧ c'.HoursHidden := by
    intro u hu
    unfold displaySeconds
    exact display_of_hoursHidden c hc _ _ _ sep
      (Int.tmod_nonneg _ (Int.tdiv_nonneg hu (by decide))) (Int.tmod_nonneg _ hu)
  have hset : ∀ (f : TFTSevenSegmentModule → TFTSevenSegmentModule)
      (g : TFTSevenSegmentDisplay → TFTSevenSegmentDisplay),
      ∃ ds, c.digits.modifyRange (firstDigit c.m_showHours) DIGITS f = some ds ∧
        ({ c with digits := ds, toTFTSevenSegmentDisplay := g c.toTFTSevenSegmentDisplay } :
          TFTSevenSegmentClockDisplay).HoursHidden := by
    intro f g
    obtain ⟨ds, h, hp⟩ := modifyRange_of_hoursHidden c hc f
    exact ⟨ds, h, hoursHidden_of_pattern c _ hc rfl hp⟩
  obtain ⟨m2, h2⟩ := hc.2.2.2 MM1 (le_refl _) (by decide)
  obtain ⟨m4, h4⟩ := hc.2.2.2 SS1 (by decide) (by decide)
  obtain ⟨m5, h5⟩ := hc.2.2.2 SS2 (by decide) (by decide)
  refine ⟨?_, display_of_hoursHidden c hc hours minutes seconds sep hm hs, hsec t ht, ?_,
    ?_, ?_, ?_, ?_, ?_, ?_, ?_, destroy_of_hoursHidden c hc⟩
  · intro x y w h onColor offColor L r
    obtain ⟨c0, e, e1, e2, e3, e4, e5, e6, e7⟩ :=
      new_hidden_modules x y w h onColor offColor L r
    refine ⟨c0, e, e1, e2, e3, fun i hi1 hi2 => ?_⟩
    simp only [MM1, DIGITS] at hi1 hi2
    simp only [MM1, MM2, SS1, SS2] at e4 e5 e6 e7
    interval_cases i
    · exact ⟨_, e4⟩
    · exact ⟨_, e5⟩
    · exact ⟨_, e6⟩
    · exact ⟨_, e7⟩
  · unfold displayMillis
    exact hsec _ (Int.tdiv_nonneg ht (by decide))
  · obtain ⟨ds, h, hh⟩ := hset (fun m => m.setOnColor color) (fun b => b.setOnColor color)
    exact ⟨_, by simp only [setOnColor, h, Option.bind_eq_bind, Option.some_bind,
      Option.pure_def]; rfl, hh⟩
  · obtain ⟨ds, h, hh⟩ := hset (fun m => m.setOffColor color) (fun b => b.setOffColor color)
    exact ⟨_, by simp only [setOffColor, h, Option.bind_eq_bind, Option.some_bind,
      Option.pure_def]; rfl, hh⟩
  · obtain ⟨ds, h, hh⟩ := hset (fun m => m.setLedWidth ledWidth)
      (fun b => b.setLedSegmentWidth ledWidth)
    exact ⟨_, by simp only [setLedSegmentWidth, h, Option.bind_eq_bind, Option.some_bind,
      Option.pure_def]; rfl, hh⟩
  · simp [getWidth, hc.1, h5, h2]
  · simp only [getHeight, h4, h2, Option.bind_eq_bind, Option.some_bind]
    split <;> rfl
  · simp [getSegmentModuleWidth, h2]
  · simp [getSegmentModuleHeight, h2]

end TFTSevenSegmentClockDisplay

/-- Witness of C29: the sample clock constructed with hours hidden. -/
theorem hidden_hours_slots_untouched_witness :
    sampleClockNoHoursState.HoursHidden ∧
    (∃ c' tr, sampleClockNoHoursState.display 7 5 3 true = some (c', tr) ∧
      c'.HoursHidden) ∧
    (∃ c', sampleClockNoHoursState.setLedSegmentWidth 2 = some c' ∧ c'.HoursHidden) ∧
    sampleClockNoHoursState.getWidth.isSome = true ∧
    (∃ ds, sampleClockNoHoursState.destroy = some ds ∧
      ∀ i, i < TFTSevenSegmentClockDisplay.DIGITS → ds i = none) :=
  have hh : sampleClockNoHoursState.HoursHidden :=
    ⟨by decide, by decide, by decide, fun i h1 h2 => by
      simp only [TFTSevenSegmentClockDisplay.MM1, TFTSevenSegmentClockDisplay.DIGITS] at h1 h2
      interval_cases i <;> exact Option.isSome_iff_exists.mp (by decide)⟩
  have h := TFTSevenSegmentClockDisplay.hidden_hours_slots_untouched
    sampleClockNoHoursState hh 7 5 3 0 true 0 2 (by decide) (by decide) (by decide)
  ⟨hh, h.2.1, h.2.2.2.2.2.2.1, h.2.2.2.2.2.2.2.1, h.2.2.2.2.2.2.2.2.2.2.2⟩

/-! ### Lengths of the lines of a segment -/

namespace TFTSevenSegmentModule

/-- The iterations of a source loop are the integers from 0 up to the bound. -/
theorem mem_loopIndices (bound i : Int) : i ∈ loopIndices bound ↔ 0 ≤ i ∧ i < bound := by
  rw [loopIndices_eq]
  simp only [List.mem_map, List.mem_range]
  constructor
  · rintro ⟨a, ha, rfl⟩
    omega
  · rintro ⟨h0, h1⟩
    exact ⟨i.toNat, by omega, by omega⟩

/-- A property the two brackets have holds of a bracketed loop when it holds of every
call of the loop body. -/
theorem forall_mem_bracket (P : DrawCall → Prop) (hs : P DrawCall.startWrite)
    (he : P DrawCall.endWrite) (body : List DrawCall) :
    (∀ call ∈ [DrawCall.startWrite] ++ body ++ [DrawCall.endWrite], P call)
      ↔ ∀ call ∈ body, P call := by
  constructor
  · intro h call hc
    exact h call (by simp [hc])
  · intro h call hc
    simp only [List.mem_append, List.mem_singleton] at hc
    rcases hc with (rfl | hc) | rfl
    · exact hs
    · exact h call hc
    · exact he

/-- The lines of a loop `for (i = 0; i < bound; i++)` drawing one line of length `n i`
per iteration are all positive iff `n i` is positive at every iteration. -/
theorem positive_loop (bound : Int) (f : Int → DrawCall) (n : Int → Int)
    (hf : ∀ i, (f i).positive = decide (0 < n i)) :
    (∀ call ∈ [DrawCall.startWrite] ++ (loopIndices bound).map f ++ [DrawCall.endWrite],
        call.positive = true)
      ↔ ∀ i, 0 ≤ i → i < bound → 0 < n i := by
  rw [forall_mem_bracket (fun call => call.positive = true) rfl rfl]
  simp only [List.forall_mem_map, mem_loopIndices, hf, decide_eq_true_eq]
  exact ⟨fun h i h0 h1 => h i ⟨h0, h1⟩, fun h i hi => h i hi.1 hi.2⟩

/-- A decreasing length `a - 2 i` is positive at every iteration below the bound iff the
loop does not run or the length is positive at the last iteration. -/
theorem forall_lt_bound (bound a : Int) :
    (∀ i : Int, 0 ≤ i → i < bound → 0 < a - 2 * i) ↔ bound ≤ 0 ∨ 2 * bound - 2 < a := by
  constructor
  · intro h
    by_cases hb : bound ≤ 0
    · exact Or.inl hb
    · have := h (bound - 1) (by omega) (by omega)
      exact Or.inr (by omega)
  · rintro (h | h) i h0 h1 <;> omega

/-- The four vertical drawers emit lines of positive length only iff the led thickness
is zero or negative, or the shortest line, the last, is positive:
`2 * L - 2 < H / 2`. -/
theorem positive_vertical (m : TFTSevenSegmentModule) (color : Nat) :
    ((∀ call ∈ m.draw_F_LeftUpperLed color, call.positive = true)
      ↔ m.m_ledWidth ≤ 0 ∨ 2 * m.m_ledWidth - 2 < Int.tdiv m.m_h 2) ∧
    ((∀ call ∈ m.draw_E_LeftBottomLed color, call.positive = true)
      ↔ m.m_ledWidth ≤ 0 ∨ 2 * m.m_ledWidth - 2 < Int.tdiv m.m_h 2) ∧
    ((∀ call ∈ m.draw_B_RightUpperLed color, call.positive = true)
      ↔ m.m_ledWidth ≤ 0 ∨ 2 * m.m_ledWidth - 2 < Int.tdiv m.m_h 2) ∧
    ((∀ call ∈ m.draw_C_RightBottomLed color, call.positive = true)
      ↔ m.m_ledWidth ≤ 0 ∨ 2 * m.m_ledWidth - 2 < Int.tdiv m.m_h 2) := by
  refine ⟨?_, ?_, ?_, ?_⟩ <;>
    rw [← forall_lt_bound] <;>
    exact positive_loop _ _ (fun i => Int.tdiv m.m_h 2 - 2 * i) (fun _ => rfl)

/-- The drawers of the top and bottom segments emit lines of positive length only iff,
for a thickness below 2, the width is positive and, for a thickness of 2 or more, the
shortest line, the last, is positive: `2 * L + 4 ≤ W`. -/
theorem positive_horizontal (m : TFTSevenSegmentModule) (color : Nat) :
    ((∀ call ∈ m.draw_A_UpperLed color, call.positive = true)
      ↔ if m.m_ledWidth < 2 then 0 < m.m_w else 2 * m.m_ledWidth + 4 ≤ m.m_w) ∧
    ((∀ call ∈ m.draw_D_BottomLed color, call.positive = true)
      ↔ if m.m_ledWidth < 2 then 0 < m.m_w else 2 * m.m_ledWidth + 4 ≤ m.m_w) := by
  have key : ∀ f : Int → DrawCall, (∀ i, (f i).positive = decide (0 < m.m_w - 5 - 2 * i)) →
      ¬ m.m_ledWidth < 2 →
      ((∀ call ∈ [DrawCall.startWrite] ++ (loopIndices m.m_ledWidth).map f
          ++ [DrawCall.endWrite], call.positive = true) ↔ 2 * m.m_ledWidth + 4 ≤ m.m_w) := by
    intro f hf hL
    rw [positive_loop _ f (fun i => m.m_w - 5 - 2 * i) hf, forall_lt_bound]
    omega
  constructor
  · unfold draw_A_UpperLed
    split_ifs with hL
    · rw [forall_mem_bracket (fun call => call.positive = true) rfl rfl]
      simp [DrawCall.positive]
    · exact key _ (fun i => by simp only [DrawCall.positive]; congr 2; ring) hL
  · unfold draw_D_BottomLed
    split_ifs with hL
    · rw [forall_mem_bracket (fun call => call.positive = true) rfl rfl]
      simp [DrawCall.positive]
    · exact key _ (fun i => by simp only [DrawCall.positive]; congr 2; ring) hL

/-- The drawer of the middle segment emits lines of positive length only iff, for a
thickness below 2, the width is positive and, for a thickness of 2 or more, the
shortest pair of lines, the last, is positive. -/
theorem positive_middle (m : TFTSevenSegmentModule) (color : Nat) :
    (∀ call ∈ m.draw_G_MiddleLed color, call.positive = true)
      ↔ if m.m_ledWidth < 2 then 0 < m.m_w
        else 2 * (Int.tdiv m.m_ledWidth 2 + Int.tmod m.m_ledWidth 2) + 3 ≤ m.m_w := by
  unfold draw_G_MiddleLed
  rw [forall_mem_bracket (fun call => call.positive = true) rfl rfl]
  by_cases hL : m.m_ledWidth < 2
  · simp [hL, DrawCall.positive]
  · have hk := (half_thickness m.m_ledWidth (by omega)).1
    have h1 : m.m_ledWidth > 1 := by omega
    simp only [hL, if_false, h1, if_true, List.mem_flatMap, mem_loopIndices,
      List.mem_append, List.mem_singleton, forall_exists_index, and_imp]
    constructor
    · intro h
      have := h _ (Int.tdiv m.m_ledWidth 2 + Int.tmod m.m_ledWidth 2 - 1) (by omega)
        (by omega) (Or.inl rfl)
      simp only [DrawCall.positive, decide_eq_true_eq] at this
      omega
    · rintro h call i h0 h1 (rfl | rfl) <;>
        simp only [DrawCall.positive, decide_eq_true_eq] <;> omega

/-- The truncating half of the source, by the floor division of the integers. -/
theorem tdiv_two (H : Int) : Int.tdiv H 2 = if 0 ≤ H then H / 2 else -((-H) / 2) := by
  split_ifs with h
  · exact Int.tdiv_eq_ediv h (by decide)
  · have : Int.tdiv H 2 = -Int.tdiv (-H) 2 := by rw [Int.neg_tdiv, neg_neg]
    rw [this, Int.tdiv_eq_ediv (by omega) (by decide)]

/-- The lines `display` draws for a byte of the table all have positive length iff the
width is positive when the thickness is below 2, and `2 * L + 4 ≤ W` when it is 2 or
more, and `4 * L - 2 ≤ H` when it is 1 or more. -/
theorem positiveLines_specTrace (m : TFTSevenSegmentModule) (leds : Nat) :
    PositiveLines (m.specTrace leds) ↔
      (m.m_ledWidth < 2 → 0 < m.m_w) ∧ (2 ≤ m.m_ledWidth → 2 * m.m_ledWidth + 4 ≤ m.m_w) ∧
      (1 ≤ m.m_ledWidth → 4 * m.m_ledWidth - 2 ≤ m.m_h) := by
  have hv := fun c => positive_vertical m c
  have hh := fun c => positive_horizontal m c
  have hg := fun c => positive_middle m c
  simp only [PositiveLines, specTrace, Segment.all, List.flatMap_cons, List.flatMap_nil,
    List.append_nil, List.mem_append, or_imp, forall_and, drawSegment,
    (hv _).1, (hv _).2.1, (hv _).2.2.1, (hv _).2.2.2, (hh _).1, (hh _).2, hg]
  have e2 := tdiv_two m.m_h
  by_cases hL : m.m_ledWidth < 2
  · have h2 : ¬ 2 ≤ m.m_ledWidth := by omega
    simp only [hL, if_true, true_implies, h2, false_implies, true_and]
    rw [e2]
    split_ifs <;> constructor <;> intro h <;> refine ⟨?_, ?_⟩ <;> omega
  · have hk := (half_thickness m.m_ledWidth (by omega)).1
    have h2 : 2 ≤ m.m_ledWidth := by omega
    have h1 : 1 ≤ m.m_ledWidth := by omega
    simp only [hL, if_false, false_implies, true_and, h1, h2, true_implies]
    rw [hk, e2]
    split_ifs <;> constructor <;> intro h <;> omega

/-- Claim C27: for every module with L >= 1, W >= 2*L + 4 and H >= 4*L - 2 (so
H/2 >= 2*L - 1), and every d in 0..9, `display(d)` returns and every line it emits has
strictly positive length. -/
theorem display_lines_positive (m : TFTSevenSegmentModule) (d : Int)
    (hL : 1 ≤ m.m_ledWidth) (hW : 2 * m.m_ledWidth + 4 ≤ m.m_w)
    (hH : 4 * m.m_ledWidth - 2 ≤ m.m_h) (h0 : 0 ≤ d) (h9 : d ≤ 9) :
    2 * m.m_ledWidth - 1 ≤ Int.tdiv m.m_h 2 ∧
    ∃ tr, m.display d = some tr ∧ PositiveLines tr := by
  constructor
  · rw [tdiv_two]
    split_ifs <;> omega
  · obtain ⟨leds, hl, _⟩ := digitCodeMap_lookup d h0 h9
    refine ⟨m.specTrace leds, display_eq_specTrace m d leds h0 hl, ?_⟩
    rw [positiveLines_specTrace]
    refine ⟨fun _ => ?_, fun _ => hW, fun _ => hH⟩
    omega

/-- Claim C21, amended: for every module geometry with led thickness L >= 0 and every d
in 0..9, no line emitted by `display(d)` has a zero or negative length if and only if
W >= 1 when L <= 1, H >= 2 when L = 1, and W >= 2*L + 4 and H >= 4*L - 2 when L >= 2. -/
theorem positive_lines_iff_geometry (m : TFTSevenSegmentModule) (d : Int)
    (hL : 0 ≤ m.m_ledWidth) (h0 : 0 ≤ d) (h9 : d ≤ 9) :
    ∃ tr, m.display d = some tr ∧
      (PositiveLines tr ↔
        (m.m_ledWidth ≤ 1 → 1 ≤ m.m_w) ∧ (m.m_ledWidth = 1 → 2 ≤ m.m_h) ∧
        (2 ≤ m.m_ledWidth → 2 * m.m_ledWidth + 4 ≤ m.m_w ∧ 4 * m.m_ledWidth - 2 ≤ m.m_h)) := by
  obtain ⟨leds, hl, _⟩ := digitCodeMap_lookup d h0 h9
  refine ⟨m.specTrace leds, display_eq_specTrace m d leds h0 hl, ?_⟩
  rw [positiveLines_specTrace]
  constructor
  · rintro ⟨a, b, c⟩
    refine ⟨fun h => ?_, fun h => ?_, fun h => ⟨b h, c (by omega)⟩⟩
    · have := a (by omega)
      omega
    · have := c (by omega)
      omega
  · rintro ⟨a, b, c⟩
    refine ⟨fun h => ?_, fun h => (c h).1, fun h => ?_⟩
    · have := a (by omega)
      omega
    · by_cases h1 : m.m_ledWidth = 1
      · have := b h1
        omega
      · exact (c (by omega)).2

end TFTSevenSegmentModule

/-- Claim C21 as stated fails: the module with led thickness 3, width 6 and height 6
meets L >= 0, W >= 2*L and H >= 2*L, and `display(8)` emits lines of length 0, -1 and
-3 on it. -/
theorem display_tight_module_nonpositive_lines :
    (0 : Int) ≤ tightModule.m_ledWidth ∧ 2 * tightModule.m_ledWidth ≤ tightModule.m_w ∧
    2 * tightModule.m_ledWidth ≤ tightModule.m_h ∧
    (tightModule.display 8).map (fun tr => tr.filter (fun call => !call.positive))
      = some [DrawCall.writeFastHLine 4 1 (-1) 255, DrawCall.writeFastHLine 5 2 (-3) 255,
          DrawCall.writeFastVLine 4 2 (-1) 255, DrawCall.writeFastVLine 4 6 (-1) 255,
          DrawCall.writeFastHLine 4 5 (-1) 255, DrawCall.writeFastHLine 5 4 (-3) 255,
          DrawCall.writeFastVLine 2 6 (-1) 255, DrawCall.writeFastVLine 2 2 (-1) 255,
          DrawCall.writeFastHLine 3 2 0 255, DrawCall.writeFastHLine 3 5 0 255] := by
  refine ⟨by decide, by decide, by decide, by decide⟩

/-- Witness of the amended C21: the sample module (L = 3, W = 16, H = 32) showing 8, and
the module with L = 3, W = 6, H = 6, on which the condition fails. -/
theorem positive_lines_iff_geometry_witness :
    (∃ tr, sampleModule.display 8 = some tr ∧ PositiveLines tr) ∧
    (∃ tr, tightModule.display 8 = some tr ∧ ¬ PositiveLines tr) :=
  ⟨(TFTSevenSegmentModule.positive_lines_iff_geometry sampleModule 8 (by decide) (by decide)
      (by decide)).imp (fun _ h => ⟨h.1, h.2.mpr ⟨by decide, by decide, by decide⟩⟩),
   (TFTSevenSegmentModule.positive_lines_iff_geometry tightModule 8 (by decide) (by decide)
      (by decide)).imp (fun _ h => ⟨h.1, fun hp => absurd ((h.2.mp hp).2.2 (by decide)).1
        (by decide)⟩)⟩

/-- Witness of C27: the sample module (L = 3, W = 16 >= 10, H = 32 >= 10) showing 8. -/
theorem display_lines_positive_witness :
    2 * sampleModule.m_ledWidth - 1 ≤ Int.tdiv sampleModule.m_h 2 ∧
    ∃ tr, sampleModule.display 8 = some tr ∧ PositiveLines tr :=
  TFTSevenSegmentModule.display_lines_positive sampleModule 8 (by decide) (by decide)
    (by decide) (by decide) (by decide)

/-! ### Pixels of the segments -/

namespace TFTSevenSegmentModule

/-- A pixel is covered by a bracketed loop iff it is covered by a call of the loop
body. -/
theorem any_covers_bracket (body : List DrawCall) (p : Int × Int) :
    ([DrawCall.startWrite] ++ body ++ [DrawCall.endWrite]).any (fun call => call.covers p)
        = true
      ↔ ∃ call ∈ body, call.covers p = true := by
  simp [List.any_eq_true, DrawCall.covers]

/-- The pixels of the segments of a module with led thickness 2 or more: each lies on
the line of some iteration `i` of the drawer's loop. -/
theorem segmentCovers_bounds (m : TFTSevenSegmentModule) (hL : 2 ≤ m.m_ledWidth)
    (p : Int × Int) :
    (m.segmentCovers Segment.A p = true → ∃ i : Int, 0 ≤ i ∧ i < m.m_ledWidth ∧
      p.2 = m.m_y + i ∧ m.m_x + i + 3 ≤ p.1 ∧ p.1 < m.m_x + i + 3 + (m.m_w - 2 * i - 5)) ∧
    (m.segmentCovers Segment.B p = true → ∃ i : Int, 0 ≤ i ∧ i < m.m_ledWidth ∧
      p.1 = m.m_x + m.m_w - i ∧ m.m_y + i ≤ p.2 ∧
      p.2 < m.m_y + i + (Int.tdiv m.m_h 2 - 2 * i)) ∧
    (m.segmentCovers Segment.C p = true → ∃ i : Int, 0 ≤ i ∧ i < m.m_ledWidth ∧
      p.1 = m.m_x + m.m_w - i ∧ m.m_y + Int.tdiv m.m_h 2 + i + 1 ≤ p.2 ∧
      p.2 < m.m_y + Int.tdiv m.m_h 2 + i + 1 + (Int.tdiv m.m_h 2 - 2 * i)) ∧
    (m.segmentCovers Segment.D p = true → ∃ i : Int, 0 ≤ i ∧ i < m.m_ledWidth ∧
      p.2 = m.m_y + m.m_h - i ∧ m.m_x + i + 3 ≤ p.1 ∧
      p.1 < m.m_x + i + 3 + (m.m_w - 2 * i - 5)) ∧
    (m.segmentCovers Segment.E p = true → ∃ i : Int, 0 ≤ i ∧ i < m.m_ledWidth ∧
      p.1 = m.m_x + i ∧ Int.tdiv m.m_h 2 + m.m_y + i + 1 ≤ p.2 ∧
      p.2 < Int.tdiv m.m_h 2 + m.m_y + i + 1 + (Int.tdiv m.m_h 2 - 2 * i)) ∧
    (m.segmentCovers Segment.F p = true → ∃ i : Int, 0 ≤ i ∧ i < m.m_ledWidth ∧
      p.1 = m.m_x + i ∧ m.m_y + i ≤ p.2 ∧ p.2 < m.m_y + i + (Int.tdiv m.m_h 2 - 2 * i)) ∧
    (m.segmentCovers Segment.G p = true → ∃ i : Int, 0 ≤ i ∧
      i < Int.tdiv m.m_ledWidth 2 + Int.tmod m.m_ledWidth 2 ∧
      (p.2 = m.m_y + Int.tdiv m.m_h 2 - i ∨ p.2 = m.m_y + Int.tdiv m.m_h 2 + i + 1) ∧
      m.m_x + i + 2 ≤ p.1 ∧ p.1 < m.m_x + i + 2 + (m.m_w - 2 * i - 4)) := by
  have h2 : ¬ m.m_ledWidth < 2 := by omega
  have h1 : m.m_ledWidth > 1 := by omega
  refine ⟨?_, ?_, ?_, ?_, ?_, ?_, ?_⟩ <;> intro h <;>
    simp only [segmentCovers, drawSegment, draw_A_UpperLed, draw_B_RightUpperLed,
      draw_C_RightBottomLed, draw_D_BottomLed, draw_E_LeftBottomLed, draw_F_LeftUpperLed,
      draw_G_MiddleLed, h2, if_false, h1, if_true] at h <;>
    rw [any_covers_bracket] at h <;>
    simp only [List.mem_map, List.mem_flatMap, mem_loopIndices, List.mem_append,
      List.mem_singleton] at h
  · obtain ⟨_, ⟨i, ⟨h0, hi⟩, rfl⟩, hc⟩ := h
    simp only [DrawCall.covers, decide_eq_true_eq] at hc
    exact ⟨i, h0, hi, hc⟩
  · obtain ⟨_, ⟨i, ⟨h0, hi⟩, rfl⟩, hc⟩ := h
    simp only [DrawCall.covers, decide_eq_true_eq] at hc
    exact ⟨i, h0, hi, hc⟩
  · obtain ⟨_, ⟨i, ⟨h0, hi⟩, rfl⟩, hc⟩ := h
    simp only [DrawCall.covers, decide_eq_true_eq] at hc
    exact ⟨i, h0, hi, hc⟩
  · obtain ⟨_, ⟨i, ⟨h0, hi⟩, rfl⟩, hc⟩ := h
    simp only [DrawCall.covers, decide_eq_true_eq] at hc
    exact ⟨i, h0, hi, hc⟩
  · obtain ⟨_, ⟨i, ⟨h0, hi⟩, rfl⟩, hc⟩ := h
    simp only [DrawCall.covers, decide_eq_true_eq] at hc
    exact ⟨i, h0, hi, hc⟩
  · obtain ⟨_, ⟨i, ⟨h0, hi⟩, rfl⟩, hc⟩ := h
    simp only [DrawCall.covers, decide_eq_true_eq] at hc
    exact ⟨i, h0, hi, hc⟩
  · obtain ⟨_, ⟨i, ⟨h0, hi⟩, rfl | rfl⟩, hc⟩ := h <;>
      simp only [DrawCall.covers, decide_eq_true_eq] at hc
    · exact ⟨i, h0, hi, Or.inl hc.1, hc.2⟩
    · exact ⟨i, h0, hi, Or.inr hc.1, hc.2⟩

/-- Loop bodies that cover the same pixels at every iteration cover the same pixels
over the loop. -/
theorem exists_covers_congr (l : List Int) (f g : Int → List DrawCall) (p : Int × Int)
    (h : ∀ i, (∃ call ∈ f i, call.covers p = true) ↔ (∃ call ∈ g i, call.covers p = true)) :
    (∃ call ∈ l.flatMap f, call.covers p = true)
      ↔ (∃ call ∈ l.flatMap g, call.covers p = true) := by
  simp only [List.mem_flatMap]
  constructor
  · rintro ⟨call, ⟨i, hi, hm⟩, hc⟩
    obtain ⟨call', hm', hc'⟩ := (h i).mp ⟨call, hm, hc⟩
    exact ⟨call', ⟨i, hi, hm'⟩, hc'⟩
  · rintro ⟨call, ⟨i, hi, hm⟩, hc⟩
    obtain ⟨call', hm', hc'⟩ := (h i).mpr ⟨call, hm, hc⟩
    exact ⟨call', ⟨i, hi, hm'⟩, hc'⟩

/-- Which pixels a drawer covers does not depend on the colour it draws in. -/
theorem any_covers_color (m : TFTSevenSegmentModule) (s : Segment) (c c' : Nat)
    (p : Int × Int) :
    (m.drawSegment s c).any (fun call => call.covers p)
      = (m.drawSegment s c').any (fun call => call.covers p) := by
  rw [Bool.eq_iff_iff]
  cases s <;>
    simp only [drawSegment, draw_A_UpperLed, draw_B_RightUpperLed, draw_C_RightBottomLed,
      draw_D_BottomLed, draw_E_LeftBottomLed, draw_F_LeftUpperLed, draw_G_MiddleLed] <;>
    rw [any_covers_bracket, any_covers_bracket] <;>
    (try split_ifs) <;>
    first
      | (simp [DrawCall.covers]; done)
      | (apply exists_covers_congr
         intro i
         simp [DrawCall.covers])

/-- A call of a drawer paints nothing or paints in the drawer's colour. -/
theorem color_of_mem (m : TFTSevenSegmentModule) (s : Segment) (c : Nat)
    (call : DrawCall) (hm : call ∈ m.drawSegment s c) :
    call.color = none ∨ call.color = some c := by
  cases s <;>
    simp only [drawSegment, draw_A_UpperLed, draw_B_RightUpperLed, draw_C_RightBottomLed,
      draw_D_BottomLed, draw_E_LeftBottomLed, draw_F_LeftUpperLed, draw_G_MiddleLed] at hm <;>
    (try split_ifs at hm) <;>
    simp only [List.mem_append, List.mem_singleton, List.mem_map, List.mem_flatMap,
      List.mem_nil_iff, or_false] at hm <;>
    (try rcases hm with (rfl | rfl) | rfl) <;>
    (try rcases hm with (rfl | ⟨_, _, rfl⟩) | rfl) <;>
    (try rcases hm with (rfl | ⟨_, _, rfl | rfl⟩) | rfl) <;>
    simp [DrawCall.color]

/-- A call of a drawer that covers a pixel is a line in the drawer's colour. -/
theorem color_of_covers (m : TFTSevenSegmentModule) (s : Segment) (c : Nat)
    (call : DrawCall) (p : Int × Int) (hm : call ∈ m.drawSegment s c)
    (hc : call.covers p = true) : call.color = some c := by
  rcases color_of_mem m s c call hm with h | h
  · cases call <;> simp [DrawCall.color, DrawCall.covers] at h hc
  · exact h

/-- A call of a drawer that covers a pixel puts the pixel in the drawer's segment. -/
theorem segmentCovers_of_mem (m : TFTSevenSegmentModule) (s : Segment) (c : Nat)
    (call : DrawCall) (p : Int × Int) (hm : call ∈ m.drawSegment s c)
    (hc : call.covers p = true) : m.segmentCovers s p = true := by
  rw [segmentCovers, any_covers_color m s 0 c, List.any_eq_true]
  exact ⟨call, hm, hc⟩

/-- Disjointness of the seven segments of a module with led thickness 2 or more whose
strokes all have positive length. -/
theorem segmentCovers_disjoint (m : TFTSevenSegmentModule) (hL : 2 ≤ m.m_ledWidth)
    (hW : 2 * m.m_ledWidth + 4 ≤ m.m_w) (hH : 4 * m.m_ledWidth - 2 ≤ m.m_h)
    (s t : Segment) (p : Int × Int) (hs : m.segmentCovers s p = true)
    (ht : m.segmentCovers t p = true) : s = t := by
  obtain ⟨bA, bB, bC, bD, bE, bF, bG⟩ := segmentCovers_bounds m hL p
  have hk := (half_thickness m.m_ledWidth hL).1
  have e2 := tdiv_two m.m_h
  rw [if_pos (by omega)] at e2
  rw [hk] at bG
  generalize Int.tdiv m.m_h 2 = hh at *
  cases s <;> cases t <;> first
    | rfl
    | (exfalso
       first
        | with_reducible (replace hs := bA hs)
        | with_reducible (replace hs := bB hs)
        | with_reducible (replace hs := bC hs)
        | with_reducible (replace hs := bD hs)
        | with_reducible (replace hs := bE hs)
        | with_reducible (replace hs := bF hs)
        | with_reducible (replace hs := bG hs)
       first
        | with_reducible (replace ht := bA ht)
        | with_reducible (replace ht := bB ht)
        | with_reducible (replace ht := bC ht)
        | with_reducible (replace ht := bD ht)
        | with_reducible (replace ht := bE ht)
        | with_reducible (replace ht := bF ht)
        | with_reducible (replace ht := bG ht)
       obtain ⟨i, hi⟩ := hs
       obtain ⟨j, hj⟩ := ht
       omega)

/-- Claim C22, amended: for every led thickness L >= 2 and every module with
W >= 2*L + 4 and H >= 4*L - 2, the pixel sets covered by the seven segments A..G are
pairwise disjoint; the pixels a segment covers are those its drawer covers in any
colour. -/
theorem segments_pairwise_disjoint (m : TFTSevenSegmentModule) (hL : 2 ≤ m.m_ledWidth)
    (hW : 2 * m.m_ledWidth + 4 ≤ m.m_w) (hH : 4 * m.m_ledWidth - 2 ≤ m.m_h) :
    (∀ (s : Segment) (c : Nat) (p : Int × Int),
      m.segmentCovers s p = (m.drawSegment s c).any (fun call => call.covers p)) ∧
    ∀ s t : Segment, s ≠ t → ∀ p : Int × Int,
      ¬ (m.segmentCovers s p = true ∧ m.segmentCovers t p = true) :=
  ⟨fun s c p => any_covers_color m s 0 c p,
   fun s t hst p h => hst (segmentCovers_disjoint m hL hW hH s t p h.1 h.2)⟩

end TFTSevenSegmentModule

/-- Claim C22 as stated fails for led thickness 1: on the module with L = 1, W = 6 =
2*L + 4 and H = 2 = 4*L - 2 the top segment A, one line over the full width, and the
upper left segment F both cover the pixel at the origin, and the bottom segment D and
the lower left segment E both cover the pixel (0, 2). -/
theorem thin_segments_share_pixels :
    (1 : Int) ≤ thinModule.m_ledWidth ∧ 2 * thinModule.m_ledWidth + 4 ≤ thinModule.m_w ∧
    4 * thinModule.m_ledWidth - 2 ≤ thinModule.m_h ∧
    thinModule.segmentCovers Segment.A (0, 0) = true ∧
    thinModule.segmentCovers Segment.F (0, 0) = true ∧
    thinModule.segmentCovers Segment.D (0, 2) = true ∧
    thinModule.segmentCovers Segment.E (0, 2) = true := by
  refine ⟨by decide, by decide, by decide, by decide, by decide, by decide, by decide⟩

/-- Witness of the amended C22: the sample module (L = 3, W = 16, H = 32); each of its
segments covers a pixel. -/
theorem segments_pairwise_disjoint_witness :
    (∀ s t : Segment, s ≠ t → ∀ p : Int × Int,
      ¬ (sampleModule.segmentCovers s p = true ∧ sampleModule.segmentCovers t p = true)) ∧
    sampleModule.segmentCovers Segment.A (3, 0) = true ∧
    sampleModule.segmentCovers Segment.B (16, 0) = true ∧
    sampleModule.segmentCovers Segment.C (16, 17) = true ∧
    sampleModule.segmentCovers Segment.D (3, 32) = true ∧
    sampleModule.segmentCovers Segment.E (0, 17) = true ∧
    sampleModule.segmentCovers Segment.F (0, 0) = true ∧
    sampleModule.segmentCovers Segment.G (2, 16) = true :=
  ⟨(TFTSevenSegmentModule.segments_pairwise_disjoint sampleModule (by decide) (by decide)
      (by decide)).2,
    by decide, by decide, by decide, by decide, by decide, by decide, by decide⟩

/-! ### Colours of the segments after a display -/

namespace Surface

/-- A pixel that some call of the trace paints in colour `c`, and that every call
covering it paints in colour `c`, has colour `c` after the trace. -/
theorem run_uniform (spans : DrawCall → Int × Int → Bool) (tr : List DrawCall)
    (p : Int × Int) (c : Nat)
    (hex : ∃ call ∈ tr, spans call p = true ∧ call.color = some c)
    (hall : ∀ call ∈ tr, spans call p = true → call.color = some c) (s : Surface) :
    run spans s tr p = c := by
  induction tr using List.reverseRecOn with
  | nil =>
    obtain ⟨_, h, _⟩ := hex
    simp at h
  | append_singleton l a ih =>
    have hrun : run spans s (l ++ [a]) = paint spans (run spans s l) a := by
      simp [run, List.foldl_append]
    rw [hrun]
    by_cases ha : spans a p = true
    · have hc := hall a (by simp) ha
      simp [paint, hc, ha]
    · have hl : run spans s l p = c := by
        apply ih
        · obtain ⟨call, hm, h1, h2⟩ := hex
          simp only [List.mem_append, List.mem_singleton] at hm
          rcases hm with hm | rfl
          · exact ⟨call, hm, h1, h2⟩
          · exact absurd h1 ha
        · intro call hm
          exact hall call (by simp [hm])
      cases hc : a.color with
      | none => simp [paint, hc, hl]
      | some c' => simp [paint, hc, ha, hl]

end Surface

namespace TFTSevenSegmentModule

/-- Claim C26: for every enabled module with L >= 2, W >= 2*L + 4 and H >= 4*L - 2,
every d in 0..9 and every initial surface, after `display(d)` each pixel covered by
segment s has `onColor` if bit s of the activation mask of d is set and `offColor`
otherwise: whatever the order of the drawers, no later segment overwrites it. -/
theorem display_colours_segments (m : TFTSevenSegmentModule) (hon : m.m_on = true)
    (hL : 2 ≤ m.m_ledWidth) (hW : 2 * m.m_ledWidth + 4 ≤ m.m_w)
    (hH : 4 * m.m_ledWidth - 2 ≤ m.m_h) (d : Int) (h0 : 0 ≤ d) (h9 : d ≤ 9)
    (s0 : Surface) :
    ∃ leds tr, digitCodeMap[d.toNat]? = some leds ∧ m.display d = some tr ∧
      ∀ (s : Segment) (p : Int × Int), m.segmentCovers s p = true →
        Surface.run DrawCall.covers s0 tr p
          = if leds.testBit s.bit then m.m_onColor else m.m_offColor := by
  obtain ⟨leds, hl, _⟩ := digitCodeMap_lookup d h0 h9
  refine ⟨leds, m.specTrace leds, hl, display_eq_specTrace m d leds h0 hl, ?_⟩
  intro s p hp
  have hmem : ∀ call, call ∈ m.specTrace leds ↔ ∃ t : Segment, call ∈ m.drawSegment t
      (if leds.testBit t.bit then m.m_onColor else m.m_offColor) := by
    intro call
    simp only [specTrace, Segment.all, List.mem_flatMap, hon, and_true]
    constructor
    · rintro ⟨t, _, h⟩
      exact ⟨t, h⟩
    · rintro ⟨t, h⟩
      exact ⟨t, by cases t <;> simp, h⟩
  apply Surface.run_uniform
  · rw [segmentCovers, any_covers_color m s 0
      (if leds.testBit s.bit then m.m_onColor else m.m_offColor), List.any_eq_true] at hp
    obtain ⟨call, hm, hc⟩ := hp
    exact ⟨call, (hmem call).mpr ⟨s, hm⟩, hc, color_of_covers m s _ call p hm hc⟩
  · intro call hm hc
    obtain ⟨t, ht⟩ := (hmem call).mp hm
    have hts : t = s :=
      segmentCovers_disjoint m hL hW hH t s p (segmentCovers_of_mem m t _ call p ht hc) hp
    subst hts
    exact color_of_covers m t _ call p ht hc

end TFTSevenSegmentModule

/-- Witness of C26: the sample module showing 1 on a black surface: a pixel of segment
B, lit, and a pixel of segment A, unlit. -/
theorem display_colours_segments_witness :
    ∃ leds tr, digitCodeMap[(1 : Int).toNat]? = some leds ∧
      sampleModule.display 1 = some tr ∧
      (sampleModule.segmentCovers Segment.B (16, 0) = true ∧
        Surface.run DrawCall.covers (fun _ => 0) tr (16, 0)
          = if leds.testBit Segment.B.bit then sampleModule.m_onColor
            else sampleModule.m_offColor) ∧
      (sampleModule.segmentCovers Segment.A (3, 0) = true ∧
        Surface.run DrawCall.covers (fun _ => 0) tr (3, 0)
          = if leds.testBit Segment.A.bit then sampleModule.m_onColor
            else sampleModule.m_offColor) :=
  (TFTSevenSegmentModule.display_colours_segments sampleModule rfl (by decide) (by decide)
    (by decide) 1 (by decide) (by decide) (fun _ => 0)).imp
    (fun _ h => h.imp (fun _ h => ⟨h.1, h.2.1,
      ⟨by decide, h.2.2 Segment.B (16, 0) (by decide)⟩,
      ⟨by decide, h.2.2 Segment.A (3, 0) (by decide)⟩⟩))
